import Mathlib

/-!
Snail lexer: a shallow embedding of `snail/compiler/lexer`

The Go package scans a source chunk (a Go `string`, i.e. a sequence of bytes)
into tokens.  Here a chunk is a `List Char`, one element per byte of the Go
string; the code only ever compares bytes with ASCII constants.  Go `int`s are
`Int`s (the line counter grows by at most one per consumed byte, so it cannot
overflow on a chunk that fits in memory).  A Go panic is an `Except.error`.
-/

namespace Snail

/-! ## Failures -/

/-- The ways a call can stop without returning: the panic raised by
`Lexer.syntaxError` (with its payload), the Go runtime panic of an out-of-range
slice or index expression, the `panic("unreachable!")` of `Lexer.scan`, and the
exhaustion of the fuel of a loop of this model. -/
inductive Failure where
  | syntaxError (payload : List Char)
  | outOfRange
  | unreachable
  | outOfFuel
  deriving DecidableEq

deriving instance DecidableEq for Except

/-! ## token.go -/

abbrev TokenEOF : Int := 0
abbrev TokenSepComma : Int := 1
abbrev TokenSepDot : Int := 2
abbrev TokenSepDomain : Int := 3
abbrev TokenSepLParen : Int := 4
abbrev TokenSepRParen : Int := 5
abbrev TokenSepLBrack : Int := 6
abbrev TokenSepRBrack : Int := 7
abbrev TokenSepLCurly : Int := 8
abbrev TokenSepRCurly : Int := 9
abbrev TokenOpAssign : Int := 10
abbrev TokenOpBNot : Int := 11
abbrev TokenOpAdd : Int := 12
abbrev TokenOpMinus : Int := 13
abbrev TokenOpMul : Int := 14
abbrev TokenOpPackDict : Int := 15
abbrev TokenOpDiv : Int := 16
abbrev TokenOpIDiv : Int := 17
abbrev TokenOpPow : Int := 18
abbrev TokenOpMod : Int := 19
abbrev TokenOpBand : Int := 20
abbrev TokenOpBor : Int := 21
abbrev TokenOpLT : Int := 22
abbrev TokenOpLE : Int := 23
abbrev TokenOpGT : Int := 24
abbrev TokenOpGE : Int := 25
abbrev TokenOpEQ : Int := 26
abbrev TokenOpNE : Int := 27
abbrev TokenOpAnd : Int := 28
abbrev TokenOpOr : Int := 29
abbrev TokenOpNot : Int := 30
abbrev TokenKwBreak : Int := 31
abbrev TokenKwContinue : Int := 32
abbrev TokenKwElse : Int := 33
abbrev TokenKwElseIf : Int := 34
abbrev TokenKwFalse : Int := 35
abbrev TokenKwFor : Int := 36
abbrev TokenKwFunction : Int := 37
abbrev TokenKwClass : Int := 38
abbrev TokenKwIf : Int := 39
abbrev TokenKwIn : Int := 40
abbrev TokenKwNil : Int := 41
abbrev TokenKwReturn : Int := 42
abbrev TokenKwTrue : Int := 43
abbrev TokenKwWhile : Int := 44
abbrev TokenIdentifier : Int := 45
abbrev TokenLiteralNumber : Int := 46
abbrev TokenLiteralString : Int := 47
abbrev TokenLiteralBytes : Int := 48
abbrev TokenOpUNM : Int := TokenOpMinus
abbrev TokenOpSub : Int := TokenOpMinus
abbrev TokenOpBXor : Int := TokenOpBNot
abbrev TokenOpPackTuple : Int := TokenOpMul
abbrev TokenOpUnpackTuple : Int := TokenOpMul
abbrev TokenOpUnpackDict : Int := TokenOpPackDict

/-- The map `keywords` of token.go, as an association list. -/
def keywordTable : List (List Char × Int) :=
  [ ("and".toList, TokenOpAnd),
    ("break".toList, TokenKwBreak),
    ("continue".toList, TokenKwContinue),
    ("else".toList, TokenKwElse),
    ("elseif".toList, TokenKwElseIf),
    ("false".toList, TokenKwFalse),
    ("for".toList, TokenKwFor),
    ("func".toList, TokenKwFunction),
    ("class".toList, TokenKwClass),
    ("if".toList, TokenKwIf),
    ("in".toList, TokenKwIn),
    ("nil".toList, TokenKwNil),
    ("not".toList, TokenOpNot),
    ("or".toList, TokenOpOr),
    ("return".toList, TokenKwReturn),
    ("true".toList, TokenKwTrue),
    ("while".toList, TokenKwWhile) ]

/-- The lookup `keywords[token]`: `some kind` when the key is present. -/
def keywords (token : List Char) : Option Int :=
  keywordTable.lookup token

/-! ## Character classes (the end of lexer.go) -/

/-- The single quote, byte 39. -/
abbrev squote : Char := Char.ofNat 39

/-- The double quote, byte 34. -/
abbrev dquote : Char := Char.ofNat 34

def isWhiteSpace (c : Char) : Bool :=
  c == '\t' || c == '\n' || c == '\x0b' || c == '\x0c' || c == '\r' || c == ' '

def isNewLine (c : Char) : Bool :=
  c == '\r' || c == '\n'

def isDigit (c : Char) : Bool :=
  decide ('0' ≤ c) && decide (c ≤ '9')

def isLetter (c : Char) : Bool :=
  decide ('a' ≤ c) && decide (c ≤ 'z') || decide ('A' ≤ c) && decide (c ≤ 'Z')

/-! ## The two regular expressions

`regexp.MustCompile` gives Go's leftmost-first (Perl-like) matching: among the
matches that start at the leftmost possible position, the one a backtracking
matcher finds first, alternatives tried in order and `*`, `+`, `?` greedy. -/

/-- The regular expressions the lexer uses: `^`, a one-character class,
concatenation, alternation, `?`, and `*` of a one-character class (the only
starred expressions in the two patterns). -/
inductive Regex where
  | bol
  | cls (p : Char → Bool)
  | cat (a b : Regex)
  | alt (a b : Regex)
  | opt (a : Regex)
  | star (p : Char → Bool)

/-- Greedy `p*` followed by the continuation `k`: take as many characters as
possible, giving one back at a time while the continuation fails. -/
def starRun (p : Char → Bool) (k : Bool → List Char → Option (List Char)) :
    Bool → List Char → Option (List Char)
  | atStart, [] => k atStart []
  | atStart, c :: cs =>
    if p c then
      match starRun p k false cs with
      | some r => some r
      | none => k atStart (c :: cs)
    else k atStart (c :: cs)

/-- Backtracking match of a regular expression at the head of `s`, then the
continuation `k` on what is left; `atStart` says whether the position is the
beginning of the text (where `^` matches).  The result is the text left after
the first match found in priority order. -/
def Regex.run : Regex → Bool → List Char →
    (Bool → List Char → Option (List Char)) → Option (List Char)
  | .bol, atStart, s, k => if atStart then k atStart s else none
  | .cls _, _, [], _ => none
  | .cls p, _, c :: cs, k => if p c then k false cs else none
  | .cat a b, atStart, s, k => a.run atStart s (fun st s1 => b.run st s1 k)
  | .alt a b, atStart, s, k =>
    match a.run atStart s k with
    | some r => some r
    | none => b.run atStart s k
  | .opt a, atStart, s, k =>
    match a.run atStart s k with
    | some r => some r
    | none => k atStart s
  | .star p, atStart, s, k => starRun p k atStart s

/-- Greedy `p+`, that is `p p*`. -/
def Regex.plus (p : Char → Bool) : Regex := .cat (.cls p) (.star p)

/-- The match of `re` that starts exactly at the head of `s`, if any. -/
def matchHere (re : Regex) (atStart : Bool) (s : List Char) : Option (List Char) :=
  match re.run atStart s (fun _ rest => some rest) with
  | some rest => some (s.take (s.length - rest.length))
  | none => none

/-- Leftmost search: the first position of `s` at which `re` matches. -/
def findFrom (re : Regex) : Bool → List Char → List Char
  | atStart, [] =>
    match matchHere re atStart [] with
    | some m => m
    | none => []
  | atStart, c :: cs =>
    match matchHere re atStart (c :: cs) with
    | some m => m
    | none => findFrom re false cs

/-- The Go call `re.FindString(s)`: the text of the leftmost match, `""` if none. -/
def FindString (re : Regex) (s : List Char) : List Char :=
  findFrom re true s

def isHexDigit (c : Char) : Bool :=
  decide ('0' ≤ c) && decide (c ≤ '9') || decide ('a' ≤ c) && decide (c ≤ 'f') ||
    decide ('A' ≤ c) && decide (c ≤ 'F')

/-- The source pattern
`^0[xX][0-9a-fA-F]*(\.[0-9a-fA-F]*)?([pP][+\-]?[0-9+])?|^[0-9]*(\.[0-9]*)?([eE][+\-]?[0-9]+)?`.
The last item of the hexadecimal exponent is the one-character class `[0-9+]`,
as written in the source. -/
def reNumber : Regex :=
  .alt
    (.cat .bol (.cat (.cls (· == '0')) (.cat (.cls (fun c => c == 'x' || c == 'X'))
      (.cat (.star isHexDigit)
        (.cat (.opt (.cat (.cls (· == '.')) (.star isHexDigit)))
          (.opt (.cat (.cls (fun c => c == 'p' || c == 'P'))
            (.cat (.opt (.cls (fun c => c == '+' || c == '-')))
              (.cls (fun c => isDigit c || c == '+'))))))))))
    (.cat .bol (.cat (.star isDigit)
      (.cat (.opt (.cat (.cls (· == '.')) (.star isDigit)))
        (.opt (.cat (.cls (fun c => c == 'e' || c == 'E'))
          (.cat (.opt (.cls (fun c => c == '+' || c == '-')))
            (Regex.plus isDigit)))))))

def isIdentStart (c : Char) : Bool :=
  c == '_' || isLetter c

def isIdentChar (c : Char) : Bool :=
  c == '_' || isDigit c || isLetter c

/-- The source pattern `[_a-zA-Z][_0-9a-zA-Z]*` (not anchored). -/
def reIdentifier : Regex :=
  .cat (.cls isIdentStart) (.star isIdentChar)

/-! ## lexer.go -/

/-- A token as `NextToken` returns it: `(line, kind, token)`. -/
abbrev Token := Int × Int × List Char

/-- The struct `Lexer`. -/
structure Lexer where
  chunk : List Char
  chunkName : List Char
  line : Int
  nextToken : List Char
  nextTokenKind : Int
  nextTokenLine : Int
  deriving DecidableEq

def NewLexer (chunk chunkName : List Char) : Lexer :=
  ⟨chunk, chunkName, 1, [], 0, 0⟩

/-- The method `Line`. -/
def Lexer.Line (lexer : Lexer) : Int := lexer.line

/-- The verb `%d` of `fmt.Sprintf` on an `int`. -/
def fmtInt (i : Int) : List Char :=
  if i < 0 then '-' :: Nat.toDigits 10 i.natAbs else Nat.toDigits 10 i.toNat

def hexDigitLower (n : Nat) : Char := Nat.digitChar (n % 16)

/-- The Go function `strconv.IsPrint` on a rune below 256. -/
def isPrintByte (n : Nat) : Bool :=
  decide (32 ≤ n ∧ n < 127) || decide (161 ≤ n ∧ n ≤ 255 ∧ n ≠ 173)

/-- The verb `%q` of `fmt.Sprintf` on a byte: `strconv.QuoteRune` of the rune
with that value, a single-quoted Go character literal (the bytes of its UTF-8
encoding when the rune is printable and above 127). -/
def fmtQuotedByte (c : Char) : List Char :=
  let n := c.toNat
  let body : List Char :=
    if c = squote ∨ c = '\\' then ['\\', c]
    else if isPrintByte n then
      (if n < 128 then [c] else [Char.ofNat (192 + n / 64), Char.ofNat (128 + n % 64)])
    else if n = 7 then "\\a".toList
    else if n = 8 then "\\b".toList
    else if n = 12 then "\\f".toList
    else if n = 10 then "\\n".toList
    else if n = 13 then "\\r".toList
    else if n = 9 then "\\t".toList
    else if n = 11 then "\\v".toList
    else if n < 32 ∨ n = 127 then ['\\', 'x', hexDigitLower (n / 16), hexDigitLower n]
    else ['\\', 'u', hexDigitLower (n / 4096), hexDigitLower (n / 256),
          hexDigitLower (n / 16), hexDigitLower n]
  squote :: body ++ [squote]

/-- The panic value of `Lexer.syntaxError(msg)`:
`fmt.Sprintf("%s line %d: %s", lexer.chunkName, lexer.line, msg)`. -/
def syntaxError (lexer : Lexer) (msg : List Char) : Failure :=
  .syntaxError (lexer.chunkName ++ " line ".toList ++ fmtInt lexer.line ++ ": ".toList ++ msg)

/-- The method `nextStringIs`: `strings.HasPrefix(lexer.chunk, s)`. -/
def nextStringIs (lexer : Lexer) (s : List Char) : Bool :=
  s.isPrefixOf lexer.chunk

/-- The method `forward`: `lexer.chunk = lexer.chunk[n:]`, a runtime panic when
`n` exceeds the length. -/
def forward (n : Nat) (lexer : Lexer) : Except Failure Lexer :=
  if n ≤ lexer.chunk.length then .ok { lexer with chunk := lexer.chunk.drop n }
  else .error .outOfRange

/-- The slice expression `s[a:b]`. -/
def slice (s : List Char) (a b : Nat) : Except Failure (List Char) :=
  if a ≤ b ∧ b ≤ s.length then .ok ((s.take b).drop a) else .error .outOfRange

/-- The loop of `skipShortComment`: forward one byte at a time up to a newline. -/
def skipShortCommentLoop : List Char → List Char
  | [] => []
  | c :: cs => if isNewLine c then c :: cs else skipShortCommentLoop cs

def skipShortComment (lexer : Lexer) : Except Failure Lexer := do
  let lexer ← forward 2 lexer
  pure { lexer with chunk := skipShortCommentLoop lexer.chunk }

/-- The loop of `skipLongComment`, on the chunk and the line: it stops at the
end of the chunk or in front of `*/`. -/
def skipLongCommentLoop : List Char → Int → List Char × Int
  | [], line => ([], line)
  | c :: cs, line =>
    if ['*', '/'].isPrefixOf (c :: cs) then (c :: cs, line)
    else if ['\r', '\n'].isPrefixOf (c :: cs) || ['\n', '\r'].isPrefixOf (c :: cs) then
      match cs with
      | [] => ([], line + 1)
      | _ :: cs2 => skipLongCommentLoop cs2 (line + 1)
    else if isNewLine c then skipLongCommentLoop cs (line + 1)
    else skipLongCommentLoop cs line

def skipLongComment (lexer : Lexer) : Except Failure Lexer := do
  let lexer ← forward 2 lexer
  let r := skipLongCommentLoop lexer.chunk lexer.line
  forward 2 { lexer with chunk := r.1, line := r.2 }

/-- The loop of `skipWhiteSpaces`; every turn that does not leave the loop
consumes at least one byte, so `length chunk + 1` turns of fuel are enough. -/
def skipWhiteSpacesLoop : Nat → Lexer → Except Failure Lexer
  | 0, _ => .error .outOfFuel
  | fuel + 1, lexer =>
    match lexer.chunk with
    | [] => .ok lexer
    | c :: _ =>
      if nextStringIs lexer "//".toList then do
        let lexer ← skipShortComment lexer
        skipWhiteSpacesLoop fuel lexer
      else if nextStringIs lexer "/*".toList then do
        let lexer ← skipLongComment lexer
        skipWhiteSpacesLoop fuel lexer
      else if nextStringIs lexer "\r\n".toList || nextStringIs lexer "\n\r".toList then do
        let lexer ← forward 2 lexer
        skipWhiteSpacesLoop fuel { lexer with line := lexer.line + 1 }
      else if isNewLine c then do
        let lexer ← forward 1 lexer
        skipWhiteSpacesLoop fuel { lexer with line := lexer.line + 1 }
      else if isWhiteSpace c then do
        let lexer ← forward 1 lexer
        skipWhiteSpacesLoop fuel lexer
      else .ok lexer

def skipWhiteSpaces (lexer : Lexer) : Except Failure Lexer :=
  skipWhiteSpacesLoop (lexer.chunk.length + 1) lexer

/-- The loop of `scanShortString` from index `i` on, `rest` being `chunk[i:]`;
the result is the final value of `index`. -/
def scanShortStringLoop (quote : Char) : List Char → Nat → Nat
  | [], _ => 0
  | c :: cs, i =>
    if isNewLine c then 0
    else if c = quote then i
    else scanShortStringLoop quote cs (i + 1)

def scanShortString (lexer : Lexer) (quote : Char) : Except Failure (List Char × Lexer) :=
  let index := scanShortStringLoop quote (lexer.chunk.drop 1) 1
  if index = 0 then
    .error (syntaxError lexer "Cannot found closing quotation mark for a short string".toList)
  else do
    let str ← slice lexer.chunk 1 index
    let lexer ← forward (index + 1) lexer
    pure (str, lexer)

/-- The loop of `scanLongString` from index `i` on, `rest` being `chunk[i:]`.
As in the source, the three `nextStringIs` tests look at the head of the whole
chunk, which the loop does not move.  The result is the final `index` and the
line counter. -/
def scanLongStringLoop (lexer : Lexer) (closingQuotes : List Char) :
    List Char → Nat → Bool → Int → Nat × Int
  | [], _, _, line => (0, line)
  | c :: cs, i, skipNextCharacter, line =>
    if skipNextCharacter then scanLongStringLoop lexer closingQuotes cs (i + 1) false line
    else if nextStringIs lexer closingQuotes then (i, line)
    else if nextStringIs lexer "\r\n".toList || nextStringIs lexer "\n\r".toList then
      scanLongStringLoop lexer closingQuotes cs (i + 1) true (line + 1)
    else if isNewLine c then scanLongStringLoop lexer closingQuotes cs (i + 1) false (line + 1)
    else scanLongStringLoop lexer closingQuotes cs (i + 1) false line

def scanLongString (lexer : Lexer) (quote : Char) : Except Failure (List Char × Lexer) :=
  let closingQuotes := [quote, quote, quote]
  let r := scanLongStringLoop lexer closingQuotes (lexer.chunk.drop 3) 3 false lexer.line
  let index := r.1
  let lexer := { lexer with line := r.2 }
  if index = 0 then
    .error (syntaxError lexer "Cannot found closing quotation mark for a long string".toList)
  else do
    let str ← slice lexer.chunk 3 index
    let lexer ← forward (index + 3) lexer
    pure (str, lexer)

/-- The loop of `scanBytes` from index `i` on, `rest` being `chunk[i:]`; the
result is the final `index` and the bytes collected. -/
def scanBytesLoop (quote : Char) : List Char → Nat → List Char → Nat × List Char
  | [], _, bytes => (0, bytes)
  | c :: cs, i, bytes =>
    if c = quote then (i, bytes)
    else scanBytesLoop quote cs (i + 1) (bytes ++ [c])

def scanBytes (lexer : Lexer) (quote : Char) : Except Failure (List Char × Lexer) :=
  let r := scanBytesLoop quote (lexer.chunk.drop 1) 1 []
  let index := r.1
  if index = 0 then
    .error (syntaxError lexer "Cannot found closing quotation mark for a short bytes".toList)
  else do
    let lexer ← forward (index + 1) lexer
    pure (r.2, lexer)

def scan (lexer : Lexer) (re : Regex) : Except Failure (List Char × Lexer) :=
  let token := FindString re lexer.chunk
  if token ≠ [] then do
    let lexer ← forward token.length lexer
    pure (token, lexer)
  else .error .unreachable

def scanNumber (lexer : Lexer) : Except Failure (List Char × Lexer) :=
  scan lexer reNumber

def scanIdentifier (lexer : Lexer) : Except Failure (List Char × Lexer) :=
  scan lexer reIdentifier

/-- The idiom `lexer.forward(n); return lexer.line, kind, token`. -/
def emit (n : Nat) (kind : Int) (token : String) (lexer : Lexer) :
    Except Failure (Token × Lexer) := do
  let lexer ← forward n lexer
  pure ((lexer.line, kind, token.toList), lexer)

/-- The idiom `return lexer.line, kind, lexer.scanX(..)`.  Go leaves open
whether `lexer.line` is read before or after the call; the line is read before
here, and `scanToken_spec` below shows that a call which returns leaves a lexer
that differs from the one before in its chunk only, so that the order does not
matter. -/
def emitScanned (kind : Int) (lexer : Lexer)
    (r : Except Failure (List Char × Lexer)) : Except Failure (Token × Lexer) := do
  let line := lexer.line
  let (token, lexer) ← r
  pure ((line, kind, token), lexer)

/-- What `NextToken` does after `skipWhiteSpaces`, on a non-empty chunk whose
first byte is `c`: the `switch` and the three `if`s that follow it. -/
def scanToken (lexer : Lexer) (c : Char) : Except Failure (Token × Lexer) :=
  if c = ',' then emit 1 TokenSepComma "," lexer
  else if c = '(' then emit 1 TokenSepLParen "(" lexer
  else if c = ')' then emit 1 TokenSepRParen ")" lexer
  else if c = '[' then emit 1 TokenSepLBrack "[" lexer
  else if c = ']' then emit 1 TokenSepRBrack "]" lexer
  else if c = '\x7b' then emit 1 TokenSepLCurly "\x7b" lexer
  else if c = '\x7d' then emit 1 TokenSepRCurly "\x7d" lexer
  else if c = '+' then emit 1 TokenOpAdd "+" lexer
  else if c = '-' then emit 1 TokenOpMinus "-" lexer
  else if c = '^' then emit 1 TokenOpPow "^" lexer
  else if c = '%' then emit 1 TokenOpMod "%" lexer
  else if c = '&' then emit 1 TokenOpBand "&" lexer
  else if c = '|' then emit 1 TokenOpBor "|" lexer
  else if c = ':' then
    if !nextStringIs lexer "::".toList then
      .error (syntaxError lexer "Invalid character `:`".toList)
    else emit 2 TokenSepDomain "::" lexer
  else if c = '!' then
    if !nextStringIs lexer "!=".toList then
      .error (syntaxError lexer "Invalid character `!`".toList)
    else emit 2 TokenOpNE "!=" lexer
  else if c = '*' then
    if nextStringIs lexer "**".toList then emit 2 TokenOpPackDict "**" lexer
    else emit 1 TokenOpMul "*" lexer
  else if c = '=' then
    if nextStringIs lexer "==".toList then emit 2 TokenOpEQ "==" lexer
    else emit 1 TokenOpAssign "=" lexer
  else if c = '<' then
    if nextStringIs lexer "<=".toList then emit 2 TokenOpLE "<=" lexer
    else emit 1 TokenOpLT "<" lexer
  else if c = '>' then
    if nextStringIs lexer ">=".toList then emit 2 TokenOpGE ">=" lexer
    else emit 1 TokenOpGT ">" lexer
  else if c = '.' ∧ (lexer.chunk.length = 1 ∨ !(isDigit (lexer.chunk.getD 1 '0'))) then
    emit 1 TokenSepDot "." lexer
  else if c = squote then
    if nextStringIs lexer [squote, squote, squote] then
      emitScanned TokenLiteralString lexer (scanLongString lexer squote)
    else emitScanned TokenLiteralString lexer (scanShortString lexer squote)
  else if c = dquote then
    if nextStringIs lexer [dquote, dquote, dquote] then
      emitScanned TokenLiteralString lexer (scanLongString lexer dquote)
    else emitScanned TokenLiteralString lexer (scanShortString lexer dquote)
  else if nextStringIs lexer ['b', squote] || nextStringIs lexer ['b', dquote] then
    match lexer.chunk with
    | _ :: quote :: _ => emitScanned TokenLiteralBytes lexer (scanBytes lexer quote)
    | _ => .error .outOfRange
  else if c = '.' ∨ isDigit c then
    emitScanned TokenLiteralNumber lexer (scanNumber lexer)
  else if c = '_' ∨ isLetter c then do
    let (token, lexer) ← scanIdentifier lexer
    match keywords token with
    | some kind => pure ((lexer.line, kind, token), lexer)
    | none => pure ((lexer.line, TokenIdentifier, token), lexer)
  else
    .error (syntaxError lexer ("Unexpected symbol near '".toList ++ fmtQuotedByte c ++ [squote]))

/-- The method `NextToken`: the token and the lexer it leaves. -/
def NextToken (lexer : Lexer) : Except Failure (Token × Lexer) :=
  if lexer.nextTokenLine > 0 then
    .ok ((lexer.nextTokenLine, lexer.nextTokenKind, lexer.nextToken),
      { lexer with line := lexer.nextTokenLine, nextTokenLine := 0 })
  else do
    let lexer ← skipWhiteSpaces lexer
    match lexer.chunk with
    | [] => pure ((lexer.line, TokenEOF, "EOF".toList), lexer)
    | c :: _ => scanToken lexer c

/-- The method `NextTokenAssertKind`: `(line, token)` and the lexer it leaves. -/
def NextTokenAssertKind (lexer : Lexer) (kind : Int) :
    Except Failure ((Int × List Char) × Lexer) := do
  let ((line, kind1, token), lexer) ← NextToken lexer
  if kind ≠ kind1 then
    .error (syntaxError lexer ("Syntax error near '".toList ++ token ++ [squote]))
  else pure ((line, token), lexer)

def NextTokenAssertIdentifier (lexer : Lexer) : Except Failure ((Int × List Char) × Lexer) :=
  NextTokenAssertKind lexer TokenIdentifier

/-- The method `LookAhead`: the kind and the lexer it leaves. -/
def LookAhead (lexer : Lexer) : Except Failure (Int × Lexer) :=
  if lexer.nextTokenLine > 0 then .ok (lexer.nextTokenKind, lexer)
  else do
    let currentLine := lexer.line
    let ((line, kind, token), lexer) ← NextToken lexer
    pure (kind, { lexer with
      line := currentLine, nextTokenLine := line, nextTokenKind := kind, nextToken := token })

/-! ## test.go -/

/-- The loop of `testLexer`: call `NextToken` until it returns `TokenEOF`; the
result is the list of tokens printed, in order. -/
def testLexerLoop : Nat → Lexer → Except Failure (List Token)
  | 0, _ => .error .outOfFuel
  | fuel + 1, lexer => do
    let (tok, lexer) ← NextToken lexer
    if tok.2.1 = TokenEOF then pure [tok]
    else do
      let rest ← testLexerLoop fuel lexer
      pure (tok :: rest)

/-- The function `testLexer(chunk, chunkName)`; a token other than the last
consumes at least one byte, so `length chunk + 1` turns are enough. -/
def testLexer (chunk chunkName : List Char) : Except Failure (List Token) :=
  testLexerLoop (chunk.length + 1) (NewLexer chunk chunkName)


/-! ## Notions of the specification -/

/-- The number of line breaks of a text, read from left to right: a `\r\n` or
`\n\r` pair is one line break, a lone `\n` or `\r` is one line break. -/
def lineBreaks : List Char → Nat
  | [] => 0
  | [c] => if isNewLine c then 1 else 0
  | c :: d :: rest =>
    if (c = '\r' ∧ d = '\n') ∨ (c = '\n' ∧ d = '\r') then 1 + lineBreaks rest
    else (if isNewLine c then 1 else 0) + lineBreaks (d :: rest)

/-- Whether `*/` occurs in a text. -/
def containsClose : List Char → Bool
  | [] => false
  | c :: cs => ['*', '/'].isPrefixOf (c :: cs) || containsClose cs

/-- A text made of white space and comments only: nothing, or an ASCII white
space character, a `//` line comment or a `/* ... */` block comment followed by
such a text.  A line comment runs to the end of its line (what follows it is
the end of the text or starts with a newline character); the body of a block
comment is closed by the first `*/` after its opening. -/
inductive WsComments : List Char → Prop where
  | nil : WsComments []
  | space (c : Char) (rest : List Char) :
      isWhiteSpace c = true → WsComments rest → WsComments (c :: rest)
  | lineComment (body rest : List Char) :
      (∀ c ∈ body, isNewLine c = false) → (∀ c r, rest = c :: r → isNewLine c = true) →
      WsComments rest → WsComments ('/' :: '/' :: (body ++ rest))
  | blockComment (body rest : List Char) :
      containsClose body = false → WsComments rest →
      WsComments ('/' :: '*' :: (body ++ '*' :: '/' :: rest))

/-- The longest prefix of a text that contains neither the quote `q` nor a
newline character. -/
def shortContent (q : Char) (t : List Char) : List Char :=
  t.takeWhile (fun x => !(x == q) && !(isNewLine x))

/-- The number grammar in the words of the specification: `0x`/`0X`, hex
digits, optional (`.` hex digits), optional (`p`/`P`, optional sign, decimal
digits), or decimal digits, optional (`.` decimal digits), optional (`e`/`E`,
optional sign, decimal digits). -/
def specNumber : Regex :=
  .alt
    (.cat (.cls (· == '0')) (.cat (.cls (fun c => c == 'x' || c == 'X'))
      (.cat (.star isHexDigit)
        (.cat (.opt (.cat (.cls (· == '.')) (.star isHexDigit)))
          (.opt (.cat (.cls (fun c => c == 'p' || c == 'P'))
            (.cat (.opt (.cls (fun c => c == '+' || c == '-')))
              (Regex.plus isDigit))))))))
    (.cat (.star isDigit)
      (.cat (.opt (.cat (.cls (· == '.')) (.star isDigit)))
        (.opt (.cat (.cls (fun c => c == 'e' || c == 'E'))
          (.cat (.opt (.cls (fun c => c == '+' || c == '-')))
            (Regex.plus isDigit))))))

/-- Whether the whole of `s` matches `re`. -/
def matchesWhole (re : Regex) (s : List Char) : Bool :=
  (re.run true s (fun _ rest => if rest = [] then some [] else none)).isSome

/-- The calls `LookAhead(); ...; LookAhead()`, `n + 1` of them in a row: the
kind the last call returns and the lexer it leaves. -/
def LookAheadRepeat : Nat → Lexer → Except Failure (Int × Lexer)
  | 0, lexer => LookAhead lexer
  | n + 1, lexer => do
    let (_, lexer) ← LookAhead lexer
    LookAheadRepeat n lexer

/-- The lexer `l2` is what `l1` becomes after some sequence of successful
`NextToken` and `LookAhead` calls. -/
inductive Steps : Lexer → Lexer → Prop where
  | refl (l : Lexer) : Steps l l
  | next {l l1 l2 : Lexer} {tok : Token} :
      Steps l l1 → NextToken l1 = .ok (tok, l2) → Steps l l2
  | peek {l l1 l2 : Lexer} {kind : Int} :
      Steps l l1 → LookAhead l1 = .ok (kind, l2) → Steps l l2

/-- A scanner state reachable from `NewLexer` by successful `NextToken` and
`LookAhead` calls. -/
def Reachable (lexer : Lexer) : Prop :=
  ∃ chunk chunkName, Steps (NewLexer chunk chunkName) lexer

/-! ## The regular-expression matcher returns a piece of its input -/

theorem starRun_suffix (p : Char → Bool) (k : Bool → List Char → Option (List Char))
    (hk : ∀ st s r, k st s = some r → r <:+ s) :
    ∀ (s : List Char) (st : Bool) (r : List Char), starRun p k st s = some r → r <:+ s := by
  intro s
  induction s with
  | nil => intro st r h; simp only [starRun] at h; exact hk _ _ _ h
  | cons c cs ih =>
    intro st r h
    simp only [starRun] at h
    split at h
    · split at h
      · rename_i r1 h1
        cases h
        exact (ih _ _ h1).trans (List.suffix_cons c cs)
      · exact hk _ _ _ h
    · exact hk _ _ _ h

theorem run_suffix (re : Regex) :
    ∀ (k : Bool → List Char → Option (List Char)),
      (∀ st s r, k st s = some r → r <:+ s) →
      ∀ (st : Bool) (s r : List Char), re.run st s k = some r → r <:+ s := by
  induction re with
  | bol =>
    intro k hk st s r h
    simp only [Regex.run] at h
    split at h
    · exact hk _ _ _ h
    · cases h
  | cls p =>
    intro k hk st s r h
    cases s with
    | nil => simp [Regex.run] at h
    | cons c cs =>
      simp only [Regex.run] at h
      split at h
      · exact (hk _ _ _ h).trans (List.suffix_cons c cs)
      · cases h
  | cat a b iha ihb =>
    intro k hk st s r h
    simp only [Regex.run] at h
    exact iha _ (fun st1 s1 r1 h1 => ihb k hk st1 s1 r1 h1) st s r h
  | alt a b iha ihb =>
    intro k hk st s r h
    simp only [Regex.run] at h
    split at h
    · rename_i r1 h1
      cases h
      exact iha k hk _ _ _ h1
    · exact ihb k hk _ _ _ h
  | opt a iha =>
    intro k hk st s r h
    simp only [Regex.run] at h
    split at h
    · rename_i r1 h1
      cases h
      exact iha k hk _ _ _ h1
    · exact hk _ _ _ h
  | star p =>
    intro k hk st s r h
    simp only [Regex.run] at h
    exact starRun_suffix p k hk s st r h

theorem take_append_of_suffix {rest s : List Char} (h : rest <:+ s) :
    s.take (s.length - rest.length) ++ rest = s ∧
      s.drop (s.take (s.length - rest.length)).length = rest := by
  obtain ⟨t, rfl⟩ := h
  simp

/-- A match found at the head of `s` is a prefix of `s`, and dropping as many
characters as it has leaves the rest. -/
theorem matchHere_initial {re : Regex} {st : Bool} {s m : List Char}
    (h : matchHere re st s = some m) : s = m ++ s.drop m.length := by
  unfold matchHere at h
  split at h
  · rename_i rest h1
    cases h
    have hs := run_suffix re (fun _ rest => some rest) (by intro _ _ _ h; cases h; exact List.suffix_refl _) _ _ _ h1
    obtain ⟨h2, h3⟩ := take_append_of_suffix hs
    rw [h3, h2]
  · cases h

theorem matchHere_reNumber_false (s : List Char) : matchHere reNumber false s = none := by
  simp [matchHere, reNumber, Regex.run]

theorem findFrom_reNumber_false (s : List Char) : findFrom reNumber false s = [] := by
  induction s with
  | nil => simp [findFrom, matchHere_reNumber_false]
  | cons c cs ih => simp [findFrom, matchHere_reNumber_false, ih]

/-- The number pattern is anchored: what `FindString` returns is a prefix. -/
theorem FindString_reNumber_initial (s : List Char) :
    s = FindString reNumber s ++ s.drop (FindString reNumber s).length := by
  unfold FindString
  cases s with
  | nil =>
    simp only [findFrom]
    split
    · rename_i m h; exact matchHere_initial h
    · simp
  | cons c cs =>
    simp only [findFrom]
    split
    · rename_i m h; exact matchHere_initial h
    · rw [findFrom_reNumber_false]; simp

theorem starRun_some (p : Char → Bool) (s : List Char) (st : Bool) :
    ∃ r, starRun p (fun _ rest => some rest) st s = some r := by
  induction s generalizing st with
  | nil => exact ⟨_, rfl⟩
  | cons c cs ih =>
    simp only [starRun]
    split
    · obtain ⟨r, hr⟩ := ih false
      rw [hr]; exact ⟨_, rfl⟩
    · exact ⟨_, rfl⟩

/-- On a chunk that starts with `_` or a letter the identifier pattern matches
at the head, so what `FindString` returns is a prefix. -/
theorem FindString_reIdentifier_initial (c : Char) (cs : List Char)
    (hc : isIdentStart c = true) :
    c :: cs = FindString reIdentifier (c :: cs) ++
      (c :: cs).drop (FindString reIdentifier (c :: cs)).length := by
  unfold FindString
  simp only [findFrom]
  split
  · rename_i m h; exact matchHere_initial h
  · rename_i h
    exfalso
    obtain ⟨r, hr⟩ := starRun_some isIdentChar cs false
    simp [matchHere, reIdentifier, Regex.run, hc, hr] at h


/-! ## Line breaks -/

theorem lineBreaks_cons_other (c : Char) (s : List Char) (hc : isNewLine c = false) :
    lineBreaks (c :: s) = lineBreaks s := by
  cases s with
  | nil => simp [lineBreaks, hc]
  | cons d rest =>
    have h1 : ¬ ((c = '\r' ∧ d = '\n') ∨ (c = '\n' ∧ d = '\r')) := by
      rintro (⟨rfl, -⟩ | ⟨rfl, -⟩) <;> simp [isNewLine] at hc
    simp [lineBreaks, h1, hc]

theorem lineBreaks_cons_pair (c d : Char) (s : List Char)
    (h : (c = '\r' ∧ d = '\n') ∨ (c = '\n' ∧ d = '\r')) :
    lineBreaks (c :: d :: s) = 1 + lineBreaks s := by
  simp [lineBreaks, h]

theorem lineBreaks_cons_newline (c : Char) (s : List Char) (hc : isNewLine c = true)
    (h : ∀ d rest, s = d :: rest → ¬ ((c = '\r' ∧ d = '\n') ∨ (c = '\n' ∧ d = '\r'))) :
    lineBreaks (c :: s) = 1 + lineBreaks s := by
  cases s with
  | nil => simp [lineBreaks, hc]
  | cons d rest =>
    have h1 := h d rest rfl
    simp [lineBreaks, h1, hc]

/-- A text without newline characters in front changes nothing. -/
theorem lineBreaks_append_of_noNewLine (a b : List Char)
    (ha : ∀ c ∈ a, isNewLine c = false) : lineBreaks (a ++ b) = lineBreaks b := by
  induction a with
  | nil => rfl
  | cons c cs ih =>
    rw [List.cons_append, lineBreaks_cons_other _ _ (ha c (List.mem_cons_self _ _))]
    exact ih (fun x hx => ha x (List.mem_cons_of_mem _ hx))

theorem lineBreaks_cons_cons (c d : Char) (s : List Char)
    (h : ¬ ((c = '\r' ∧ d = '\n') ∨ (c = '\n' ∧ d = '\r'))) :
    lineBreaks (c :: d :: s) = (if isNewLine c then 1 else 0) + lineBreaks (d :: s) := by
  simp [lineBreaks, h]

/-- Line breaks add up over a cut that is followed by a character other than a
newline (or by nothing). -/
theorem lineBreaks_append_right (b : List Char)
    (hb : ∀ d rest, b = d :: rest → isNewLine d = false) :
    ∀ (n : Nat) (a : List Char), a.length ≤ n →
      lineBreaks (a ++ b) = lineBreaks a + lineBreaks b := by
  intro n
  induction n with
  | zero =>
    intro a ha
    have : a = [] := List.eq_nil_of_length_eq_zero (Nat.le_zero.mp ha)
    subst this; simp [lineBreaks]
  | succ n ih =>
    intro a ha
    match a, ha with
    | [], _ => simp [lineBreaks]
    | [c], _ =>
      cases b with
      | nil => simp [lineBreaks]
      | cons d rest =>
        have hd := hb d rest rfl
        have h1 : ¬ ((c = '\r' ∧ d = '\n') ∨ (c = '\n' ∧ d = '\r')) := by
          rintro (⟨-, rfl⟩ | ⟨-, rfl⟩) <;> simp [isNewLine] at hd
        simp [lineBreaks, h1]
    | c :: d :: rest, ha =>
      simp only [List.length_cons] at ha
      rw [List.cons_append, List.cons_append]
      by_cases hp : (c = '\r' ∧ d = '\n') ∨ (c = '\n' ∧ d = '\r')
      · rw [lineBreaks_cons_pair _ _ _ hp, lineBreaks_cons_pair _ _ _ hp, ih rest (by omega)]
        omega
      · rw [lineBreaks_cons_cons _ _ _ hp, lineBreaks_cons_cons _ _ _ hp]
        have := ih (d :: rest) (by simp only [List.length_cons]; omega)
        rw [List.cons_append] at this
        rw [this]; omega

/-! ## Elementary steps -/

theorem forward_ok {n : Nat} {lexer l1 : Lexer} (h : forward n lexer = .ok l1) :
    n ≤ lexer.chunk.length ∧ l1 = { lexer with chunk := lexer.chunk.drop n } := by
  unfold forward at h
  split at h
  · rename_i hn
    cases h
    exact ⟨hn, rfl⟩
  · cases h

theorem forward_eq {n : Nat} {lexer : Lexer} (h : n ≤ lexer.chunk.length) :
    forward n lexer = .ok { lexer with chunk := lexer.chunk.drop n } := by
  simp [forward, h]

theorem nextStringIs_two (lexer : Lexer) (a b : Char) :
    nextStringIs lexer [a, b] = true ↔ ∃ rest, lexer.chunk = a :: b :: rest := by
  unfold nextStringIs
  match h : lexer.chunk with
  | [] => simp [List.isPrefixOf]
  | [c] => simp [List.isPrefixOf]
  | c :: d :: rest =>
    simp only [List.isPrefixOf, Bool.and_true, Bool.and_eq_true, beq_iff_eq]
    constructor
    · rintro ⟨rfl, rfl⟩; exact ⟨rest, rfl⟩
    · rintro ⟨r, hr⟩; cases hr; exact ⟨rfl, rfl⟩

theorem skipShortCommentLoop_spec (s : List Char) :
    ∃ body, s = body ++ skipShortCommentLoop s ∧ ∀ c ∈ body, isNewLine c = false := by
  induction s with
  | nil => exact ⟨[], rfl, by simp⟩
  | cons c cs ih =>
    simp only [skipShortCommentLoop]
    split
    · exact ⟨[], rfl, by simp⟩
    · rename_i hc
      obtain ⟨body, h1, h2⟩ := ih
      refine ⟨c :: body, by rw [List.cons_append, ← h1], ?_⟩
      intro x hx
      rcases List.mem_cons.mp hx with rfl | hx
      · simpa using hc
      · exact h2 x hx

theorem skipLongCommentLoop_spec :
    ∀ (n : Nat) (s : List Char) (line : Int), s.length ≤ n →
      ∃ b, s = b ++ (skipLongCommentLoop s line).1 ∧
        (skipLongCommentLoop s line).2 = line + lineBreaks b ∧
        ((skipLongCommentLoop s line).1 = [] ∨
          ∃ rest, (skipLongCommentLoop s line).1 = '*' :: '/' :: rest) := by
  intro n
  induction n with
  | zero =>
    intro s line hs
    have : s = [] := List.eq_nil_of_length_eq_zero (Nat.le_zero.mp hs)
    subst this
    exact ⟨[], rfl, by simp [skipLongCommentLoop, lineBreaks], Or.inl rfl⟩
  | succ n ih =>
    intro s line hs
    match s, hs with
    | [], _ => exact ⟨[], rfl, by simp [skipLongCommentLoop, lineBreaks], Or.inl rfl⟩
    | [c], _ =>
      by_cases hc : isNewLine c = true
      · refine ⟨[c], ?_, ?_, ?_⟩ <;>
          simp [skipLongCommentLoop, List.isPrefixOf, hc, lineBreaks]
      · refine ⟨[c], ?_, ?_, ?_⟩ <;>
          simp [skipLongCommentLoop, List.isPrefixOf, hc, lineBreaks]
    | c :: d :: rest, hs =>
      simp only [List.length_cons] at hs
      by_cases h1 : c = '*' ∧ d = '/'
      · obtain ⟨rfl, rfl⟩ := h1
        refine ⟨[], ?_, ?_, ?_⟩ <;> simp [skipLongCommentLoop, List.isPrefixOf, lineBreaks]
      · by_cases hp : (c = '\r' ∧ d = '\n') ∨ (c = '\n' ∧ d = '\r')
        · have e : skipLongCommentLoop (c :: d :: rest) line =
              skipLongCommentLoop rest (line + 1) := by
            rcases hp with ⟨rfl, rfl⟩ | ⟨rfl, rfl⟩ <;>
              simp [skipLongCommentLoop, List.isPrefixOf]
          obtain ⟨b, hb1, hb2, hb3⟩ := ih rest (line + 1) (by omega)
          rw [e]
          refine ⟨c :: d :: b, ?_, ?_, hb3⟩
          · rw [List.cons_append, List.cons_append, ← hb1]
          · rw [hb2, lineBreaks_cons_pair _ _ _ hp]; push_cast; omega
        · by_cases hc : isNewLine c = true
          · have e : skipLongCommentLoop (c :: d :: rest) line =
                skipLongCommentLoop (d :: rest) (line + 1) := by
              have h2 : ¬ (c = '*' ∧ d = '/') := h1
              simp only [skipLongCommentLoop, List.isPrefixOf, Bool.and_true, Bool.and_eq_true,
                beq_iff_eq, Bool.or_eq_true]
              rw [if_neg (by tauto), if_neg (by tauto), if_pos hc]
            obtain ⟨b, hb1, hb2, hb3⟩ := ih (d :: rest) (line + 1)
              (by simp only [List.length_cons]; omega)
            rw [e]
            refine ⟨c :: b, ?_, ?_, hb3⟩
            · rw [List.cons_append, ← hb1]
            · rw [hb2, lineBreaks_cons_newline _ _ hc]
              · push_cast; omega
              · intro d1 r1 hb
                rw [hb, List.cons_append] at hb1
                rw [← (List.cons.inj hb1).1]
                exact hp
          · have e : skipLongCommentLoop (c :: d :: rest) line =
                skipLongCommentLoop (d :: rest) line := by
              simp only [skipLongCommentLoop, List.isPrefixOf, Bool.and_true, Bool.and_eq_true,
                beq_iff_eq, Bool.or_eq_true]
              rw [if_neg (by tauto), if_neg (by tauto), if_neg hc]
            obtain ⟨b, hb1, hb2, hb3⟩ := ih (d :: rest) line
              (by simp only [List.length_cons]; omega)
            rw [e]
            refine ⟨c :: b, ?_, ?_, hb3⟩
            · rw [List.cons_append, ← hb1]
            · rw [hb2, lineBreaks_cons_other _ _ (by simpa using hc)]

theorem str_slashes : "//".toList = ['/', '/'] := rfl
theorem str_slashStar : "/*".toList = ['/', '*'] := rfl
theorem str_crlf : "\r\n".toList = ['\r', '\n'] := rfl
theorem str_lfcr : "\n\r".toList = ['\n', '\r'] := rfl

/-- What a successful run of the loop of `skipWhiteSpaces` does: it consumes a
prefix `w` of the chunk, adds the line breaks of `w` to the line, touches no
other field, and stops at the end of the chunk or in front of a byte that is
neither white space nor the start of a comment. -/
theorem skipWhiteSpacesLoop_spec :
    ∀ (fuel : Nat) (lexer sk : Lexer), skipWhiteSpacesLoop fuel lexer = .ok sk →
      ∃ w, lexer.chunk = w ++ sk.chunk ∧ sk.line = lexer.line + lineBreaks w ∧
        sk = { lexer with chunk := sk.chunk, line := sk.line } ∧
        (∀ c cs, sk.chunk = c :: cs → isNewLine c = false ∧ isWhiteSpace c = false ∧
          nextStringIs sk "//".toList = false ∧ nextStringIs sk "/*".toList = false) := by
  intro fuel
  induction fuel with
  | zero => intro lexer sk h; simp [skipWhiteSpacesLoop] at h
  | succ fuel ih =>
    intro lexer sk h
    unfold skipWhiteSpacesLoop at h
    split at h
    · rename_i hnil
      cases h
      exact ⟨[], by simp, by simp [lineBreaks], rfl, by intro c cs hc; rw [hnil] at hc; cases hc⟩
    · rename_i c cs hchunk
      split at h
      · -- line comment
        rename_i h1
        rw [str_slashes, nextStringIs_two] at h1
        obtain ⟨rest0, hrest0⟩ := h1
        cases h2 : skipShortComment lexer with
        | error e => simp [h2, bind, Except.bind] at h
        | ok l1 =>
          simp only [h2, bind, Except.bind] at h
          obtain ⟨w2, hw1, hw2, hw3, hw4⟩ := ih l1 sk h
          unfold skipShortComment at h2
          cases h3 : forward 2 lexer with
          | error e => simp [h3, bind, Except.bind] at h2
          | ok l0 =>
            simp only [h3, bind, Except.bind, pure, Except.pure] at h2
            obtain ⟨-, hl0⟩ := forward_ok h3
            cases h2
            subst hl0
            simp only [hrest0, List.drop_succ_cons, List.drop_zero] at hw1 hw2 hw3 ⊢
            obtain ⟨body, hb1, hb2⟩ := skipShortCommentLoop_spec rest0
            refine ⟨'/' :: '/' :: (body ++ w2), ?_, ?_, ?_, hw4⟩
            · rw [List.cons_append, List.cons_append, List.append_assoc, ← hw1, ← hb1]
            · rw [hw2, lineBreaks_cons_other _ _ (by decide), lineBreaks_cons_other _ _ (by decide),
                lineBreaks_append_of_noNewLine _ _ hb2]
            · rw [hw3]
      · split at h
        · -- block comment
          rename_i h0 h1
          rw [str_slashStar, nextStringIs_two] at h1
          obtain ⟨rest0, hrest0⟩ := h1
          cases h2 : skipLongComment lexer with
          | error e => simp [h2, bind, Except.bind] at h
          | ok l1 =>
            simp only [h2, bind, Except.bind] at h
            obtain ⟨w2, hw1, hw2, hw3, hw4⟩ := ih l1 sk h
            unfold skipLongComment at h2
            cases h3 : forward 2 lexer with
            | error e => simp [h3, bind, Except.bind] at h2
            | ok l0 =>
              simp only [h3, bind, Except.bind] at h2
              obtain ⟨-, hl0⟩ := forward_ok h3
              subst hl0
              obtain ⟨hlen, hl1⟩ := forward_ok h2
              subst hl1
              simp only [hrest0, List.drop_succ_cons, List.drop_zero] at hw1 hw2 hw3 hlen ⊢
              obtain ⟨b, hb1, hb2, hb3⟩ :=
                skipLongCommentLoop_spec rest0.length rest0 lexer.line (le_refl _)
              rcases hb3 with hb3 | ⟨r3, hb3⟩
              · rw [hb3] at hlen; simp at hlen
              · rw [hb3] at hw1 hb1
                simp only [List.drop_succ_cons, List.drop_zero] at hw1
                refine ⟨'/' :: '*' :: (b ++ '*' :: '/' :: w2), ?_, ?_, ?_, hw4⟩
                · rw [hb1, hw1]; simp
                · rw [hw2, hb2, lineBreaks_cons_other _ _ (by decide),
                    lineBreaks_cons_other _ _ (by decide),
                    lineBreaks_append_right _ (by intro d r hd; cases hd; decide) _ b (le_refl _),
                    lineBreaks_cons_other _ _ (by decide), lineBreaks_cons_other _ _ (by decide)]
                  push_cast; omega
                · rw [hw3]
        · split at h
          · -- a pair
            rename_i h0 h00 h1
            have hp : ∃ d rest, cs = d :: rest ∧ ((c = '\r' ∧ d = '\n') ∨ (c = '\n' ∧ d = '\r')) := by
              rw [Bool.or_eq_true, str_crlf, str_lfcr, nextStringIs_two, nextStringIs_two] at h1
              rcases h1 with ⟨r, hr⟩ | ⟨r, hr⟩
              · rw [hchunk] at hr; cases hr; exact ⟨_, _, rfl, Or.inl ⟨rfl, rfl⟩⟩
              · rw [hchunk] at hr; cases hr; exact ⟨_, _, rfl, Or.inr ⟨rfl, rfl⟩⟩
            obtain ⟨d, rest, rfl, hp⟩ := hp
            cases h3 : forward 2 lexer with
            | error e => simp [h3, bind, Except.bind] at h
            | ok l0 =>
              simp only [h3, bind, Except.bind] at h
              obtain ⟨-, hl0⟩ := forward_ok h3
              subst hl0
              obtain ⟨w2, hw1, hw2, hw3, hw4⟩ := ih _ sk h
              simp only [hchunk, List.drop_succ_cons, List.drop_zero] at hw1 hw2 hw3 ⊢
              refine ⟨c :: d :: w2, ?_, ?_, ?_, hw4⟩
              · rw [hw1]; simp
              · rw [hw2, lineBreaks_cons_pair _ _ _ hp]; push_cast; omega
              · rw [hw3]
          · split at h
            · -- a lone newline
              rename_i h0 h00 h1 hc
              cases h3 : forward 1 lexer with
              | error e => simp [h3, bind, Except.bind] at h
              | ok l0 =>
                simp only [h3, bind, Except.bind] at h
                obtain ⟨-, hl0⟩ := forward_ok h3
                subst hl0
                obtain ⟨w2, hw1, hw2, hw3, hw4⟩ := ih _ sk h
                simp only [hchunk, List.drop_succ_cons, List.drop_zero] at hw1 hw2 hw3 ⊢
                refine ⟨c :: w2, ?_, ?_, ?_, hw4⟩
                · rw [hw1]; simp
                · rw [hw2, lineBreaks_cons_newline _ _ hc]
                  · push_cast; omega
                  · intro d r hd hpair
                    apply h1
                    rw [Bool.or_eq_true, str_crlf, str_lfcr, nextStringIs_two, nextStringIs_two,
                      hchunk, hw1, hd]
                    rcases hpair with ⟨rfl, rfl⟩ | ⟨rfl, rfl⟩
                    · exact Or.inl ⟨_, rfl⟩
                    · exact Or.inr ⟨_, rfl⟩
                · rw [hw3]
            · split at h
              · -- other white space
                rename_i h0 h00 h1 hc hws
                cases h3 : forward 1 lexer with
                | error e => simp [h3, bind, Except.bind] at h
                | ok l0 =>
                  simp only [h3, bind, Except.bind] at h
                  obtain ⟨-, hl0⟩ := forward_ok h3
                  subst hl0
                  obtain ⟨w2, hw1, hw2, hw3, hw4⟩ := ih _ sk h
                  simp only [hchunk, List.drop_succ_cons, List.drop_zero] at hw1 hw2 hw3 ⊢
                  refine ⟨c :: w2, ?_, ?_, ?_, hw4⟩
                  · rw [hw1]; simp
                  · rw [hw2, lineBreaks_cons_other _ _ (by simpa using hc)]
                  · rw [hw3]
              · rename_i h0 h00 h1 hc hws
                cases h
                refine ⟨[], by simp, by simp [lineBreaks], rfl, ?_⟩
                intro c1 cs1 hc1
                rw [hchunk] at hc1
                cases hc1
                exact ⟨by simpa using hc, by simpa using hws, by simpa using h0, by simpa using h00⟩

/-! ## What one token consumes -/

theorem forward_consumes {n : Nat} {lexer l1 : Lexer} (h : forward n lexer = .ok l1)
    (hn : 0 < n) :
    l1 = { lexer with chunk := l1.chunk } ∧
      ∃ consumed, consumed ≠ [] ∧ lexer.chunk = consumed ++ l1.chunk := by
  obtain ⟨hlen, rfl⟩ := forward_ok h
  refine ⟨rfl, lexer.chunk.take n, ?_, (List.take_append_drop n lexer.chunk).symm⟩
  intro h0
  have h1 : (lexer.chunk.take n).length = n := List.length_take_of_le hlen
  rw [h0] at h1
  simp at h1
  omega

theorem emit_spec {n : Nat} {kind : Int} {tok : String} {lexer l1 : Lexer}
    {line k : Int} {lexeme : List Char}
    (h : emit n kind tok lexer = .ok ((line, k, lexeme), l1))
    (hp : tok.toList.isPrefixOf lexer.chunk = true) (hn : tok.toList.length = n)
    (h0 : 0 < n) (hk : kind ≠ TokenEOF) :
    line = lexer.line ∧ l1 = { lexer with chunk := l1.chunk } ∧ k ≠ TokenEOF ∧
      ∃ consumed, consumed ≠ [] ∧ lexer.chunk = consumed ++ l1.chunk ∧
        (k ≠ TokenLiteralString → k ≠ TokenLiteralBytes → consumed = lexeme) := by
  unfold emit at h
  cases h1 : forward n lexer with
  | error e => simp [h1, bind, Except.bind] at h
  | ok l0 =>
    simp only [h1, bind, Except.bind, pure, Except.pure] at h
    obtain ⟨hlen, hl0⟩ := forward_ok h1
    subst hl0
    simp only [Except.ok.injEq, Prod.mk.injEq] at h
    obtain ⟨⟨rfl, rfl, rfl⟩, rfl⟩ := h
    refine ⟨rfl, rfl, hk, tok.toList, ?_, ?_, fun _ _ => rfl⟩
    · intro h2; rw [h2] at hn; simp at hn; omega
    · obtain ⟨t, ht⟩ := List.isPrefixOf_iff_prefix.mp hp
      rw [← ht, ← hn]
      simp

/-- On a chunk that starts with three quotes the loop of `scanLongString` stops
in its first turn: the head of the chunk is the closing delimiter it looks for. -/
theorem scanLongStringLoop_head (lexer : Lexer) (cq rest : List Char) (i : Nat) (line : Int)
    (h : nextStringIs lexer cq = true) :
    scanLongStringLoop lexer cq rest i false line = (if rest = [] then 0 else i, line) := by
  cases rest with
  | nil => simp [scanLongStringLoop]
  | cons c cs => simp [scanLongStringLoop, h]

theorem scanLongString_spec {lexer l1 : Lexer} {q : Char} {str : List Char}
    (hq : nextStringIs lexer [q, q, q] = true)
    (h : scanLongString lexer q = .ok (str, l1)) :
    str = [] ∧ l1 = { lexer with chunk := lexer.chunk.drop 6 } ∧ 6 ≤ lexer.chunk.length := by
  unfold scanLongString at h
  simp only [scanLongStringLoop_head _ _ _ _ _ hq] at h
  by_cases hr : lexer.chunk.drop 3 = []
  · simp [hr] at h
  · simp only [hr, if_false, OfNat.ofNat_ne_zero] at h
    cases h2 : slice lexer.chunk 3 3 with
    | error e => simp [h2, bind, Except.bind] at h
    | ok s =>
      simp only [h2, bind, Except.bind] at h
      cases h3 : forward (3 + 3) { lexer with line := lexer.line } with
      | error e => simp [h3] at h
      | ok l0 =>
        simp only [h3, pure, Except.pure, Except.ok.injEq, Prod.mk.injEq] at h
        obtain ⟨rfl, rfl⟩ := h
        obtain ⟨hlen, hl0⟩ := forward_ok h3
        refine ⟨?_, hl0, hlen⟩
        unfold slice at h2
        split at h2
        · cases h2; simp
        · cases h2

theorem scanShortString_consumes {lexer l1 : Lexer} {q : Char} {str : List Char}
    (h : scanShortString lexer q = .ok (str, l1)) :
    l1 = { lexer with chunk := l1.chunk } ∧
      ∃ consumed, consumed ≠ [] ∧ lexer.chunk = consumed ++ l1.chunk := by
  unfold scanShortString at h
  simp only [bind, Except.bind, pure, Except.pure] at h
  split at h
  · cases h
  · split at h
    · cases h
    · split at h
      · cases h
      · rename_i l0 h3
        simp only [Except.ok.injEq, Prod.mk.injEq] at h
        obtain ⟨-, rfl⟩ := h
        exact forward_consumes h3 (by omega)

theorem scanBytes_consumes {lexer l1 : Lexer} {q : Char} {str : List Char}
    (h : scanBytes lexer q = .ok (str, l1)) :
    l1 = { lexer with chunk := l1.chunk } ∧
      ∃ consumed, consumed ≠ [] ∧ lexer.chunk = consumed ++ l1.chunk := by
  unfold scanBytes at h
  simp only [bind, Except.bind, pure, Except.pure] at h
  split at h
  · cases h
  · split at h
    · cases h
    · rename_i l0 h3
      simp only [Except.ok.injEq, Prod.mk.injEq] at h
      obtain ⟨-, rfl⟩ := h
      exact forward_consumes h3 (by omega)

theorem scan_consumes {lexer l1 : Lexer} {re : Regex} {token : List Char}
    (hre : lexer.chunk = FindString re lexer.chunk ++
      lexer.chunk.drop (FindString re lexer.chunk).length)
    (h : scan lexer re = .ok (token, l1)) :
    l1 = { lexer with chunk := l1.chunk } ∧ token ≠ [] ∧ lexer.chunk = token ++ l1.chunk := by
  unfold scan at h
  simp only at h
  split at h
  · rename_i hne
    cases h3 : forward (FindString re lexer.chunk).length lexer with
    | error e => simp [h3, bind, Except.bind] at h
    | ok l0 =>
      simp only [h3, bind, Except.bind, pure, Except.pure, Except.ok.injEq, Prod.mk.injEq] at h
      obtain ⟨rfl, rfl⟩ := h
      obtain ⟨-, hl0⟩ := forward_ok h3
      subst hl0
      exact ⟨rfl, hne, hre⟩
  · cases h

theorem emitScanned_ok {kind : Int} {lexer l1 : Lexer} {r : Except Failure (List Char × Lexer)}
    {line k : Int} {lexeme : List Char}
    (h : emitScanned kind lexer r = .ok ((line, k, lexeme), l1)) :
    line = lexer.line ∧ k = kind ∧ r = .ok (lexeme, l1) := by
  unfold emitScanned at h
  cases r with
  | error e => simp [bind, Except.bind] at h
  | ok v =>
    obtain ⟨t, l⟩ := v
    simp only [bind, Except.bind, pure, Except.pure, Except.ok.injEq, Prod.mk.injEq] at h
    obtain ⟨⟨rfl, rfl, rfl⟩, rfl⟩ := h
    exact ⟨rfl, rfl, rfl⟩

theorem keywords_ne_EOF {token : List Char} {kind : Int} (h : keywords token = some kind) :
    kind ≠ TokenEOF ∧ kind ≠ TokenLiteralString ∧ kind ≠ TokenLiteralBytes := by
  unfold keywords keywordTable at h
  simp only [List.lookup] at h
  repeat' split at h
  all_goals (cases h <;> decide)

/-- What a successful `scanToken` does: the token carries the current line, only
the chunk changes, the kind is not `TokenEOF`, and a non-empty prefix of the
chunk is consumed, which is the lexeme itself unless the token is a string or
bytes literal. -/
theorem scanToken_spec {lexer l1 : Lexer} {c : Char} {cs : List Char} {line kind : Int}
    {lexeme : List Char} (hchunk : lexer.chunk = c :: cs)
    (h : scanToken lexer c = .ok ((line, kind, lexeme), l1)) :
    line = lexer.line ∧ l1 = { lexer with chunk := l1.chunk } ∧ kind ≠ TokenEOF ∧
      ∃ consumed, consumed ≠ [] ∧ lexer.chunk = consumed ++ l1.chunk ∧
        (kind ≠ TokenLiteralString → kind ≠ TokenLiteralBytes → consumed = lexeme) := by
  unfold scanToken at h
  by_cases hc : c = ','
  · rw [if_pos hc] at h
    exact emit_spec h (by rw [hchunk, hc]; simp [List.isPrefixOf]) rfl (by decide) (by decide)
  rw [if_neg hc] at h
  clear hc
  by_cases hc : c = '('
  · rw [if_pos hc] at h
    exact emit_spec h (by rw [hchunk, hc]; simp [List.isPrefixOf]) rfl (by decide) (by decide)
  rw [if_neg hc] at h
  clear hc
  by_cases hc : c = ')'
  · rw [if_pos hc] at h
    exact emit_spec h (by rw [hchunk, hc]; simp [List.isPrefixOf]) rfl (by decide) (by decide)
  rw [if_neg hc] at h
  clear hc
  by_cases hc : c = '['
  · rw [if_pos hc] at h
    exact emit_spec h (by rw [hchunk, hc]; simp [List.isPrefixOf]) rfl (by decide) (by decide)
  rw [if_neg hc] at h
  clear hc
  by_cases hc : c = ']'
  · rw [if_pos hc] at h
    exact emit_spec h (by rw [hchunk, hc]; simp [List.isPrefixOf]) rfl (by decide) (by decide)
  rw [if_neg hc] at h
  clear hc
  by_cases hc : c = '\x7b'
  · rw [if_pos hc] at h
    exact emit_spec h (by rw [hchunk, hc]; simp [List.isPrefixOf]) rfl (by decide) (by decide)
  rw [if_neg hc] at h
  clear hc
  by_cases hc : c = '\x7d'
  · rw [if_pos hc] at h
    exact emit_spec h (by rw [hchunk, hc]; simp [List.isPrefixOf]) rfl (by decide) (by decide)
  rw [if_neg hc] at h
  clear hc
  by_cases hc : c = '+'
  · rw [if_pos hc] at h
    exact emit_spec h (by rw [hchunk, hc]; simp [List.isPrefixOf]) rfl (by decide) (by decide)
  rw [if_neg hc] at h
  clear hc
  by_cases hc : c = '-'
  · rw [if_pos hc] at h
    exact emit_spec h (by rw [hchunk, hc]; simp [List.isPrefixOf]) rfl (by decide) (by decide)
  rw [if_neg hc] at h
  clear hc
  by_cases hc : c = '^'
  · rw [if_pos hc] at h
    exact emit_spec h (by rw [hchunk, hc]; simp [List.isPrefixOf]) rfl (by decide) (by decide)
  rw [if_neg hc] at h
  clear hc
  by_cases hc : c = '%'
  · rw [if_pos hc] at h
    exact emit_spec h (by rw [hchunk, hc]; simp [List.isPrefixOf]) rfl (by decide) (by decide)
  rw [if_neg hc] at h
  clear hc
  by_cases hc : c = '&'
  · rw [if_pos hc] at h
    exact emit_spec h (by rw [hchunk, hc]; simp [List.isPrefixOf]) rfl (by decide) (by decide)
  rw [if_neg hc] at h
  clear hc
  by_cases hc : c = '|'
  · rw [if_pos hc] at h
    exact emit_spec h (by rw [hchunk, hc]; simp [List.isPrefixOf]) rfl (by decide) (by decide)
  rw [if_neg hc] at h
  clear hc
  by_cases hc : c = ':'
  · rw [if_pos hc] at h
    by_cases hn : nextStringIs lexer "::".toList = true
    · rw [if_neg (by rw [hn]; decide)] at h
      exact emit_spec h (by simpa [nextStringIs] using hn) rfl (by decide) (by decide)
    · rw [if_pos (by simpa using hn)] at h
      cases h
  rw [if_neg hc] at h
  clear hc
  by_cases hc : c = '!'
  · rw [if_pos hc] at h
    by_cases hn : nextStringIs lexer "!=".toList = true
    · rw [if_neg (by rw [hn]; decide)] at h
      exact emit_spec h (by simpa [nextStringIs] using hn) rfl (by decide) (by decide)
    · rw [if_pos (by simpa using hn)] at h
      cases h
  rw [if_neg hc] at h
  clear hc
  by_cases hc : c = '*'
  · rw [if_pos hc] at h
    by_cases hn : nextStringIs lexer "**".toList = true
    · rw [if_pos hn] at h
      exact emit_spec h (by simpa [nextStringIs] using hn) rfl (by decide) (by decide)
    · rw [if_neg hn] at h
      exact emit_spec h (by rw [hchunk, hc]; simp [List.isPrefixOf]) rfl (by decide) (by decide)
  rw [if_neg hc] at h
  clear hc
  by_cases hc : c = '='
  · rw [if_pos hc] at h
    by_cases hn : nextStringIs lexer "==".toList = true
    · rw [if_pos hn] at h
      exact emit_spec h (by simpa [nextStringIs] using hn) rfl (by decide) (by decide)
    · rw [if_neg hn] at h
      exact emit_spec h (by rw [hchunk, hc]; simp [List.isPrefixOf]) rfl (by decide) (by decide)
  rw [if_neg hc] at h
  clear hc
  by_cases hc : c = '<'
  · rw [if_pos hc] at h
    by_cases hn : nextStringIs lexer "<=".toList = true
    · rw [if_pos hn] at h
      exact emit_spec h (by simpa [nextStringIs] using hn) rfl (by decide) (by decide)
    · rw [if_neg hn] at h
      exact emit_spec h (by rw [hchunk, hc]; simp [List.isPrefixOf]) rfl (by decide) (by decide)
  rw [if_neg hc] at h
  clear hc
  by_cases hc : c = '>'
  · rw [if_pos hc] at h
    by_cases hn : nextStringIs lexer ">=".toList = true
    · rw [if_pos hn] at h
      exact emit_spec h (by simpa [nextStringIs] using hn) rfl (by decide) (by decide)
    · rw [if_neg hn] at h
      exact emit_spec h (by rw [hchunk, hc]; simp [List.isPrefixOf]) rfl (by decide) (by decide)
  rw [if_neg hc] at h
  clear hc
  by_cases hc : c = '.' ∧ (lexer.chunk.length = 1 ∨ (!(isDigit (lexer.chunk.getD 1 '0'))) = true)
  · rw [if_pos hc] at h
    exact emit_spec h (by rw [hchunk, hc.1]; simp [List.isPrefixOf]) rfl (by decide) (by decide)
  rw [if_neg hc] at h
  clear hc
  by_cases hc : c = squote
  · rw [if_pos hc] at h
    by_cases hq : nextStringIs lexer [squote, squote, squote] = true
    · rw [if_pos hq] at h
      obtain ⟨rfl, rfl, hr⟩ := emitScanned_ok h
      obtain ⟨-, hl, hlen⟩ := scanLongString_spec hq hr
      refine ⟨rfl, by rw [hl], by decide, lexer.chunk.take 6, ?_, ?_, fun hk => absurd rfl hk⟩
      · intro h0
        have h1 : (lexer.chunk.take 6).length = 6 := List.length_take_of_le hlen
        rw [h0] at h1
        simp at h1
      · rw [hl]; exact (List.take_append_drop 6 lexer.chunk).symm
    · rw [if_neg hq] at h
      obtain ⟨rfl, rfl, hr⟩ := emitScanned_ok h
      obtain ⟨hl, consumed, hc1, hc2⟩ := scanShortString_consumes hr
      exact ⟨rfl, hl, by decide, consumed, hc1, hc2, fun hk => absurd rfl hk⟩
  rw [if_neg hc] at h
  clear hc
  by_cases hc : c = dquote
  · rw [if_pos hc] at h
    by_cases hq : nextStringIs lexer [dquote, dquote, dquote] = true
    · rw [if_pos hq] at h
      obtain ⟨rfl, rfl, hr⟩ := emitScanned_ok h
      obtain ⟨-, hl, hlen⟩ := scanLongString_spec hq hr
      refine ⟨rfl, by rw [hl], by decide, lexer.chunk.take 6, ?_, ?_, fun hk => absurd rfl hk⟩
      · intro h0
        have h1 : (lexer.chunk.take 6).length = 6 := List.length_take_of_le hlen
        rw [h0] at h1
        simp at h1
      · rw [hl]; exact (List.take_append_drop 6 lexer.chunk).symm
    · rw [if_neg hq] at h
      obtain ⟨rfl, rfl, hr⟩ := emitScanned_ok h
      obtain ⟨hl, consumed, hc1, hc2⟩ := scanShortString_consumes hr
      exact ⟨rfl, hl, by decide, consumed, hc1, hc2, fun hk => absurd rfl hk⟩
  rw [if_neg hc] at h
  clear hc
  by_cases hc : (nextStringIs lexer ['b', squote] || nextStringIs lexer ['b', dquote]) = true
  · rw [if_pos hc] at h
    split at h
    · obtain ⟨rfl, rfl, hr⟩ := emitScanned_ok h
      obtain ⟨hl, consumed, hc1, hc2⟩ := scanBytes_consumes hr
      exact ⟨rfl, hl, by decide, consumed, hc1, hc2, fun _ hk => absurd rfl hk⟩
    · cases h
  rw [if_neg hc] at h
  clear hc
  by_cases hc : c = '.' ∨ isDigit c = true
  · rw [if_pos hc] at h
    obtain ⟨rfl, rfl, hr⟩ := emitScanned_ok h
    obtain ⟨hl, hc1, hc2⟩ := scan_consumes (FindString_reNumber_initial _) hr
    exact ⟨rfl, hl, by decide, lexeme, hc1, hc2, fun _ _ => rfl⟩
  rw [if_neg hc] at h
  clear hc
  by_cases hc : c = '_' ∨ isLetter c = true
  · rw [if_pos hc] at h
    have hid : isIdentStart c = true := by
      rcases hc with hc | hc
      · simp [isIdentStart, hc]
      · simp [isIdentStart, hc]
    cases hr : scanIdentifier lexer with
    | error e => simp [hr, bind, Except.bind] at h
    | ok v =>
      obtain ⟨token, l0⟩ := v
      simp only [hr, bind, Except.bind] at h
      obtain ⟨hl, hc1, hc2⟩ := scan_consumes
        (by rw [hchunk]; exact FindString_reIdentifier_initial c cs hid) hr
      split at h
      · rename_i k hk
        simp only [pure, Except.pure, Except.ok.injEq, Prod.mk.injEq] at h
        obtain ⟨⟨rfl, rfl, rfl⟩, rfl⟩ := h
        exact ⟨by rw [hl], hl, (keywords_ne_EOF hk).1, token, hc1, hc2, fun _ _ => rfl⟩
      · simp only [pure, Except.pure, Except.ok.injEq, Prod.mk.injEq] at h
        obtain ⟨⟨rfl, rfl, rfl⟩, rfl⟩ := h
        exact ⟨by rw [hl], hl, by decide, token, hc1, hc2, fun _ _ => rfl⟩
  · rw [if_neg hc] at h
    cases h

/-! ## `NextToken` without a cached token -/

theorem skipWhiteSpaces_spec {lexer sk : Lexer} (h : skipWhiteSpaces lexer = .ok sk) :
    ∃ w, lexer.chunk = w ++ sk.chunk ∧ sk.line = lexer.line + lineBreaks w ∧
      sk = { lexer with chunk := sk.chunk, line := sk.line } ∧
      (∀ c cs, sk.chunk = c :: cs → isNewLine c = false ∧ isWhiteSpace c = false ∧
        nextStringIs sk "//".toList = false ∧ nextStringIs sk "/*".toList = false) :=
  skipWhiteSpacesLoop_spec _ _ _ h

/-- What a successful `NextToken` does when no token is cached: it skips white
space and comments, then either reports the end of the chunk or consumes a
non-empty prefix of what is left; the token carries the line reached by the
skipping, which is also the line of the lexer afterwards. -/
theorem NextToken_spec {lexer l1 : Lexer} {line kind : Int} {lexeme : List Char}
    (hcache : ¬ lexer.nextTokenLine > 0)
    (h : NextToken lexer = .ok ((line, kind, lexeme), l1)) :
    ∃ sk, skipWhiteSpaces lexer = .ok sk ∧ line = sk.line ∧
      l1 = { sk with chunk := l1.chunk } ∧
      ((sk.chunk = [] ∧ l1 = sk ∧ kind = TokenEOF ∧ lexeme = "EOF".toList) ∨
        (kind ≠ TokenEOF ∧ ∃ consumed, consumed ≠ [] ∧ sk.chunk = consumed ++ l1.chunk ∧
          (kind ≠ TokenLiteralString → kind ≠ TokenLiteralBytes → consumed = lexeme))) := by
  unfold NextToken at h
  rw [if_neg hcache] at h
  cases hs : skipWhiteSpaces lexer with
  | error e => simp [hs, bind, Except.bind] at h
  | ok sk =>
    simp only [hs, bind, Except.bind] at h
    refine ⟨sk, rfl, ?_⟩
    split at h
    · rename_i hnil
      simp only [pure, Except.pure, Except.ok.injEq, Prod.mk.injEq] at h
      obtain ⟨⟨rfl, rfl, rfl⟩, rfl⟩ := h
      exact ⟨rfl, rfl, Or.inl ⟨hnil, rfl, rfl, rfl⟩⟩
    · rename_i c cs hchunk
      obtain ⟨h1, h2, h3, h4⟩ := scanToken_spec hchunk h
      exact ⟨h1, h2, Or.inr ⟨h3, h4⟩⟩

/-- Lexeme fidelity (C1): when no token is cached and `NextToken` returns a
token whose kind is neither `TokenEOF` nor a string or bytes literal, the text
left by the skipping of white space and comments is the lexeme followed by the
text left by the call. -/
theorem nextToken_lexeme_fidelity (lexer l1 : Lexer) (line kind : Int) (lexeme : List Char)
    (hcache : ¬ lexer.nextTokenLine > 0)
    (h : NextToken lexer = .ok ((line, kind, lexeme), l1))
    (hEOF : kind ≠ TokenEOF) (hString : kind ≠ TokenLiteralString)
    (hBytes : kind ≠ TokenLiteralBytes) :
    ∃ sk, skipWhiteSpaces lexer = .ok sk ∧ sk.chunk = lexeme ++ l1.chunk := by
  obtain ⟨sk, hs, -, -, h1 | ⟨-, consumed, -, h2, h3⟩⟩ := NextToken_spec hcache h
  · exact absurd h1.2.2.1 hEOF
  · refine ⟨sk, hs, ?_⟩
    rw [← h3 hString hBytes]
    exact h2

theorem nextToken_lexeme_fidelity_witness :
    ∃ sk, skipWhiteSpaces (NewLexer " // c\n forward(x)".toList "f".toList) = .ok sk ∧
      sk.chunk = "forward".toList ++ "(x)".toList :=
  nextToken_lexeme_fidelity (NewLexer " // c\n forward(x)".toList "f".toList)
    ⟨"(x)".toList, "f".toList, 2, [], 0, 0⟩ 2 TokenIdentifier "forward".toList
    (by decide) (by decide) (by decide) (by decide) (by decide)

/-! ## The one-token lookahead -/

/-- A successful `LookAhead` keeps the line and leaves a lexer whose cache holds
a token of the kind returned, provided the line counter is at least 1. -/
theorem LookAhead_cached {lexer l1 : Lexer} {kind : Int} (hline : 1 ≤ lexer.line)
    (h : LookAhead lexer = .ok (kind, l1)) :
    l1.line = lexer.line ∧ l1.nextTokenLine > 0 ∧ l1.nextTokenKind = kind := by
  unfold LookAhead at h
  by_cases hcache : lexer.nextTokenLine > 0
  · rw [if_pos hcache] at h
    simp only [Except.ok.injEq, Prod.mk.injEq] at h
    obtain ⟨rfl, rfl⟩ := h
    exact ⟨rfl, hcache, rfl⟩
  · rw [if_neg hcache] at h
    cases hn : NextToken lexer with
    | error e => simp [hn, bind, Except.bind] at h
    | ok v =>
      obtain ⟨⟨line, k, token⟩, l0⟩ := v
      simp only [hn, bind, Except.bind, pure, Except.pure, Except.ok.injEq, Prod.mk.injEq] at h
      obtain ⟨rfl, rfl⟩ := h
      obtain ⟨sk, hs, hl, -, -⟩ := NextToken_spec hcache hn
      obtain ⟨w, -, hw, -, -⟩ := skipWhiteSpaces_spec hs
      refine ⟨rfl, ?_, rfl⟩
      show line > 0
      rw [hl, hw]
      omega

theorem LookAhead_fixed {lexer : Lexer} (h : lexer.nextTokenLine > 0) :
    LookAhead lexer = .ok (lexer.nextTokenKind, lexer) := by
  unfold LookAhead
  rw [if_pos h]

theorem LookAheadRepeat_fixed {lexer : Lexer} (h : lexer.nextTokenLine > 0) (n : Nat) :
    LookAheadRepeat n lexer = .ok (lexer.nextTokenKind, lexer) := by
  induction n with
  | zero => exact LookAhead_fixed h
  | succ n ih =>
    unfold LookAheadRepeat
    rw [LookAhead_fixed h]
    exact ih

/-- Peek idempotence (C4): on a scanner state whose 1-based line counter is at
least 1, a successful `LookAhead` leaves `Line()` unchanged, a second
`LookAhead` returns the same kind and leaves the lexer exactly as the first
left it, and any number of consecutive calls does what one call does. -/
theorem lookAhead_idempotent (lexer l1 : Lexer) (kind : Int) (hline : 1 ≤ lexer.line)
    (h : LookAhead lexer = .ok (kind, l1)) :
    l1.Line = lexer.Line ∧ LookAhead l1 = .ok (kind, l1) ∧
      ∀ n, LookAheadRepeat n lexer = .ok (kind, l1) := by
  obtain ⟨h1, h2, h3⟩ := LookAhead_cached hline h
  refine ⟨h1, ?_, ?_⟩
  · rw [LookAhead_fixed h2, h3]
  · intro n
    cases n with
    | zero => exact h
    | succ n =>
      unfold LookAheadRepeat
      rw [h]
      simp only [bind, Except.bind]
      rw [LookAheadRepeat_fixed h2, h3]

theorem lookAhead_idempotent_witness :
    (⟨" y".toList, "f".toList, 1, "x".toList, TokenIdentifier, 2⟩ : Lexer).Line =
        (NewLexer "\nx y".toList "f".toList).Line ∧
      LookAhead ⟨" y".toList, "f".toList, 1, "x".toList, TokenIdentifier, 2⟩ =
        .ok (TokenIdentifier, ⟨" y".toList, "f".toList, 1, "x".toList, TokenIdentifier, 2⟩) ∧
      ∀ n, LookAheadRepeat n (NewLexer "\nx y".toList "f".toList) =
        .ok (TokenIdentifier, ⟨" y".toList, "f".toList, 1, "x".toList, TokenIdentifier, 2⟩) :=
  lookAhead_idempotent (NewLexer "\nx y".toList "f".toList)
    ⟨" y".toList, "f".toList, 1, "x".toList, TokenIdentifier, 2⟩ TokenIdentifier
    (by decide) (by decide)

/-- Peek-then-consume equals consume (C5): on a scanner state whose 1-based line
counter is at least 1 and whose cache is empty, if `NextToken` returns
`(line, kind, lexeme)` then `LookAhead` returns `kind`, and `NextToken` after
that `LookAhead` returns the same triple and ends with the same remaining text,
the same `Line()` and an empty cache as the single `NextToken`. -/
theorem lookAhead_then_nextToken (lexer l1 : Lexer) (line kind : Int) (lexeme : List Char)
    (hline : 1 ≤ lexer.line) (hcache : ¬ lexer.nextTokenLine > 0)
    (h : NextToken lexer = .ok ((line, kind, lexeme), l1)) :
    ∃ l2 l3, LookAhead lexer = .ok (kind, l2) ∧
      NextToken l2 = .ok ((line, kind, lexeme), l3) ∧
      l3.chunk = l1.chunk ∧ l3.Line = l1.Line ∧
      ¬ l3.nextTokenLine > 0 ∧ ¬ l1.nextTokenLine > 0 := by
  obtain ⟨sk, hs, hl, hl1, -⟩ := NextToken_spec hcache h
  obtain ⟨w, -, hw, hsk, -⟩ := skipWhiteSpaces_spec hs
  have hpos : line > 0 := by rw [hl, hw]; omega
  have hla : LookAhead lexer = .ok (kind, { l1 with
      line := lexer.line, nextTokenLine := line, nextTokenKind := kind, nextToken := lexeme }) := by
    unfold LookAhead
    rw [if_neg hcache, h]
    rfl
  refine ⟨_, ⟨l1.chunk, l1.chunkName, line, lexeme, kind, 0⟩, hla, ?_, rfl, ?_, ?_, ?_⟩
  · unfold NextToken
    rw [if_pos hpos]
  · show line = l1.line
    rw [hl1, hl]
  · show ¬ (0 : Int) > 0
    omega
  · rw [hl1, hsk]
    exact hcache

theorem lookAhead_then_nextToken_witness :
    ∃ l2 l3, LookAhead (NewLexer "\nx y".toList "f".toList) = .ok (TokenIdentifier, l2) ∧
      NextToken l2 = .ok ((2, TokenIdentifier, "x".toList), l3) ∧
      l3.chunk = (⟨" y".toList, "f".toList, 2, [], 0, 0⟩ : Lexer).chunk ∧
      l3.Line = (⟨" y".toList, "f".toList, 2, [], 0, 0⟩ : Lexer).Line ∧
      ¬ l3.nextTokenLine > 0 ∧
      ¬ (⟨" y".toList, "f".toList, 2, [], 0, 0⟩ : Lexer).nextTokenLine > 0 :=
  lookAhead_then_nextToken (NewLexer "\nx y".toList "f".toList)
    ⟨" y".toList, "f".toList, 2, [], 0, 0⟩ 2 TokenIdentifier "x".toList
    (by decide) (by decide) (by decide)

/-! ## Failures are Go panics, never the fuel of the model -/

theorem syntaxError_ne (lexer : Lexer) (msg : List Char) :
    syntaxError lexer msg ≠ .outOfFuel := by
  simp [syntaxError]

theorem forward_error {n : Nat} {lexer : Lexer} {e : Failure}
    (h : forward n lexer = .error e) : e = .outOfRange := by
  unfold forward at h
  split at h
  · cases h
  · cases h; rfl

theorem slice_error {s : List Char} {a b : Nat} {e : Failure}
    (h : slice s a b = .error e) : e = .outOfRange := by
  unfold slice at h
  split at h
  · cases h
  · cases h; rfl

theorem emit_error {n : Nat} {kind : Int} {tok : String} {lexer : Lexer} {e : Failure}
    (h : emit n kind tok lexer = .error e) : e ≠ .outOfFuel := by
  unfold emit at h
  cases h1 : forward n lexer with
  | error e1 =>
    simp only [h1, bind, Except.bind, Except.error.injEq] at h
    rw [← h, forward_error h1]
    decide
  | ok l0 => simp [h1, bind, Except.bind, pure, Except.pure] at h

theorem emitScanned_error {kind : Int} {lexer : Lexer}
    {r : Except Failure (List Char × Lexer)} {e : Failure}
    (h : emitScanned kind lexer r = .error e) : r = .error e := by
  unfold emitScanned at h
  cases r with
  | error e1 =>
    simp only [bind, Except.bind, Except.error.injEq] at h
    rw [h]
  | ok v => simp [bind, Except.bind, pure, Except.pure] at h

theorem scanShortString_error {lexer : Lexer} {q : Char} {e : Failure}
    (h : scanShortString lexer q = .error e) : e ≠ .outOfFuel := by
  unfold scanShortString at h
  simp only [bind, Except.bind, pure, Except.pure] at h
  split at h
  · cases h; exact syntaxError_ne _ _
  · split at h
    · rename_i e1 h1
      cases h
      rw [slice_error h1]; decide
    · split at h
      · rename_i e1 h1
        cases h
        rw [forward_error h1]; decide
      · cases h

theorem scanLongString_error {lexer : Lexer} {q : Char} {e : Failure}
    (h : scanLongString lexer q = .error e) : e ≠ .outOfFuel := by
  unfold scanLongString at h
  simp only [bind, Except.bind, pure, Except.pure] at h
  split at h
  · cases h; exact syntaxError_ne _ _
  · split at h
    · rename_i e1 h1
      cases h
      rw [slice_error h1]; decide
    · split at h
      · rename_i e1 h1
        cases h
        rw [forward_error h1]; decide
      · cases h

theorem scanBytes_error {lexer : Lexer} {q : Char} {e : Failure}
    (h : scanBytes lexer q = .error e) : e ≠ .outOfFuel := by
  unfold scanBytes at h
  simp only [bind, Except.bind, pure, Except.pure] at h
  split at h
  · cases h; exact syntaxError_ne _ _
  · split at h
    · rename_i e1 h1
      cases h
      rw [forward_error h1]; decide
    · cases h

theorem scan_error {lexer : Lexer} {re : Regex} {e : Failure}
    (h : scan lexer re = .error e) : e ≠ .outOfFuel := by
  unfold scan at h
  simp only [bind, Except.bind, pure, Except.pure] at h
  split at h
  · split at h
    · rename_i e1 h1
      cases h
      rw [forward_error h1]; decide
    · cases h
  · cases h; decide

theorem scanToken_error {lexer : Lexer} {c : Char} {e : Failure}
    (h : scanToken lexer c = .error e) : e ≠ .outOfFuel := by
  unfold scanToken at h
  by_cases hc : c = ','
  · rw [if_pos hc] at h
    exact emit_error h
  rw [if_neg hc] at h
  clear hc
  by_cases hc : c = '('
  · rw [if_pos hc] at h
    exact emit_error h
  rw [if_neg hc] at h
  clear hc
  by_cases hc : c = ')'
  · rw [if_pos hc] at h
    exact emit_error h
  rw [if_neg hc] at h
  clear hc
  by_cases hc : c = '['
  · rw [if_pos hc] at h
    exact emit_error h
  rw [if_neg hc] at h
  clear hc
  by_cases hc : c = ']'
  · rw [if_pos hc] at h
    exact emit_error h
  rw [if_neg hc] at h
  clear hc
  by_cases hc : c = '\x7b'
  · rw [if_pos hc] at h
    exact emit_error h
  rw [if_neg hc] at h
  clear hc
  by_cases hc : c = '\x7d'
  · rw [if_pos hc] at h
    exact emit_error h
  rw [if_neg hc] at h
  clear hc
  by_cases hc : c = '+'
  · rw [if_pos hc] at h
    exact emit_error h
  rw [if_neg hc] at h
  clear hc
  by_cases hc : c = '-'
  · rw [if_pos hc] at h
    exact emit_error h
  rw [if_neg hc] at h
  clear hc
  by_cases hc : c = '^'
  · rw [if_pos hc] at h
    exact emit_error h
  rw [if_neg hc] at h
  clear hc
  by_cases hc : c = '%'
  · rw [if_pos hc] at h
    exact emit_error h
  rw [if_neg hc] at h
  clear hc
  by_cases hc : c = '&'
  · rw [if_pos hc] at h
    exact emit_error h
  rw [if_neg hc] at h
  clear hc
  by_cases hc : c = '|'
  · rw [if_pos hc] at h
    exact emit_error h
  rw [if_neg hc] at h
  clear hc
  by_cases hc : c = ':'
  · rw [if_pos hc] at h
    by_cases hn : nextStringIs lexer "::".toList = true
    · rw [if_neg (by rw [hn]; decide)] at h
      exact emit_error h
    · rw [if_pos (by simpa using hn)] at h
      cases h
      exact syntaxError_ne _ _
  rw [if_neg hc] at h
  clear hc
  by_cases hc : c = '!'
  · rw [if_pos hc] at h
    by_cases hn : nextStringIs lexer "!=".toList = true
    · rw [if_neg (by rw [hn]; decide)] at h
      exact emit_error h
    · rw [if_pos (by simpa using hn)] at h
      cases h
      exact syntaxError_ne _ _
  rw [if_neg hc] at h
  clear hc
  by_cases hc : c = '*'
  · rw [if_pos hc] at h
    by_cases hn : nextStringIs lexer "**".toList = true
    · rw [if_pos hn] at h
      exact emit_error h
    · rw [if_neg hn] at h
      exact emit_error h
  rw [if_neg hc] at h
  clear hc
  by_cases hc : c = '='
  · rw [if_pos hc] at h
    by_cases hn : nextStringIs lexer "==".toList = true
    · rw [if_pos hn] at h
      exact emit_error h
    · rw [if_neg hn] at h
      exact emit_error h
  rw [if_neg hc] at h
  clear hc
  by_cases hc : c = '<'
  · rw [if_pos hc] at h
    by_cases hn : nextStringIs lexer "<=".toList = true
    · rw [if_pos hn] at h
      exact emit_error h
    · rw [if_neg hn] at h
      exact emit_error h
  rw [if_neg hc] at h
  clear hc
  by_cases hc : c = '>'
  · rw [if_pos hc] at h
    by_cases hn : nextStringIs lexer ">=".toList = true
    · rw [if_pos hn] at h
      exact emit_error h
    · rw [if_neg hn] at h
      exact emit_error h
  rw [if_neg hc] at h
  clear hc
  by_cases hc : c = '.' ∧ (lexer.chunk.length = 1 ∨ (!(isDigit (lexer.chunk.getD 1 '0'))) = true)
  · rw [if_pos hc] at h
    exact emit_error h
  rw [if_neg hc] at h
  clear hc
  by_cases hc : c = squote
  · rw [if_pos hc] at h
    by_cases hq : nextStringIs lexer [squote, squote, squote] = true
    · rw [if_pos hq] at h
      exact scanLongString_error (emitScanned_error h)
    · rw [if_neg hq] at h
      exact scanShortString_error (emitScanned_error h)
  rw [if_neg hc] at h
  clear hc
  by_cases hc : c = dquote
  · rw [if_pos hc] at h
    by_cases hq : nextStringIs lexer [dquote, dquote, dquote] = true
    · rw [if_pos hq] at h
      exact scanLongString_error (emitScanned_error h)
    · rw [if_neg hq] at h
      exact scanShortString_error (emitScanned_error h)
  rw [if_neg hc] at h
  clear hc
  by_cases hc : (nextStringIs lexer ['b', squote] || nextStringIs lexer ['b', dquote]) = true
  · rw [if_pos hc] at h
    split at h
    · exact scanBytes_error (emitScanned_error h)
    · cases h; decide
  rw [if_neg hc] at h
  clear hc
  by_cases hc : c = '.' ∨ isDigit c = true
  · rw [if_pos hc] at h
    exact scan_error (emitScanned_error h)
  rw [if_neg hc] at h
  clear hc
  by_cases hc : c = '_' ∨ isLetter c = true
  · rw [if_pos hc] at h
    cases hr : scanIdentifier lexer with
    | error e1 =>
      simp only [hr, bind, Except.bind, Except.error.injEq] at h
      rw [← h]
      exact scan_error hr
    | ok v =>
      obtain ⟨token, l0⟩ := v
      simp only [hr, bind, Except.bind] at h
      split at h <;> cases h
  · rw [if_neg hc] at h
    cases h
    exact syntaxError_ne _ _

theorem skipShortComment_cases (lexer : Lexer) :
    (∃ l1, skipShortComment lexer = .ok l1 ∧ l1.chunk.length < lexer.chunk.length) ∨
      skipShortComment lexer = .error .outOfRange := by
  unfold skipShortComment
  cases h : forward 2 lexer with
  | error e => right; rw [forward_error h]; rfl
  | ok l0 =>
    left
    obtain ⟨hlen, rfl⟩ := forward_ok h
    refine ⟨_, rfl, ?_⟩
    obtain ⟨body, hb, -⟩ := skipShortCommentLoop_spec (lexer.chunk.drop 2)
    have h1 := congrArg List.length hb
    simp only [List.length_append, List.length_drop] at h1
    show (skipShortCommentLoop (lexer.chunk.drop 2)).length < lexer.chunk.length
    omega

theorem skipLongComment_cases (lexer : Lexer) :
    (∃ l1, skipLongComment lexer = .ok l1 ∧ l1.chunk.length < lexer.chunk.length) ∨
      skipLongComment lexer = .error .outOfRange := by
  unfold skipLongComment
  cases h : forward 2 lexer with
  | error e => right; rw [forward_error h]; rfl
  | ok l0 =>
    obtain ⟨hlen, rfl⟩ := forward_ok h
    simp only [bind, Except.bind]
    cases h2 : forward 2 (⟨(skipLongCommentLoop (lexer.chunk.drop 2) lexer.line).1,
        lexer.chunkName, (skipLongCommentLoop (lexer.chunk.drop 2) lexer.line).2,
        lexer.nextToken, lexer.nextTokenKind, lexer.nextTokenLine⟩ : Lexer) with
    | error e => right; rw [forward_error h2]
    | ok l1 =>
      left
      obtain ⟨hlen2, rfl⟩ := forward_ok h2
      refine ⟨_, rfl, ?_⟩
      obtain ⟨b, hb, -, -⟩ :=
        skipLongCommentLoop_spec _ (lexer.chunk.drop 2) lexer.line (le_refl _)
      have h1 := congrArg List.length hb
      simp only [List.length_append, List.length_drop] at h1
      simp only [List.length_drop]
      omega

/-- With more fuel than the chunk has bytes the loop of `skipWhiteSpaces` never
runs out of fuel. -/
theorem skipWhiteSpacesLoop_error :
    ∀ (fuel : Nat) (lexer : Lexer) (e : Failure), lexer.chunk.length < fuel →
      skipWhiteSpacesLoop fuel lexer = .error e → e ≠ .outOfFuel := by
  intro fuel
  induction fuel with
  | zero => intro lexer e hlen; omega
  | succ fuel ih =>
    intro lexer e hlen h
    unfold skipWhiteSpacesLoop at h
    split at h
    · cases h
    · rename_i c cs hchunk
      rw [hchunk, List.length_cons] at hlen
      split at h
      · rcases skipShortComment_cases lexer with ⟨l1, h1, h2⟩ | h1
        · simp only [h1, bind, Except.bind] at h
          exact ih l1 e (by rw [hchunk, List.length_cons] at h2; omega) h
        · simp only [h1, bind, Except.bind, Except.error.injEq] at h
          rw [← h]; decide
      · split at h
        · rcases skipLongComment_cases lexer with ⟨l1, h1, h2⟩ | h1
          · simp only [h1, bind, Except.bind] at h
            exact ih l1 e (by rw [hchunk, List.length_cons] at h2; omega) h
          · simp only [h1, bind, Except.bind, Except.error.injEq] at h
            rw [← h]; decide
        · split at h
          · cases h3 : forward 2 lexer with
            | error e1 =>
              simp only [h3, bind, Except.bind, Except.error.injEq] at h
              rw [← h, forward_error h3]; decide
            | ok l0 =>
              simp only [h3, bind, Except.bind] at h
              obtain ⟨hl, rfl⟩ := forward_ok h3
              refine ih _ e ?_ h
              simp only [hchunk, List.length_drop, List.length_cons]
              omega
          · split at h
            · cases h3 : forward 1 lexer with
              | error e1 =>
                simp only [h3, bind, Except.bind, Except.error.injEq] at h
                rw [← h, forward_error h3]; decide
              | ok l0 =>
                simp only [h3, bind, Except.bind] at h
                obtain ⟨hl, rfl⟩ := forward_ok h3
                refine ih _ e ?_ h
                simp only [hchunk, List.length_drop, List.length_cons]
                omega
            · split at h
              · cases h3 : forward 1 lexer with
                | error e1 =>
                  simp only [h3, bind, Except.bind, Except.error.injEq] at h
                  rw [← h, forward_error h3]; decide
                | ok l0 =>
                  simp only [h3, bind, Except.bind] at h
                  obtain ⟨hl, rfl⟩ := forward_ok h3
                  refine ih _ e ?_ h
                  simp only [hchunk, List.length_drop, List.length_cons]
                  omega
              · cases h

theorem NextToken_error {lexer : Lexer} {e : Failure} (hcache : ¬ lexer.nextTokenLine > 0)
    (h : NextToken lexer = .error e) : e ≠ .outOfFuel := by
  unfold NextToken at h
  rw [if_neg hcache] at h
  cases hs : skipWhiteSpaces lexer with
  | error e1 =>
    simp only [hs, bind, Except.bind, Except.error.injEq] at h
    rw [← h]
    exact skipWhiteSpacesLoop_error _ lexer e1 (Nat.lt_succ_self _) hs
  | ok sk =>
    simp only [hs, bind, Except.bind] at h
    split at h
    · cases h
    · exact scanToken_error h

/-! ## The token stream -/

theorem testLexerLoop_spec :
    ∀ (fuel : Nat) (lexer : Lexer), ¬ lexer.nextTokenLine > 0 → lexer.chunk.length < fuel →
      (∃ toks, testLexerLoop fuel lexer = .ok toks ∧ toks.length ≤ lexer.chunk.length + 1 ∧
        ∃ init line, toks = init ++ [(line, TokenEOF, "EOF".toList)] ∧
          ∀ t ∈ init, t.2.1 ≠ TokenEOF) ∨
      (∃ e, testLexerLoop fuel lexer = .error e ∧ e ≠ .outOfFuel) := by
  intro fuel
  induction fuel with
  | zero => intro lexer _ hlen; omega
  | succ fuel ih =>
    intro lexer hcache hlen
    unfold testLexerLoop
    cases hn : NextToken lexer with
    | error e =>
      right
      exact ⟨e, rfl, NextToken_error hcache hn⟩
    | ok v =>
      obtain ⟨⟨line, kind, lexeme⟩, l1⟩ := v
      simp only [bind, Except.bind]
      obtain ⟨sk, hs, -, hl1, h1 | ⟨hk, consumed, hc1, hc2, -⟩⟩ := NextToken_spec hcache hn
      · obtain ⟨-, -, rfl, rfl⟩ := h1
        left
        refine ⟨[(line, TokenEOF, "EOF".toList)], by simp [pure, Except.pure], by simp,
          [], line, rfl, by simp⟩
      · obtain ⟨w, hw, -, hsk, -⟩ := skipWhiteSpaces_spec hs
        have hlen1 : l1.chunk.length < lexer.chunk.length := by
          have h1 := congrArg List.length hc2
          have h2 := congrArg List.length hw
          simp only [List.length_append] at h1 h2
          have h3 : 0 < consumed.length := List.length_pos.mpr hc1
          omega
        have hcache1 : ¬ l1.nextTokenLine > 0 := by
          rw [hl1, hsk]; exact hcache
        rw [if_neg hk]
        rcases ih l1 hcache1 (by omega) with ⟨toks, ht1, ht2, init, ln, ht3, ht4⟩ | ⟨e, he1, he2⟩
        · left
          refine ⟨(line, kind, lexeme) :: toks, by simp [ht1, pure, Except.pure],
            by simp only [List.length_cons]; omega,
            (line, kind, lexeme) :: init, ln, by rw [ht3]; rfl, ?_⟩
          intro t ht
          rcases List.mem_cons.mp ht with rfl | ht
          · exact hk
          · exact ht4 t ht
        · right
          exact ⟨e, by simp [he1], he2⟩

/-- Token stream termination (C3): a successful `NextToken` without a cached
token that returns a kind other than `TokenEOF` leaves a strictly shorter
chunk; and the loop of `testLexer` on any source text either stops on the panic
of one of its `NextToken` calls or prints at most `length + 1` tokens, the last
of which is `(line, TokenEOF, "EOF")` and the only one of kind `TokenEOF`. -/
theorem token_stream_terminates :
    (∀ (lexer l1 : Lexer) (line kind : Int) (lexeme : List Char),
      ¬ lexer.nextTokenLine > 0 → NextToken lexer = .ok ((line, kind, lexeme), l1) →
      kind ≠ TokenEOF → l1.chunk.length < lexer.chunk.length) ∧
    (∀ (s name : List Char),
      (∃ toks, testLexer s name = .ok toks ∧ toks.length ≤ s.length + 1 ∧
        ∃ init line, toks = init ++ [(line, TokenEOF, "EOF".toList)] ∧
          ∀ t ∈ init, t.2.1 ≠ TokenEOF) ∨
      (∃ e, testLexer s name = .error e ∧ e ≠ .outOfFuel)) := by
  constructor
  · intro lexer l1 line kind lexeme hcache hn hk
    obtain ⟨sk, hs, -, -, h1 | ⟨-, consumed, hc1, hc2, -⟩⟩ := NextToken_spec hcache hn
    · exact absurd h1.2.2.1 hk
    · obtain ⟨w, hw, -, -, -⟩ := skipWhiteSpaces_spec hs
      have h1 := congrArg List.length hc2
      have h2 := congrArg List.length hw
      simp only [List.length_append] at h1 h2
      have h3 : 0 < consumed.length := List.length_pos.mpr hc1
      omega
  · intro s name
    exact testLexerLoop_spec (s.length + 1) (NewLexer s name)
      (by show ¬ (0 : Int) > 0; omega) (Nat.lt_succ_self _)

theorem token_stream_terminates_witness :
    (⟨" 2".toList, "f".toList, 1, [], 0, 0⟩ : Lexer).chunk.length <
        (NewLexer "x 2".toList "f".toList).chunk.length ∧
      ((∃ toks, testLexer "x 2".toList "f".toList = .ok toks ∧
        toks.length ≤ "x 2".toList.length + 1 ∧
        ∃ init line, toks = init ++ [(line, TokenEOF, "EOF".toList)] ∧
          ∀ t ∈ init, t.2.1 ≠ TokenEOF) ∨
      (∃ e, testLexer "x 2".toList "f".toList = .error e ∧ e ≠ .outOfFuel)) :=
  ⟨token_stream_terminates.1 (NewLexer "x 2".toList "f".toList)
      ⟨" 2".toList, "f".toList, 1, [], 0, 0⟩ 1 TokenIdentifier "x".toList
      (by decide) (by decide) (by decide),
    token_stream_terminates.2 "x 2".toList "f".toList⟩

/-! ## Texts of white space and comments -/

theorem skipShortCommentLoop_append (body rest : List Char)
    (hb : ∀ c ∈ body, isNewLine c = false) (hr : ∀ c r, rest = c :: r → isNewLine c = true) :
    skipShortCommentLoop (body ++ rest) = rest := by
  induction body with
  | nil =>
    cases rest with
    | nil => rfl
    | cons c r => simp [skipShortCommentLoop, hr c r rfl]
  | cons c cs ih =>
    simp only [List.cons_append, skipShortCommentLoop, hb c (List.mem_cons_self _ _)]
    exact ih (fun x hx => hb x (List.mem_cons_of_mem _ hx))

theorem skipLongCommentLoop_close (r : List Char) (l : Int) :
    skipLongCommentLoop ('*' :: '/' :: r) l = ('*' :: '/' :: r, l) := by
  simp [skipLongCommentLoop, List.isPrefixOf]

theorem skipLongCommentLoop_pair (c d : Char) (r : List Char) (l : Int)
    (hp : (c = '\r' ∧ d = '\n') ∨ (c = '\n' ∧ d = '\r')) :
    skipLongCommentLoop (c :: d :: r) l = skipLongCommentLoop r (l + 1) := by
  rcases hp with ⟨rfl, rfl⟩ | ⟨rfl, rfl⟩ <;> simp [skipLongCommentLoop, List.isPrefixOf]

theorem skipLongCommentLoop_step (c d : Char) (r : List Char) (l : Int)
    (h1 : ¬ (c = '*' ∧ d = '/'))
    (hp : ¬ ((c = '\r' ∧ d = '\n') ∨ (c = '\n' ∧ d = '\r'))) :
    skipLongCommentLoop (c :: d :: r) l =
      skipLongCommentLoop (d :: r) (if isNewLine c then l + 1 else l) := by
  simp only [skipLongCommentLoop, List.isPrefixOf, Bool.and_true, Bool.and_eq_true,
    beq_iff_eq, Bool.or_eq_true]
  rw [if_neg (by tauto), if_neg (by tauto)]
  split <;> rfl

theorem skipLongCommentLoop_append (rest : List Char) :
    ∀ (n : Nat) (body : List Char) (line : Int), body.length ≤ n →
      containsClose body = false →
      (skipLongCommentLoop (body ++ '*' :: '/' :: rest) line).1 = '*' :: '/' :: rest := by
  intro n
  induction n with
  | zero =>
    intro body line hlen _
    have : body = [] := List.eq_nil_of_length_eq_zero (Nat.le_zero.mp hlen)
    subst this
    rw [List.nil_append, skipLongCommentLoop_close]
  | succ n ih =>
    intro body line hlen hb
    match body, hlen, hb with
    | [], _, _ => rw [List.nil_append, skipLongCommentLoop_close]
    | [c], _, _ =>
      have h1 : ¬ (c = '*' ∧ '*' = '/') := by rintro ⟨-, h⟩; exact absurd h (by decide)
      have hp : ¬ ((c = '\r' ∧ '*' = '\n') ∨ (c = '\n' ∧ '*' = '\r')) := by
        rintro (⟨-, h⟩ | ⟨-, h⟩) <;> exact absurd h (by decide)
      show (skipLongCommentLoop (c :: '*' :: '/' :: rest) line).1 = _
      rw [skipLongCommentLoop_step _ _ _ _ h1 hp, skipLongCommentLoop_close]
    | c :: d :: body, hlen, hb =>
      simp only [List.length_cons] at hlen
      have hb1 : ¬ (c = '*' ∧ d = '/') := by
        rintro ⟨rfl, rfl⟩
        simp [containsClose, List.isPrefixOf] at hb
      have hb2 : containsClose (d :: body) = false := by
        simp only [containsClose, Bool.or_eq_false_iff] at hb
        simp only [containsClose, Bool.or_eq_false_iff]
        exact hb.2
      have hb3 : containsClose body = false := by
        simp only [containsClose, Bool.or_eq_false_iff] at hb2
        exact hb2.2
      rw [List.cons_append, List.cons_append]
      by_cases hp : (c = '\r' ∧ d = '\n') ∨ (c = '\n' ∧ d = '\r')
      · rw [skipLongCommentLoop_pair _ _ _ _ hp]
        exact ih body _ (by omega) hb3
      · rw [skipLongCommentLoop_step _ _ _ _ hb1 hp, ← List.cons_append]
        exact ih (d :: body) _ (by simp only [List.length_cons]; omega) hb2

theorem WsComments_tail {c : Char} {rest : List Char} (h : WsComments (c :: rest))
    (hc : isWhiteSpace c = true) : WsComments rest := by
  cases h with
  | space _ _ _ hr => exact hr
  | lineComment body r _ _ _ => simp [isWhiteSpace] at hc
  | blockComment body r _ _ => simp [isWhiteSpace] at hc

theorem nextStringIs_head_ne (lexer : Lexer) (c a b : Char) (cs : List Char)
    (hchunk : lexer.chunk = c :: cs) (h : c ≠ a) : nextStringIs lexer [a, b] = false := by
  rw [Bool.eq_false_iff]
  intro h1
  obtain ⟨r, hr⟩ := (nextStringIs_two lexer a b).mp h1
  rw [hchunk] at hr
  exact h (List.cons.inj hr).1

/-- On a text of white space and comments the loop of `skipWhiteSpaces` runs to
the end of the chunk. -/
theorem skipWhiteSpacesLoop_all :
    ∀ (fuel : Nat) (s : List Char), WsComments s → ∀ (lexer : Lexer), lexer.chunk = s →
      s.length < fuel → ∃ sk, skipWhiteSpacesLoop fuel lexer = .ok sk ∧ sk.chunk = [] := by
  intro fuel
  induction fuel with
  | zero => intro s _ lexer _ hlen; omega
  | succ fuel ih =>
    intro s hs lexer hchunk hlen
    cases hs with
    | nil =>
      refine ⟨lexer, ?_, hchunk⟩
      unfold skipWhiteSpacesLoop
      rw [hchunk]
    | space c rest hc hr =>
      have hne : c ≠ '/' := by rintro rfl; simp [isWhiteSpace] at hc
      have h1 : nextStringIs lexer "//".toList = false :=
        nextStringIs_head_ne lexer c '/' '/' rest hchunk hne
      have h2 : nextStringIs lexer "/*".toList = false :=
        nextStringIs_head_ne lexer c '/' '*' rest hchunk hne
      simp only [List.length_cons] at hlen
      unfold skipWhiteSpacesLoop
      rw [hchunk]
      simp only [h1, h2, Bool.false_eq_true, if_false]
      by_cases hp : (nextStringIs lexer "\r\n".toList || nextStringIs lexer "\n\r".toList) = true
      · rw [if_pos hp]
        have hp2 : ∃ d r, rest = d :: r ∧ isWhiteSpace d = true := by
          rw [Bool.or_eq_true, str_crlf, str_lfcr, nextStringIs_two, nextStringIs_two] at hp
          rcases hp with ⟨r, hr⟩ | ⟨r, hr⟩
          · rw [hchunk] at hr; cases hr; exact ⟨_, _, rfl, by decide⟩
          · rw [hchunk] at hr; cases hr; exact ⟨_, _, rfl, by decide⟩
        obtain ⟨d, r, rfl, hd⟩ := hp2
        have hf : forward 2 lexer = .ok { lexer with chunk := r } := by
          rw [forward_eq (by rw [hchunk]; simp), hchunk]; rfl
        simp only [hf, bind, Except.bind]
        exact ih r (WsComments_tail hr hd) _ rfl (by simp only [List.length_cons] at hlen; omega)
      · rw [if_neg hp]
        have hf : forward 1 lexer = .ok { lexer with chunk := rest } := by
          rw [forward_eq (by rw [hchunk]; simp), hchunk]; rfl
        by_cases hn : isNewLine c = true
        · rw [if_pos hn]
          simp only [hf, bind, Except.bind]
          exact ih rest hr _ rfl (by omega)
        · rw [if_neg hn, if_pos hc]
          simp only [hf, bind, Except.bind]
          exact ih rest hr _ rfl (by omega)
    | lineComment body rest hb hrest hr =>
      have h1 : nextStringIs lexer "//".toList = true := by
        rw [str_slashes, nextStringIs_two]; exact ⟨_, hchunk⟩
      have hf : skipShortComment lexer = .ok { lexer with chunk := rest } := by
        unfold skipShortComment
        rw [forward_eq (by rw [hchunk]; simp), hchunk]
        simp only [bind, Except.bind, pure, Except.pure, List.drop_succ_cons, List.drop_zero]
        rw [skipShortCommentLoop_append body rest hb hrest]
      unfold skipWhiteSpacesLoop
      rw [hchunk]
      simp only [h1, if_true, hf, bind, Except.bind]
      refine ih rest hr _ rfl ?_
      simp only [List.length_cons, List.length_append] at hlen
      omega
    | blockComment body rest hb hr =>
      have h1 : nextStringIs lexer "//".toList = false := by
        rw [Bool.eq_false_iff, str_slashes]
        intro h
        obtain ⟨r, hr⟩ := (nextStringIs_two lexer '/' '/').mp h
        rw [hchunk] at hr
        exact absurd (List.cons.inj (List.cons.inj hr).2).1 (by decide)
      have h2 : nextStringIs lexer "/*".toList = true := by
        rw [str_slashStar, nextStringIs_two]; exact ⟨_, hchunk⟩
      have hf : ∃ l, skipLongComment lexer = .ok { lexer with chunk := rest, line := l } := by
        unfold skipLongComment
        rw [forward_eq (by rw [hchunk]; simp), hchunk]
        simp only [bind, Except.bind, List.drop_succ_cons, List.drop_zero]
        have h3 := skipLongCommentLoop_append rest body.length body lexer.line (le_refl _) hb
        refine ⟨(skipLongCommentLoop (body ++ '*' :: '/' :: rest) lexer.line).2, ?_⟩
        rw [forward_eq (by rw [h3]; simp)]
        simp only [h3, List.drop_succ_cons, List.drop_zero]
      obtain ⟨l, hf⟩ := hf
      unfold skipWhiteSpacesLoop
      rw [hchunk]
      simp only [h1, h2, Bool.false_eq_true, if_false, if_true, hf, bind, Except.bind]
      refine ih rest hr _ rfl ?_
      simp only [List.length_cons, List.length_append] at hlen
      omega

/-- Whitespace/comment-only input (C6): on a source text made only of ASCII
white space, `//` line comments and closed `/* ... */` block comments,
`NextToken` on `NewLexer(s, name)` returns `(L, TokenEOF, "EOF")` with `L` one
more than the number of line breaks of `s`, and leaves an empty chunk. -/
theorem whitespace_only_gives_EOF (s name : List Char) (h : WsComments s) :
    ∃ l1, NextToken (NewLexer s name) =
        .ok ((1 + (lineBreaks s : Int), TokenEOF, "EOF".toList), l1) ∧
      l1.chunk = [] ∧ l1.Line = 1 + (lineBreaks s : Int) := by
  obtain ⟨sk, hs, hnil⟩ :=
    skipWhiteSpacesLoop_all (s.length + 1) s h (NewLexer s name) rfl (Nat.lt_succ_self _)
  have hs2 : skipWhiteSpaces (NewLexer s name) = .ok sk := hs
  obtain ⟨w, hw, hl, -, -⟩ := skipWhiteSpaces_spec hs2
  rw [hnil, List.append_nil] at hw
  have hw2 : w = s := hw.symm
  subst hw2
  have hline : sk.line = 1 + (lineBreaks w : Int) := hl
  refine ⟨sk, ?_, hnil, hline⟩
  unfold NextToken
  rw [if_neg (by show ¬ (0 : Int) > 0; omega), hs2]
  simp only [bind, Except.bind, hnil, pure, Except.pure, hline]

theorem whitespace_only_gives_EOF_witness :
    WsComments " /* a\r\n*/\n// b\n\r".toList ∧
    ∃ l1, NextToken (NewLexer " /* a\r\n*/\n// b\n\r".toList "f".toList) =
        .ok ((1 + (lineBreaks " /* a\r\n*/\n// b\n\r".toList : Int), TokenEOF, "EOF".toList), l1) ∧
      l1.chunk = [] ∧ l1.Line = 1 + (lineBreaks " /* a\r\n*/\n// b\n\r".toList : Int) :=
  have hw : WsComments " /* a\r\n*/\n// b\n\r".toList :=
    WsComments.space ' ' _ (by decide)
      (WsComments.blockComment " a\r\n".toList "\n// b\n\r".toList (by decide)
        (WsComments.space '\n' _ (by decide)
          (WsComments.lineComment " b".toList "\n\r".toList (by decide)
            (by intro c r h; cases h; decide)
            (WsComments.space '\n' _ (by decide)
              (WsComments.space '\r' _ (by decide) WsComments.nil)))))
  ⟨hw, whitespace_only_gives_EOF _ _ hw⟩

/-! ## Short strings -/

theorem skipWhiteSpaces_stop (lexer : Lexer) (c : Char) (cs : List Char)
    (hchunk : lexer.chunk = c :: cs) (hw : isWhiteSpace c = false) (hs : c ≠ '/') :
    skipWhiteSpaces lexer = .ok lexer := by
  have h1 : nextStringIs lexer "//".toList = false :=
    nextStringIs_head_ne lexer c '/' '/' cs hchunk hs
  have h2 : nextStringIs lexer "/*".toList = false :=
    nextStringIs_head_ne lexer c '/' '*' cs hchunk hs
  have h3 : nextStringIs lexer "\r\n".toList = false :=
    nextStringIs_head_ne lexer c '\r' '\n' cs hchunk (by rintro rfl; simp [isWhiteSpace] at hw)
  have h4 : nextStringIs lexer "\n\r".toList = false :=
    nextStringIs_head_ne lexer c '\n' '\r' cs hchunk (by rintro rfl; simp [isWhiteSpace] at hw)
  have h5 : isNewLine c = false := by
    simp only [isWhiteSpace, Bool.or_eq_false_iff] at hw
    simp only [isNewLine, Bool.or_eq_false_iff]
    tauto
  unfold skipWhiteSpaces skipWhiteSpacesLoop
  rw [hchunk]
  simp only [h1, h2, h3, h4, h5, hw, Bool.or_false, Bool.false_eq_true, if_false]

theorem scanToken_squote (lexer : Lexer) (hlong : nextStringIs lexer [squote, squote, squote] = false) :
    scanToken lexer squote = emitScanned TokenLiteralString lexer (scanShortString lexer squote) := by
  unfold scanToken
  rw [if_neg (show ¬ squote = ',' from fun h => absurd (h) (by decide))]
  rw [if_neg (show ¬ squote = '(' from fun h => absurd (h) (by decide))]
  rw [if_neg (show ¬ squote = ')' from fun h => absurd (h) (by decide))]
  rw [if_neg (show ¬ squote = '[' from fun h => absurd (h) (by decide))]
  rw [if_neg (show ¬ squote = ']' from fun h => absurd (h) (by decide))]
  rw [if_neg (show ¬ squote = '\x7b' from fun h => absurd (h) (by decide))]
  rw [if_neg (show ¬ squote = '\x7d' from fun h => absurd (h) (by decide))]
  rw [if_neg (show ¬ squote = '+' from fun h => absurd (h) (by decide))]
  rw [if_neg (show ¬ squote = '-' from fun h => absurd (h) (by decide))]
  rw [if_neg (show ¬ squote = '^' from fun h => absurd (h) (by decide))]
  rw [if_neg (show ¬ squote = '%' from fun h => absurd (h) (by decide))]
  rw [if_neg (show ¬ squote = '&' from fun h => absurd (h) (by decide))]
  rw [if_neg (show ¬ squote = '|' from fun h => absurd (h) (by decide))]
  rw [if_neg (show ¬ squote = ':' from fun h => absurd (h) (by decide))]
  rw [if_neg (show ¬ squote = '!' from fun h => absurd (h) (by decide))]
  rw [if_neg (show ¬ squote = '*' from fun h => absurd (h) (by decide))]
  rw [if_neg (show ¬ squote = '=' from fun h => absurd (h) (by decide))]
  rw [if_neg (show ¬ squote = '<' from fun h => absurd (h) (by decide))]
  rw [if_neg (show ¬ squote = '>' from fun h => absurd (h) (by decide))]
  rw [if_neg (fun h => absurd h.1 (by decide))]
  rw [if_pos rfl, if_neg (by rw [hlong]; decide)]

theorem scanToken_dquote (lexer : Lexer) (hlong : nextStringIs lexer [dquote, dquote, dquote] = false) :
    scanToken lexer dquote = emitScanned TokenLiteralString lexer (scanShortString lexer dquote) := by
  unfold scanToken
  rw [if_neg (show ¬ dquote = ',' from fun h => absurd (h) (by decide))]
  rw [if_neg (show ¬ dquote = '(' from fun h => absurd (h) (by decide))]
  rw [if_neg (show ¬ dquote = ')' from fun h => absurd (h) (by decide))]
  rw [if_neg (show ¬ dquote = '[' from fun h => absurd (h) (by decide))]
  rw [if_neg (show ¬ dquote = ']' from fun h => absurd (h) (by decide))]
  rw [if_neg (show ¬ dquote = '\x7b' from fun h => absurd (h) (by decide))]
  rw [if_neg (show ¬ dquote = '\x7d' from fun h => absurd (h) (by decide))]
  rw [if_neg (show ¬ dquote = '+' from fun h => absurd (h) (by decide))]
  rw [if_neg (show ¬ dquote = '-' from fun h => absurd (h) (by decide))]
  rw [if_neg (show ¬ dquote = '^' from fun h => absurd (h) (by decide))]
  rw [if_neg (show ¬ dquote = '%' from fun h => absurd (h) (by decide))]
  rw [if_neg (show ¬ dquote = '&' from fun h => absurd (h) (by decide))]
  rw [if_neg (show ¬ dquote = '|' from fun h => absurd (h) (by decide))]
  rw [if_neg (show ¬ dquote = ':' from fun h => absurd (h) (by decide))]
  rw [if_neg (show ¬ dquote = '!' from fun h => absurd (h) (by decide))]
  rw [if_neg (show ¬ dquote = '*' from fun h => absurd (h) (by decide))]
  rw [if_neg (show ¬ dquote = '=' from fun h => absurd (h) (by decide))]
  rw [if_neg (show ¬ dquote = '<' from fun h => absurd (h) (by decide))]
  rw [if_neg (show ¬ dquote = '>' from fun h => absurd (h) (by decide))]
  rw [if_neg (fun h => absurd h.1 (by decide))]
  rw [if_neg (show ¬ dquote = squote by decide)]
  rw [if_pos rfl, if_neg (by rw [hlong]; decide)]

theorem scanShortStringLoop_found (q : Char) (hq : isNewLine q = false) (rest : List Char) :
    ∀ (t : List Char) (i : Nat), t = shortContent q t ++ q :: rest →
      scanShortStringLoop q t i = i + (shortContent q t).length := by
  intro t
  induction t with
  | nil => intro i h; simp [shortContent] at h
  | cons c cs ih =>
    intro i h
    by_cases hp : (!(c == q) && !(isNewLine c)) = true
    · have e : shortContent q (c :: cs) = c :: shortContent q cs := by
        simp only [shortContent, List.takeWhile_cons, hp, if_true]
      rw [e, List.cons_append] at h
      simp only [Bool.and_eq_true, Bool.not_eq_true', beq_eq_false_iff_ne, ne_eq] at hp
      rw [e, scanShortStringLoop, if_neg (by rw [hp.2]; decide), if_neg hp.1,
        ih (i + 1) (List.cons.inj h).2, List.length_cons]
      omega
    · have e : shortContent q (c :: cs) = [] := by
        simp only [shortContent, List.takeWhile_cons, hp]
        rfl
      rw [e, List.nil_append] at h
      have hc : c = q := (List.cons.inj h).1
      rw [e, scanShortStringLoop, hc, if_neg (by rw [hq]; decide), if_pos rfl]
      rfl

theorem scanShortStringLoop_missing (q : Char) :
    ∀ (t : List Char) (i : Nat), (∀ rest, t ≠ shortContent q t ++ q :: rest) →
      scanShortStringLoop q t i = 0 := by
  intro t
  induction t with
  | nil => intro i _; rfl
  | cons c cs ih =>
    intro i h
    by_cases hp : (!(c == q) && !(isNewLine c)) = true
    · have e : shortContent q (c :: cs) = c :: shortContent q cs := by
        simp only [shortContent, List.takeWhile_cons, hp, if_true]
      simp only [Bool.and_eq_true, Bool.not_eq_true', beq_eq_false_iff_ne, ne_eq] at hp
      rw [scanShortStringLoop, if_neg (by rw [hp.2]; decide), if_neg hp.1]
      apply ih
      intro rest hr
      apply h rest
      rw [e, List.cons_append, ← hr]
    · have e : shortContent q (c :: cs) = [] := by
        simp only [shortContent, List.takeWhile_cons, hp]
        rfl
      have hc : c ≠ q := by
        rintro rfl
        exact h cs (by rw [e]; rfl)
      have hn : isNewLine c = true := by
        simp only [Bool.and_eq_true, Bool.not_eq_true', beq_eq_false_iff_ne, ne_eq,
          not_and, Bool.not_eq_false] at hp
        exact hp hc
      rw [scanShortStringLoop, if_pos hn]

theorem quoted_take_drop (q : Char) (c rest : List Char) :
    ((q :: (c ++ q :: rest)).take (1 + c.length)).drop 1 = c ∧
      (q :: (c ++ q :: rest)).drop (1 + c.length + 1) = rest := by
  constructor
  · rw [Nat.add_comm, List.take_succ_cons, List.drop_succ_cons, List.drop_zero,
      List.take_left']
    rfl
  · rw [show 1 + c.length + 1 = (c.length + 1) + 1 by omega, List.drop_succ_cons,
      show c ++ q :: rest = (c ++ [q]) ++ rest by simp]
    exact List.drop_left' (by simp)

/-- Short strings (C8): on a chunk `q ++ t` that starts with a quote but not
with three, with `c` the longest prefix of `t` free of `q` and of newline
characters, `NextToken` returns `(line, TokenLiteralString, c)`, leaves `rest`
and keeps the line when `t = c ++ q ++ rest`, and otherwise raises the syntax
error of an unclosed short string. -/
theorem short_string_scan (lexer : Lexer) (q : Char) (t : List Char)
    (hq : q = squote ∨ q = dquote) (hcache : ¬ lexer.nextTokenLine > 0)
    (hchunk : lexer.chunk = q :: t) (hlong : nextStringIs lexer [q, q, q] = false) :
    (∀ rest, t = shortContent q t ++ q :: rest →
      NextToken lexer = .ok ((lexer.line, TokenLiteralString, shortContent q t),
        { lexer with chunk := rest })) ∧
    ((∀ rest, t ≠ shortContent q t ++ q :: rest) →
      NextToken lexer = .error (syntaxError lexer
        "Cannot found closing quotation mark for a short string".toList)) := by
  have hqn : isNewLine q = false := by rcases hq with rfl | rfl <;> decide
  have hskip : skipWhiteSpaces lexer = .ok lexer :=
    skipWhiteSpaces_stop lexer q t hchunk (by rcases hq with rfl | rfl <;> decide)
      (by rcases hq with rfl | rfl <;> decide)
  have hscan : scanToken lexer q =
      emitScanned TokenLiteralString lexer (scanShortString lexer q) := by
    rcases hq with rfl | rfl
    · exact scanToken_squote lexer hlong
    · exact scanToken_dquote lexer hlong
  have hnext : NextToken lexer =
      emitScanned TokenLiteralString lexer (scanShortString lexer q) := by
    unfold NextToken
    rw [if_neg hcache, hskip]
    simp only [bind, Except.bind, hchunk]
    exact hscan
  rw [hnext]
  constructor
  · intro rest hrest
    have hidx := scanShortStringLoop_found q hqn rest t 1 hrest
    generalize shortContent q t = c at hidx hrest ⊢
    subst hrest
    obtain ⟨h1, h2⟩ := quoted_take_drop q c rest
    unfold emitScanned scanShortString
    simp only [hchunk, List.drop_succ_cons, List.drop_zero, hidx]
    rw [if_neg (by omega)]
    have hsl : slice (q :: (c ++ q :: rest)) 1 (1 + c.length) = .ok c := by
      unfold slice
      rw [if_pos (by simp only [List.length_cons, List.length_append]; omega), h1]
    have hfw : forward (1 + c.length + 1) lexer = .ok { lexer with chunk := rest } := by
      rw [forward_eq (by rw [hchunk]; simp only [List.length_cons, List.length_append]; omega),
        hchunk, h2]
    simp only [hsl, hfw, bind, Except.bind, pure, Except.pure]
  · intro hmiss
    have hidx := scanShortStringLoop_missing q t 1 hmiss
    unfold emitScanned scanShortString
    simp only [hchunk, List.drop_succ_cons, List.drop_zero, hidx, if_true, bind, Except.bind]

theorem short_string_scan_witness :
    NextToken (NewLexer "'a\\b' c".toList "f".toList) =
        .ok ((1, TokenLiteralString, "a\\b".toList), ⟨" c".toList, "f".toList, 1, [], 0, 0⟩) ∧
      NextToken (NewLexer "'ab\nc'".toList "f".toList) =
        .error (syntaxError (NewLexer "'ab\nc'".toList "f".toList)
          "Cannot found closing quotation mark for a short string".toList) :=
  ⟨(short_string_scan (NewLexer "'a\\b' c".toList "f".toList) squote "a\\b' c".toList
      (Or.inl rfl) (by decide) rfl (by decide)).1 " c".toList (by decide),
    (short_string_scan (NewLexer "'ab\nc'".toList "f".toList) squote "ab\nc'".toList
      (Or.inl rfl) (by decide) rfl (by decide)).2
      (fun rest h => absurd (List.cons.inj (List.cons.inj (List.cons.inj h).2).2).1 (by decide))⟩

/-- Token start line (C2), evaluated where the code departs from it: in
`'''\n\n\nx` the identifier `x` starts after three line breaks, on line 4, and
the code reports it on line 1 (the bytes `scanLongString` steps over are not
counted). -/
theorem token_line_after_long_string :
    testLexer ([squote, squote, squote] ++ "\n\n\nx".toList) "f".toList =
      .ok [(1, TokenLiteralString, []), (1, TokenIdentifier, "x".toList),
        (1, TokenEOF, "EOF".toList)] ∧
      lineBreaks ([squote, squote, squote] ++ "\n\n\n".toList) = 3 := by
  decide

/-- Long strings (C7), evaluated where the code departs from it: on
`'''line1\nline2\r\nline3'''` at line 1 the code returns an empty string
literal, consumes six bytes only and leaves `Line()` at 1, where the claim has
the lexeme `line1\nline2\r\nline3`, an empty rest and `Line()` at 3. -/
theorem long_string_scan_diverges :
    NextToken (NewLexer ([squote, squote, squote] ++ "line1\nline2\r\nline3".toList ++
        [squote, squote, squote]) "f".toList) =
      .ok ((1, TokenLiteralString, []),
        ⟨"e1\nline2\r\nline3".toList ++ [squote, squote, squote], "f".toList, 1, [], 0, 0⟩) := by
  decide

/-- Bytes literals (C9), evaluated where the code departs from it: on `b'abc'`
the code returns an empty bytes literal and leaves `abc'`, where the claim has
the lexeme `abc` and an empty rest; and on `b'abc`, which has no closing quote,
the code returns an empty bytes literal instead of failing. -/
theorem bytes_scan_diverges :
    NextToken (NewLexer (['b', squote] ++ "abc".toList ++ [squote]) "f".toList) =
        .ok ((1, TokenLiteralBytes, []),
          ⟨"abc".toList ++ [squote], "f".toList, 1, [], 0, 0⟩) ∧
      NextToken (NewLexer (['b', squote] ++ "abc".toList) "f".toList) =
        .ok ((1, TokenLiteralBytes, []), ⟨"abc".toList, "f".toList, 1, [], 0, 0⟩) := by
  decide

/-- Longest-match numbers (C10), evaluated where the code departs from it: the
whole of `0x1p10` matches the number grammar, and the code returns the shorter
lexeme `0x1p1` and leaves `0`; the claim's own example `0x1A.8p2` is scanned
whole. -/
theorem number_scan_not_longest :
    matchesWhole specNumber "0x1p10".toList = true ∧
      NextToken (NewLexer "0x1p10".toList "f".toList) =
        .ok ((1, TokenLiteralNumber, "0x1p1".toList), ⟨"0".toList, "f".toList, 1, [], 0, 0⟩) ∧
      NextToken (NewLexer "0x1A.8p2".toList "f".toList) =
        .ok ((1, TokenLiteralNumber, "0x1A.8p2".toList), ⟨[], "f".toList, 1, [], 0, 0⟩) := by
  decide


/-! ## The dispatch of `scanToken` on particular first bytes -/

theorem NextToken_eq_scanToken (lexer : Lexer) (c : Char) (cs : List Char)
    (hcache : ¬ lexer.nextTokenLine > 0) (hchunk : lexer.chunk = c :: cs)
    (hw : isWhiteSpace c = false) (hs : c ≠ '/') :
    NextToken lexer = scanToken lexer c := by
  unfold NextToken
  rw [if_neg hcache, skipWhiteSpaces_stop lexer c cs hchunk hw hs]
  simp only [bind, Except.bind, hchunk]

theorem emit_eq (n : Nat) (kind : Int) (tok : String) (lexer : Lexer)
    (h : n ≤ lexer.chunk.length) :
    emit n kind tok lexer =
      .ok ((lexer.line, kind, tok.toList), { lexer with chunk := lexer.chunk.drop n }) := by
  unfold emit
  rw [forward_eq h]
  rfl

theorem scanToken_colon (lexer : Lexer) :
    scanToken lexer ':' = (if (!nextStringIs lexer "::".toList) = true then
        .error (syntaxError lexer "Invalid character `:`".toList)
      else emit 2 TokenSepDomain "::" lexer) := by
  unfold scanToken
  rw [if_neg (show ¬ ':' = ',' by decide)]
  rw [if_neg (show ¬ ':' = '(' by decide)]
  rw [if_neg (show ¬ ':' = ')' by decide)]
  rw [if_neg (show ¬ ':' = '[' by decide)]
  rw [if_neg (show ¬ ':' = ']' by decide)]
  rw [if_neg (show ¬ ':' = '\x7b' by decide)]
  rw [if_neg (show ¬ ':' = '\x7d' by decide)]
  rw [if_neg (show ¬ ':' = '+' by decide)]
  rw [if_neg (show ¬ ':' = '-' by decide)]
  rw [if_neg (show ¬ ':' = '^' by decide)]
  rw [if_neg (show ¬ ':' = '%' by decide)]
  rw [if_neg (show ¬ ':' = '&' by decide)]
  rw [if_neg (show ¬ ':' = '|' by decide)]
  rw [if_pos rfl]

theorem scanToken_bang (lexer : Lexer) :
    scanToken lexer '!' = (if (!nextStringIs lexer "!=".toList) = true then
        .error (syntaxError lexer "Invalid character `!`".toList)
      else emit 2 TokenOpNE "!=" lexer) := by
  unfold scanToken
  rw [if_neg (show ¬ '!' = ',' by decide)]
  rw [if_neg (show ¬ '!' = '(' by decide)]
  rw [if_neg (show ¬ '!' = ')' by decide)]
  rw [if_neg (show ¬ '!' = '[' by decide)]
  rw [if_neg (show ¬ '!' = ']' by decide)]
  rw [if_neg (show ¬ '!' = '\x7b' by decide)]
  rw [if_neg (show ¬ '!' = '\x7d' by decide)]
  rw [if_neg (show ¬ '!' = '+' by decide)]
  rw [if_neg (show ¬ '!' = '-' by decide)]
  rw [if_neg (show ¬ '!' = '^' by decide)]
  rw [if_neg (show ¬ '!' = '%' by decide)]
  rw [if_neg (show ¬ '!' = '&' by decide)]
  rw [if_neg (show ¬ '!' = '|' by decide)]
  rw [if_neg (show ¬ '!' = ':' by decide)]
  rw [if_pos rfl]

theorem scanToken_star (lexer : Lexer) :
    scanToken lexer '*' = (if nextStringIs lexer "**".toList = true then emit 2 TokenOpPackDict "**" lexer
      else emit 1 TokenOpMul "*" lexer) := by
  unfold scanToken
  rw [if_neg (show ¬ '*' = ',' by decide)]
  rw [if_neg (show ¬ '*' = '(' by decide)]
  rw [if_neg (show ¬ '*' = ')' by decide)]
  rw [if_neg (show ¬ '*' = '[' by decide)]
  rw [if_neg (show ¬ '*' = ']' by decide)]
  rw [if_neg (show ¬ '*' = '\x7b' by decide)]
  rw [if_neg (show ¬ '*' = '\x7d' by decide)]
  rw [if_neg (show ¬ '*' = '+' by decide)]
  rw [if_neg (show ¬ '*' = '-' by decide)]
  rw [if_neg (show ¬ '*' = '^' by decide)]
  rw [if_neg (show ¬ '*' = '%' by decide)]
  rw [if_neg (show ¬ '*' = '&' by decide)]
  rw [if_neg (show ¬ '*' = '|' by decide)]
  rw [if_neg (show ¬ '*' = ':' by decide)]
  rw [if_neg (show ¬ '*' = '!' by decide)]
  rw [if_pos rfl]

theorem scanToken_assign (lexer : Lexer) :
    scanToken lexer '=' = (if nextStringIs lexer "==".toList = true then emit 2 TokenOpEQ "==" lexer
      else emit 1 TokenOpAssign "=" lexer) := by
  unfold scanToken
  rw [if_neg (show ¬ '=' = ',' by decide)]
  rw [if_neg (show ¬ '=' = '(' by decide)]
  rw [if_neg (show ¬ '=' = ')' by decide)]
  rw [if_neg (show ¬ '=' = '[' by decide)]
  rw [if_neg (show ¬ '=' = ']' by decide)]
  rw [if_neg (show ¬ '=' = '\x7b' by decide)]
  rw [if_neg (show ¬ '=' = '\x7d' by decide)]
  rw [if_neg (show ¬ '=' = '+' by decide)]
  rw [if_neg (show ¬ '=' = '-' by decide)]
  rw [if_neg (show ¬ '=' = '^' by decide)]
  rw [if_neg (show ¬ '=' = '%' by decide)]
  rw [if_neg (show ¬ '=' = '&' by decide)]
  rw [if_neg (show ¬ '=' = '|' by decide)]
  rw [if_neg (show ¬ '=' = ':' by decide)]
  rw [if_neg (show ¬ '=' = '!' by decide)]
  rw [if_neg (show ¬ '=' = '*' by decide)]
  rw [if_pos rfl]

theorem scanToken_less (lexer : Lexer) :
    scanToken lexer '<' = (if nextStringIs lexer "<=".toList = true then emit 2 TokenOpLE "<=" lexer
      else emit 1 TokenOpLT "<" lexer) := by
  unfold scanToken
  rw [if_neg (show ¬ '<' = ',' by decide)]
  rw [if_neg (show ¬ '<' = '(' by decide)]
  rw [if_neg (show ¬ '<' = ')' by decide)]
  rw [if_neg (show ¬ '<' = '[' by decide)]
  rw [if_neg (show ¬ '<' = ']' by decide)]
  rw [if_neg (show ¬ '<' = '\x7b' by decide)]
  rw [if_neg (show ¬ '<' = '\x7d' by decide)]
  rw [if_neg (show ¬ '<' = '+' by decide)]
  rw [if_neg (show ¬ '<' = '-' by decide)]
  rw [if_neg (show ¬ '<' = '^' by decide)]
  rw [if_neg (show ¬ '<' = '%' by decide)]
  rw [if_neg (show ¬ '<' = '&' by decide)]
  rw [if_neg (show ¬ '<' = '|' by decide)]
  rw [if_neg (show ¬ '<' = ':' by decide)]
  rw [if_neg (show ¬ '<' = '!' by decide)]
  rw [if_neg (show ¬ '<' = '*' by decide)]
  rw [if_neg (show ¬ '<' = '=' by decide)]
  rw [if_pos rfl]

theorem scanToken_greater (lexer : Lexer) :
    scanToken lexer '>' = (if nextStringIs lexer ">=".toList = true then emit 2 TokenOpGE ">=" lexer
      else emit 1 TokenOpGT ">" lexer) := by
  unfold scanToken
  rw [if_neg (show ¬ '>' = ',' by decide)]
  rw [if_neg (show ¬ '>' = '(' by decide)]
  rw [if_neg (show ¬ '>' = ')' by decide)]
  rw [if_neg (show ¬ '>' = '[' by decide)]
  rw [if_neg (show ¬ '>' = ']' by decide)]
  rw [if_neg (show ¬ '>' = '\x7b' by decide)]
  rw [if_neg (show ¬ '>' = '\x7d' by decide)]
  rw [if_neg (show ¬ '>' = '+' by decide)]
  rw [if_neg (show ¬ '>' = '-' by decide)]
  rw [if_neg (show ¬ '>' = '^' by decide)]
  rw [if_neg (show ¬ '>' = '%' by decide)]
  rw [if_neg (show ¬ '>' = '&' by decide)]
  rw [if_neg (show ¬ '>' = '|' by decide)]
  rw [if_neg (show ¬ '>' = ':' by decide)]
  rw [if_neg (show ¬ '>' = '!' by decide)]
  rw [if_neg (show ¬ '>' = '*' by decide)]
  rw [if_neg (show ¬ '>' = '=' by decide)]
  rw [if_neg (show ¬ '>' = '<' by decide)]
  rw [if_pos rfl]

theorem str_colons : "::".toList = [':', ':'] := rfl

theorem nextStringIs_cons_cons (lexer : Lexer) (a b c : Char) (cs : List Char)
    (hchunk : lexer.chunk = a :: cs) :
    nextStringIs lexer [b, c] = true ↔ a = b ∧ ∃ rest, cs = c :: rest := by
  rw [nextStringIs_two, hchunk]
  constructor
  · rintro ⟨r, hr⟩
    cases hr
    exact ⟨rfl, r, rfl⟩
  · rintro ⟨rfl, r, rfl⟩
    exact ⟨r, rfl⟩

/-- One or two characters: with `first` at the head of the chunk and `second`
the byte that makes the long operator, `scanToken`'s two-way branch returns the
long token and drops two bytes when `second` follows, and the short token and
drops one byte otherwise. -/
theorem two_way_branch (lexer : Lexer) (first second : Char) (long short : Int)
    (longTok shortTok : String) (rest : List Char) (hchunk : lexer.chunk = first :: rest)
    (hlong : longTok.toList = [first, second]) :
    (∀ rest1, rest = second :: rest1 →
      (if nextStringIs lexer longTok.toList = true then emit 2 long longTok lexer
        else emit 1 short shortTok lexer) =
        .ok ((lexer.line, long, longTok.toList), { lexer with chunk := rest1 })) ∧
    ((∀ rest1, rest ≠ second :: rest1) →
      (if nextStringIs lexer longTok.toList = true then emit 2 long longTok lexer
        else emit 1 short shortTok lexer) =
        .ok ((lexer.line, short, shortTok.toList), { lexer with chunk := rest })) := by
  constructor
  · intro rest1 hrest
    have hn : nextStringIs lexer longTok.toList = true := by
      rw [hlong, nextStringIs_cons_cons lexer first first second rest hchunk]
      exact ⟨rfl, rest1, hrest⟩
    rw [if_pos hn, emit_eq _ _ _ _ (by rw [hchunk, hrest]; simp), hchunk, hrest]
    rfl
  · intro hrest
    have hn : ¬ nextStringIs lexer longTok.toList = true := by
      rw [hlong, nextStringIs_cons_cons lexer first first second rest hchunk]
      rintro ⟨-, r, hr⟩
      exact hrest r hr
    rw [if_neg hn, emit_eq _ _ _ _ (by rw [hchunk]; simp), hchunk]
    rfl

/-- One-vs-two character disambiguation (C11): without a cached token,
`NextToken` on `::` followed by `rest` returns one `TokenSepDomain` token `::`
and leaves `rest`; and for `*`/`**`, `=`/`==`, `<`/`<=`, `>`/`>=`, `NextToken`
on `first` followed by `rest` returns the two-character token and consumes two
bytes when `rest` begins with `second`, and otherwise returns the one-character
token and consumes one byte, leaving `rest` for the next call. -/
theorem one_or_two_characters (lexer : Lexer) (rest : List Char)
    (hcache : ¬ lexer.nextTokenLine > 0) :
    (lexer.chunk = ':' :: ':' :: rest →
      NextToken lexer =
        .ok ((lexer.line, TokenSepDomain, "::".toList), { lexer with chunk := rest })) ∧
    (∀ (first second : Char) (long short : Int),
      (first, second, long, short) ∈
        [('*', '*', TokenOpPackDict, TokenOpMul), ('=', '=', TokenOpEQ, TokenOpAssign),
          ('<', '=', TokenOpLE, TokenOpLT), ('>', '=', TokenOpGE, TokenOpGT)] →
      lexer.chunk = first :: rest →
      (∀ rest1, rest = second :: rest1 →
        NextToken lexer =
          .ok ((lexer.line, long, [first, second]), { lexer with chunk := rest1 })) ∧
      ((∀ rest1, rest ≠ second :: rest1) →
        NextToken lexer = .ok ((lexer.line, short, [first]), { lexer with chunk := rest }))) := by
  constructor
  · intro hchunk
    rw [NextToken_eq_scanToken lexer ':' (':' :: rest) hcache hchunk (by decide) (by decide),
      scanToken_colon]
    have hn : nextStringIs lexer "::".toList = true := by
      rw [str_colons, nextStringIs_two]; exact ⟨rest, hchunk⟩
    rw [if_neg (by rw [hn]; decide), emit_eq _ _ _ _ (by rw [hchunk]; simp), hchunk]
    rfl
  · intro first second long short hmem hchunk
    simp only [List.mem_cons, Prod.mk.injEq, List.mem_singleton, List.not_mem_nil,
      or_false] at hmem
    rcases hmem with ⟨rfl, rfl, rfl, rfl⟩ | ⟨rfl, rfl, rfl, rfl⟩ | ⟨rfl, rfl, rfl, rfl⟩ |
      ⟨rfl, rfl, rfl, rfl⟩
    · rw [NextToken_eq_scanToken lexer '*' rest hcache hchunk (by decide) (by decide),
        scanToken_star]
      exact two_way_branch lexer '*' '*' _ _ "**" "*" rest hchunk rfl
    · rw [NextToken_eq_scanToken lexer '=' rest hcache hchunk (by decide) (by decide),
        scanToken_assign]
      exact two_way_branch lexer '=' '=' _ _ "==" "=" rest hchunk rfl
    · rw [NextToken_eq_scanToken lexer '<' rest hcache hchunk (by decide) (by decide),
        scanToken_less]
      exact two_way_branch lexer '<' '=' _ _ "<=" "<" rest hchunk rfl
    · rw [NextToken_eq_scanToken lexer '>' rest hcache hchunk (by decide) (by decide),
        scanToken_greater]
      exact two_way_branch lexer '>' '=' _ _ ">=" ">" rest hchunk rfl

theorem one_or_two_characters_witness :
    NextToken (NewLexer "::x".toList "f".toList) =
        .ok ((1, TokenSepDomain, "::".toList), ⟨"x".toList, "f".toList, 1, [], 0, 0⟩) ∧
      NextToken (NewLexer "**x".toList "f".toList) =
        .ok ((1, TokenOpPackDict, "**".toList), ⟨"x".toList, "f".toList, 1, [], 0, 0⟩) ∧
      NextToken (NewLexer "<x".toList "f".toList) =
        .ok ((1, TokenOpLT, "<".toList), ⟨"x".toList, "f".toList, 1, [], 0, 0⟩) :=
  ⟨(one_or_two_characters (NewLexer "::x".toList "f".toList) "x".toList (by decide)).1 rfl,
    (((one_or_two_characters (NewLexer "**x".toList "f".toList) "*x".toList (by decide)).2
      '*' '*' TokenOpPackDict TokenOpMul (by decide) rfl).1 "x".toList rfl),
    (((one_or_two_characters (NewLexer "<x".toList "f".toList) "x".toList (by decide)).2
      '<' '=' TokenOpLE TokenOpLT (by decide) rfl).2
        (fun _ h => absurd (List.cons.inj h).1 (by decide)))⟩

theorem NextToken_after_skip (lexer sk : Lexer) (c : Char) (cs : List Char)
    (hcache : ¬ lexer.nextTokenLine > 0) (hskip : skipWhiteSpaces lexer = .ok sk)
    (hchunk : sk.chunk = c :: cs) : NextToken lexer = scanToken sk c := by
  unfold NextToken
  rw [if_neg hcache, hskip]
  simp only [bind, Except.bind, hchunk]

theorem str_bangEq : "!=".toList = ['!', '='] := rfl

/-- Malformed two-character operators (C12): without a cached token, when the
skipping of white space and comments stops in front of `:` followed by `rest`,
`NextToken` returns `::` if `rest` begins with `:` and otherwise fails with
exactly `chunkName ++ " line " ++ decimal(line) ++ ": " ++ msg`, where `msg` is
`Invalid character` followed by the colon between back quotes and `line` is the
line reached by the skipping; the same holds for `!`, `=` and `!=`. -/
theorem malformed_two_character_operator (lexer sk : Lexer) (rest : List Char)
    (hcache : ¬ lexer.nextTokenLine > 0) (hskip : skipWhiteSpaces lexer = .ok sk) :
    (∃ w, lexer.chunk = w ++ sk.chunk ∧ sk.line = lexer.line + lineBreaks w) ∧
    (sk.chunk = ':' :: rest →
      (∀ rest1, rest = ':' :: rest1 →
        NextToken lexer =
          .ok ((sk.line, TokenSepDomain, "::".toList), { sk with chunk := rest1 })) ∧
      ((∀ rest1, rest ≠ ':' :: rest1) →
        NextToken lexer = .error (.syntaxError (lexer.chunkName ++ " line ".toList ++
          fmtInt sk.line ++ ": ".toList ++ "Invalid character `:`".toList)))) ∧
    (sk.chunk = '!' :: rest →
      (∀ rest1, rest = '=' :: rest1 →
        NextToken lexer =
          .ok ((sk.line, TokenOpNE, "!=".toList), { sk with chunk := rest1 })) ∧
      ((∀ rest1, rest ≠ '=' :: rest1) →
        NextToken lexer = .error (.syntaxError (lexer.chunkName ++ " line ".toList ++
          fmtInt sk.line ++ ": ".toList ++ "Invalid character `!`".toList)))) := by
  obtain ⟨w, hw1, hw2, hw3, -⟩ := skipWhiteSpaces_spec hskip
  have hname : sk.chunkName = lexer.chunkName := by rw [hw3]
  refine ⟨⟨w, hw1, hw2⟩, ?_, ?_⟩
  · intro hchunk
    rw [NextToken_after_skip lexer sk ':' rest hcache hskip hchunk, scanToken_colon]
    constructor
    · intro rest1 hrest
      have hn : nextStringIs sk "::".toList = true := by
        rw [str_colons, nextStringIs_two]; exact ⟨rest1, by rw [hchunk, hrest]⟩
      rw [if_neg (by rw [hn]; decide), emit_eq _ _ _ _ (by rw [hchunk, hrest]; simp), hchunk,
        hrest]
      rfl
    · intro hrest
      have hn : nextStringIs sk "::".toList = false := by
        rw [Bool.eq_false_iff, str_colons, Ne, nextStringIs_cons_cons sk ':' ':' ':' rest hchunk]
        rintro ⟨-, r, hr⟩
        exact hrest r hr
      rw [if_pos (by rw [hn]; decide)]
      simp only [syntaxError, hname]
  · intro hchunk
    rw [NextToken_after_skip lexer sk '!' rest hcache hskip hchunk, scanToken_bang]
    constructor
    · intro rest1 hrest
      have hn : nextStringIs sk "!=".toList = true := by
        rw [str_bangEq, nextStringIs_two]; exact ⟨rest1, by rw [hchunk, hrest]⟩
      rw [if_neg (by rw [hn]; decide), emit_eq _ _ _ _ (by rw [hchunk, hrest]; simp), hchunk,
        hrest]
      rfl
    · intro hrest
      have hn : nextStringIs sk "!=".toList = false := by
        rw [Bool.eq_false_iff, str_bangEq, Ne, nextStringIs_cons_cons sk '!' '!' '=' rest hchunk]
        rintro ⟨-, r, hr⟩
        exact hrest r hr
      rw [if_pos (by rw [hn]; decide)]
      simp only [syntaxError, hname]

theorem malformed_two_character_operator_witness :
    NextToken (NewLexer "\n\n :x".toList "f.sn".toList) =
        .error (.syntaxError "f.sn line 3: Invalid character `:`".toList) ∧
      NextToken (NewLexer "\n!=x".toList "f.sn".toList) =
        .ok ((2, TokenOpNE, "!=".toList), ⟨"x".toList, "f.sn".toList, 2, [], 0, 0⟩) :=
  ⟨((malformed_two_character_operator (NewLexer "\n\n :x".toList "f.sn".toList)
      ⟨":x".toList, "f.sn".toList, 3, [], 0, 0⟩ "x".toList (by decide) (by decide)).2.1 rfl).2
        (fun _ h => absurd (List.cons.inj h).1 (by decide)),
    ((malformed_two_character_operator (NewLexer "\n!=x".toList "f.sn".toList)
      ⟨"!=x".toList, "f.sn".toList, 2, [], 0, 0⟩ "=x".toList (by decide) (by decide)).2.2 rfl).1
        "x".toList rfl⟩

/-! ## Identifiers and keywords -/

theorem starRun_dropWhile (p : Char → Bool) (s : List Char) (st : Bool) :
    starRun p (fun _ rest => some rest) st s = some (s.dropWhile p) := by
  induction s generalizing st with
  | nil => rfl
  | cons c cs ih =>
    simp only [starRun]
    by_cases hp : p c = true
    · rw [if_pos hp, ih false, List.dropWhile_cons_of_pos hp]
    · rw [if_neg hp, List.dropWhile_cons_of_neg hp]

theorem take_length_sub (m rest : List Char) :
    (m ++ rest).take ((m ++ rest).length - rest.length) = m := by
  simp

/-- On a chunk that starts with `_` or a letter `FindString(reIdentifier)`
returns the longest prefix made of `_`, letters and digits. -/
theorem FindString_reIdentifier (c : Char) (cs : List Char) (hc : isIdentStart c = true) :
    FindString reIdentifier (c :: cs) = c :: cs.takeWhile isIdentChar := by
  unfold FindString
  simp only [findFrom, matchHere, reIdentifier, Regex.run, hc, if_true, starRun_dropWhile]
  have h := take_length_sub (c :: cs.takeWhile isIdentChar) (cs.dropWhile isIdentChar)
  rw [List.cons_append, List.takeWhile_append_dropWhile] at h
  exact h

theorem isIdentStart_isIdentChar {c : Char} (hc : isIdentStart c = true) :
    isIdentChar c = true := by
  simp only [isIdentStart, isIdentChar, Bool.or_eq_true] at hc ⊢
  tauto

theorem isIdentStart_not_digit {c : Char} (hc : isIdentStart c = true) : isDigit c = false := by
  rw [Bool.eq_false_iff]
  intro hd
  simp only [isIdentStart, isLetter, isDigit, Bool.or_eq_true, Bool.and_eq_true,
    decide_eq_true_eq, beq_iff_eq] at hc hd
  rcases hc with rfl | ⟨h1, -⟩ | ⟨h1, -⟩
  · exact absurd hd.2 (by decide)
  · exact absurd (le_trans h1 hd.2) (by decide)
  · exact absurd (le_trans h1 hd.2) (by decide)

theorem scanToken_ident (lexer : Lexer) (c : Char) (hid : isIdentStart c = true)
    (hb : (nextStringIs lexer ['b', squote] || nextStringIs lexer ['b', dquote]) = false) :
    scanToken lexer c =
      (do
        let (token, lexer) ← scanIdentifier lexer
        match keywords token with
        | some kind => pure ((lexer.line, kind, token), lexer)
        | none => pure ((lexer.line, TokenIdentifier, token), lexer)) := by
  have hdig := isIdentStart_not_digit hid
  unfold scanToken
  rw [if_neg (show ¬ c = ',' from fun h => absurd (h ▸ hid) (by decide))]
  rw [if_neg (show ¬ c = '(' from fun h => absurd (h ▸ hid) (by decide))]
  rw [if_neg (show ¬ c = ')' from fun h => absurd (h ▸ hid) (by decide))]
  rw [if_neg (show ¬ c = '[' from fun h => absurd (h ▸ hid) (by decide))]
  rw [if_neg (show ¬ c = ']' from fun h => absurd (h ▸ hid) (by decide))]
  rw [if_neg (show ¬ c = '\x7b' from fun h => absurd (h ▸ hid) (by decide))]
  rw [if_neg (show ¬ c = '\x7d' from fun h => absurd (h ▸ hid) (by decide))]
  rw [if_neg (show ¬ c = '+' from fun h => absurd (h ▸ hid) (by decide))]
  rw [if_neg (show ¬ c = '-' from fun h => absurd (h ▸ hid) (by decide))]
  rw [if_neg (show ¬ c = '^' from fun h => absurd (h ▸ hid) (by decide))]
  rw [if_neg (show ¬ c = '%' from fun h => absurd (h ▸ hid) (by decide))]
  rw [if_neg (show ¬ c = '&' from fun h => absurd (h ▸ hid) (by decide))]
  rw [if_neg (show ¬ c = '|' from fun h => absurd (h ▸ hid) (by decide))]
  rw [if_neg (show ¬ c = ':' from fun h => absurd (h ▸ hid) (by decide))]
  rw [if_neg (show ¬ c = '!' from fun h => absurd (h ▸ hid) (by decide))]
  rw [if_neg (show ¬ c = '*' from fun h => absurd (h ▸ hid) (by decide))]
  rw [if_neg (show ¬ c = '=' from fun h => absurd (h ▸ hid) (by decide))]
  rw [if_neg (show ¬ c = '<' from fun h => absurd (h ▸ hid) (by decide))]
  rw [if_neg (show ¬ c = '>' from fun h => absurd (h ▸ hid) (by decide))]
  rw [if_neg (fun h => absurd (h.1 ▸ hid) (by decide))]
  rw [if_neg (show ¬ c = squote from fun h => absurd (h ▸ hid) (by decide))]
  rw [if_neg (show ¬ c = dquote from fun h => absurd (h ▸ hid) (by decide))]
  rw [if_neg (by rw [hb]; decide)]
  rw [if_neg (by
    rintro (h | h)
    · exact absurd (h ▸ hid) (by decide)
    · rw [hdig] at h; exact absurd h (by decide))]
  rw [if_pos (by
    simp only [isIdentStart, Bool.or_eq_true, beq_iff_eq] at hid
    exact hid)]

/-- Keyword vs identifier (C13): without a cached token, on a chunk whose first
byte is `_` or an ASCII letter and which does not begin with `b'` or `b"`, with
`w` the longest prefix made of `_`, ASCII letters and ASCII digits, `NextToken`
returns the lexeme `w` on the current line and leaves the text after `w`; the
kind is the entry of the keyword table for `w` when there is one and
`TokenIdentifier` otherwise. -/
theorem keyword_or_identifier (lexer : Lexer) (c : Char) (cs : List Char)
    (hcache : ¬ lexer.nextTokenLine > 0) (hchunk : lexer.chunk = c :: cs)
    (hc : c = '_' ∨ isLetter c = true)
    (hb1 : nextStringIs lexer ['b', squote] = false)
    (hb2 : nextStringIs lexer ['b', dquote] = false) :
    NextToken lexer =
      .ok ((lexer.line, (keywords (lexer.chunk.takeWhile isIdentChar)).getD TokenIdentifier,
          lexer.chunk.takeWhile isIdentChar),
        { lexer with chunk := lexer.chunk.dropWhile isIdentChar }) := by
  have hid : isIdentStart c = true := by
    simp only [isIdentStart, Bool.or_eq_true, beq_iff_eq]
    exact hc
  have hw : isWhiteSpace c = false := by
    rw [Bool.eq_false_iff]
    intro h
    simp only [isWhiteSpace, Bool.or_eq_true, beq_iff_eq] at h
    rcases h with ((((rfl | rfl) | rfl) | rfl) | rfl) | rfl <;> exact absurd hid (by decide)
  have hs : c ≠ '/' := fun h => absurd (h ▸ hid) (by decide)
  have hfind : FindString reIdentifier lexer.chunk = lexer.chunk.takeWhile isIdentChar := by
    rw [hchunk, FindString_reIdentifier c cs hid,
      List.takeWhile_cons_of_pos (isIdentStart_isIdentChar hid)]
  have hne : lexer.chunk.takeWhile isIdentChar ≠ [] := by
    rw [hchunk, List.takeWhile_cons_of_pos (isIdentStart_isIdentChar hid)]
    exact List.cons_ne_nil _ _
  have hlen : (lexer.chunk.takeWhile isIdentChar).length ≤ lexer.chunk.length :=
    (List.takeWhile_sublist _).length_le
  have hdrop : lexer.chunk.drop (lexer.chunk.takeWhile isIdentChar).length =
      lexer.chunk.dropWhile isIdentChar := by
    have h : (lexer.chunk.takeWhile isIdentChar ++ lexer.chunk.dropWhile isIdentChar).drop
        (lexer.chunk.takeWhile isIdentChar).length = lexer.chunk.dropWhile isIdentChar :=
      List.drop_left' rfl
    rw [List.takeWhile_append_dropWhile] at h
    exact h
  have hscan : scanIdentifier lexer = .ok (lexer.chunk.takeWhile isIdentChar,
      { lexer with chunk := lexer.chunk.dropWhile isIdentChar }) := by
    unfold scanIdentifier scan
    simp only [hfind, ne_eq, hne, not_false_eq_true, if_true, forward_eq hlen, hdrop, bind,
      Except.bind, pure, Except.pure]
  rw [NextToken_eq_scanToken lexer c cs hcache hchunk hw hs,
    scanToken_ident lexer c hid (by rw [hb1, hb2]; rfl)]
  simp only [hscan, bind, Except.bind]
  cases hk : keywords (lexer.chunk.takeWhile isIdentChar) with
  | none => rfl
  | some k => rfl

theorem keyword_or_identifier_witness :
    NextToken (NewLexer "forward".toList "f".toList) =
        .ok ((1, TokenIdentifier, "forward".toList), ⟨[], "f".toList, 1, [], 0, 0⟩) ∧
      NextToken (NewLexer "for x".toList "f".toList) =
        .ok ((1, TokenKwFor, "for".toList), ⟨" x".toList, "f".toList, 1, [], 0, 0⟩) :=
  ⟨keyword_or_identifier (NewLexer "forward".toList "f".toList) 'f' "orward".toList
      (by decide) rfl (by decide) (by decide) (by decide),
    keyword_or_identifier (NewLexer "for x".toList "f".toList) 'f' "or x".toList
      (by decide) rfl (by decide) (by decide) (by decide)⟩

/-! ## The dot -/

theorem starRun_total (p : Char → Bool) (k : Bool → List Char → Option (List Char))
    (hk : ∀ st s, ∃ r, k st s = some r) :
    ∀ (s : List Char) (st : Bool), ∃ r, starRun p k st s = some r := by
  intro s
  induction s with
  | nil => intro st; exact hk st []
  | cons c cs ih =>
    intro st
    simp only [starRun]
    split
    · obtain ⟨r, hr⟩ := ih false
      rw [hr]; exact ⟨r, rfl⟩
    · exact hk st (c :: cs)

theorem opt_total (a : Regex) (k : Bool → List Char → Option (List Char))
    (hk : ∀ st s, ∃ r, k st s = some r) :
    ∀ (st : Bool) (s : List Char), ∃ r, (Regex.opt a).run st s k = some r := by
  intro st s
  simp only [Regex.run]
  split
  · rename_i r _; exact ⟨r, rfl⟩
  · exact hk st s

/-- On `.` followed by a digit the number pattern matches the dot, that digit
and possibly more: what it leaves is a piece of the text after the digit. -/
theorem run_reNumber_dot (d : Char) (r : List Char) (hd : isDigit d = true) :
    ∃ r1, reNumber.run true ('.' :: d :: r) (fun _ rest => some rest) = some r1 ∧
      r1 <:+ r := by
  have e : reNumber.run true ('.' :: d :: r) (fun _ rest => some rest) =
      match starRun isDigit (fun st s2 => (Regex.opt (.cat (.cls (fun c => c == 'e' || c == 'E'))
          (.cat (.opt (.cls (fun c => c == '+' || c == '-')))
            (Regex.plus isDigit)))).run st s2 (fun _ rest => some rest)) false (d :: r) with
      | some x => some x
      | none => (Regex.opt (.cat (.cls (fun c => c == 'e' || c == 'E'))
          (.cat (.opt (.cls (fun c => c == '+' || c == '-')))
            (Regex.plus isDigit)))).run true ('.' :: d :: r) (fun _ rest => some rest) := rfl
  have hk0 : ∀ (st : Bool) (s : List Char), ∃ x, (fun (_ : Bool) (rest : List Char) =>
      some rest) st s = some x := fun _ s => ⟨s, rfl⟩
  have ht := opt_total (.cat (.cls (fun c => c == 'e' || c == 'E'))
          (.cat (.opt (.cls (fun c => c == '+' || c == '-')))
            (Regex.plus isDigit))) (fun _ rest => some rest) hk0
  have hs := run_suffix (Regex.opt (.cat (.cls (fun c => c == 'e' || c == 'E'))
          (.cat (.opt (.cls (fun c => c == '+' || c == '-')))
            (Regex.plus isDigit)))) (fun _ rest => some rest)
    (by intro _ _ _ h; cases h; exact List.suffix_refl _)
  obtain ⟨r1, h1⟩ := starRun_total isDigit _ ht r false
  have h2 := starRun_suffix isDigit _ hs r false r1 h1
  refine ⟨r1, ?_, h2⟩
  rw [e]
  simp only [starRun, hd, if_true]
  rw [h1]

/-- On `.` followed by a digit `FindString(reNumber)` returns a prefix of the
chunk that starts with the dot and that digit. -/
theorem FindString_reNumber_dot (d : Char) (r : List Char) (hd : isDigit d = true) :
    ∃ more, FindString reNumber ('.' :: d :: r) = '.' :: d :: more ∧
      r = more ++ r.drop more.length := by
  obtain ⟨r1, h1, t, ht⟩ := run_reNumber_dot d r hd
  refine ⟨t, ?_, ?_⟩
  · unfold FindString
    simp only [findFrom, matchHere, h1]
    have h := take_length_sub ('.' :: d :: t) r1
    rw [List.cons_append, List.cons_append, ht] at h
    exact h
  · rw [← ht]
    simp

theorem scanToken_dot (lexer : Lexer) (rest : List Char) (hchunk : lexer.chunk = '.' :: rest) :
    scanToken lexer '.' =
      if lexer.chunk.length = 1 ∨ (!(isDigit (lexer.chunk.getD 1 '0'))) = true then
        emit 1 TokenSepDot "." lexer
      else emitScanned TokenLiteralNumber lexer (scanNumber lexer) := by
  have hb1 : nextStringIs lexer ['b', squote] = false :=
    nextStringIs_head_ne lexer '.' 'b' squote rest hchunk (by decide)
  have hb2 : nextStringIs lexer ['b', dquote] = false :=
    nextStringIs_head_ne lexer '.' 'b' dquote rest hchunk (by decide)
  unfold scanToken
  rw [if_neg (show ¬ '.' = ',' by decide)]
  rw [if_neg (show ¬ '.' = '(' by decide)]
  rw [if_neg (show ¬ '.' = ')' by decide)]
  rw [if_neg (show ¬ '.' = '[' by decide)]
  rw [if_neg (show ¬ '.' = ']' by decide)]
  rw [if_neg (show ¬ '.' = '\x7b' by decide)]
  rw [if_neg (show ¬ '.' = '\x7d' by decide)]
  rw [if_neg (show ¬ '.' = '+' by decide)]
  rw [if_neg (show ¬ '.' = '-' by decide)]
  rw [if_neg (show ¬ '.' = '^' by decide)]
  rw [if_neg (show ¬ '.' = '%' by decide)]
  rw [if_neg (show ¬ '.' = '&' by decide)]
  rw [if_neg (show ¬ '.' = '|' by decide)]
  rw [if_neg (show ¬ '.' = ':' by decide)]
  rw [if_neg (show ¬ '.' = '!' by decide)]
  rw [if_neg (show ¬ '.' = '*' by decide)]
  rw [if_neg (show ¬ '.' = '=' by decide)]
  rw [if_neg (show ¬ '.' = '<' by decide)]
  rw [if_neg (show ¬ '.' = '>' by decide)]
  by_cases h : lexer.chunk.length = 1 ∨ (!(isDigit (lexer.chunk.getD 1 '0'))) = true
  · rw [if_pos ⟨rfl, h⟩, if_pos h]
  · rw [if_neg (fun h1 => h h1.2), if_neg h, if_neg (show ¬ '.' = squote by decide),
      if_neg (show ¬ '.' = dquote by decide), if_neg (by rw [hb1, hb2]; decide),
      if_pos (Or.inl rfl)]

/-- Dot vs leading-dot number (C14): without a cached token, `NextToken` on `.`
followed by `rest` returns `(line, TokenSepDot, ".")` and consumes one byte
when `rest` is empty or does not begin with a decimal digit; when `rest` begins
with a decimal digit `d` it returns a `TokenLiteralNumber` whose lexeme begins
with `.` and `d`, and leaves the text after that lexeme. -/
theorem dot_or_number (lexer : Lexer) (rest : List Char)
    (hcache : ¬ lexer.nextTokenLine > 0) (hchunk : lexer.chunk = '.' :: rest) :
    ((∀ d rest1, rest = d :: rest1 → isDigit d = false) →
      NextToken lexer =
        .ok ((lexer.line, TokenSepDot, ".".toList), { lexer with chunk := rest })) ∧
    (∀ d rest1, rest = d :: rest1 → isDigit d = true →
      ∃ more, NextToken lexer =
          .ok ((lexer.line, TokenLiteralNumber, '.' :: d :: more),
            { lexer with chunk := rest1.drop more.length }) ∧
        rest1 = more ++ rest1.drop more.length) := by
  rw [NextToken_eq_scanToken lexer '.' rest hcache hchunk (by decide) (by decide),
    scanToken_dot lexer rest hchunk]
  constructor
  · intro hrest
    have h : lexer.chunk.length = 1 ∨ (!(isDigit (lexer.chunk.getD 1 '0'))) = true := by
      cases rest with
      | nil => left; rw [hchunk]; rfl
      | cons d rest1 =>
        right
        rw [hchunk]
        show (!(isDigit d)) = true
        rw [hrest d rest1 rfl]
        rfl
    rw [if_pos h, emit_eq _ _ _ _ (by rw [hchunk]; simp), hchunk]
    rfl
  · intro d rest1 hrest hd
    have h : ¬ (lexer.chunk.length = 1 ∨ (!(isDigit (lexer.chunk.getD 1 '0'))) = true) := by
      rw [hchunk, hrest]
      rintro (h | h)
      · simp at h
      · have : (List.getD ('.' :: d :: rest1) 1 '0') = d := rfl
        rw [this, hd] at h
        exact absurd h (by decide)
    obtain ⟨more, hm1, hm2⟩ := FindString_reNumber_dot d rest1 hd
    refine ⟨more, ?_, hm2⟩
    rw [if_neg h]
    unfold emitScanned scanNumber scan
    have hlen : ('.' :: d :: more).length ≤ lexer.chunk.length := by
      rw [hchunk, hrest]
      have := congrArg List.length hm2
      simp only [List.length_append, List.length_cons] at this ⊢
      omega
    simp only [hchunk, hrest, hm1, ne_eq, List.cons_ne_nil, not_false_eq_true, if_true]
    rw [forward_eq (by rw [hchunk, hrest]; rw [hchunk, hrest] at hlen; exact hlen)]
    simp only [hchunk, hrest, bind, Except.bind, pure, Except.pure, List.length_cons,
      List.drop_succ_cons]

theorem dot_or_number_witness :
    NextToken (NewLexer ".x".toList "f".toList) =
        .ok ((1, TokenSepDot, ".".toList), ⟨"x".toList, "f".toList, 1, [], 0, 0⟩) ∧
      ∃ more, NextToken (NewLexer ".5e3+".toList "f".toList) =
          .ok ((1, TokenLiteralNumber, '.' :: '5' :: more),
            ⟨"e3+".toList.drop more.length, "f".toList, 1, [], 0, 0⟩) ∧
        "e3+".toList = more ++ "e3+".toList.drop more.length :=
  ⟨(dot_or_number (NewLexer ".x".toList "f".toList) "x".toList (by decide) rfl).1
      (fun _ _ h => by cases h; decide),
    (dot_or_number (NewLexer ".5e3+".toList "f".toList) "5e3+".toList (by decide) rfl).2
      '5' "e3+".toList rfl (by decide)⟩

/-! ## The asserting calls -/

theorem NextToken_chunkName {lexer l1 : Lexer} {tok : Token}
    (h : NextToken lexer = .ok (tok, l1)) : l1.chunkName = lexer.chunkName := by
  by_cases hcache : lexer.nextTokenLine > 0
  · unfold NextToken at h
    rw [if_pos hcache] at h
    simp only [Except.ok.injEq, Prod.mk.injEq] at h
    rw [← h.2]
  · obtain ⟨line, kind, lexeme⟩ := tok
    obtain ⟨sk, hs, -, hl1, -⟩ := NextToken_spec hcache h
    obtain ⟨w, -, -, hsk, -⟩ := skipWhiteSpaces_spec hs
    rw [hl1, hsk]

/-- NextTokenAssertKind (C15): in every scanner state, if `NextToken` returns
`(line, kind, lexeme)` then `NextTokenAssertKind(k)` returns `(line, lexeme)`
and leaves the same lexer when `kind = k`, and when `kind` differs from `k` it
fails with the payload `chunkName ++ " line " ++ decimal(Line()) ++ ": " ++
"Syntax error near '" ++ lexeme ++ "'"`, `Line()` being read after the token
was consumed; and `NextTokenAssertIdentifier()` is
`NextTokenAssertKind(TokenIdentifier)`. -/
theorem nextTokenAssertKind_spec (lexer l1 : Lexer) (k line kind : Int) (lexeme : List Char)
    (h : NextToken lexer = .ok ((line, kind, lexeme), l1)) :
    (kind = k → NextTokenAssertKind lexer k = .ok ((line, lexeme), l1)) ∧
    (kind ≠ k →
      NextTokenAssertKind lexer k = .error (.syntaxError (lexer.chunkName ++ " line ".toList ++
        fmtInt l1.Line ++ ": ".toList ++ ("Syntax error near '".toList ++ lexeme ++ [squote])))) ∧
    NextTokenAssertIdentifier lexer = NextTokenAssertKind lexer TokenIdentifier := by
  have hname := NextToken_chunkName h
  refine ⟨?_, ?_, rfl⟩
  · intro hk
    unfold NextTokenAssertKind
    simp only [h, bind, Except.bind]
    rw [if_neg (by rw [hk]; exact fun h => h rfl)]
    rfl
  · intro hk
    unfold NextTokenAssertKind
    simp only [h, bind, Except.bind]
    rw [if_pos (fun h => hk h.symm)]
    simp only [syntaxError, hname, Lexer.Line]

theorem nextTokenAssertKind_spec_witness :
    NextTokenAssertKind (NewLexer "\nx = 1".toList "f.sn".toList) TokenIdentifier =
        .ok ((2, "x".toList), ⟨" = 1".toList, "f.sn".toList, 2, [], 0, 0⟩) ∧
      NextTokenAssertKind (NewLexer "\nx = 1".toList "f.sn".toList) TokenOpAssign =
        .error (.syntaxError "f.sn line 2: Syntax error near 'x'".toList) :=
  ⟨(nextTokenAssertKind_spec (NewLexer "\nx = 1".toList "f.sn".toList)
      ⟨" = 1".toList, "f.sn".toList, 2, [], 0, 0⟩ TokenIdentifier 2 TokenIdentifier "x".toList
      (by decide)).1 rfl,
    (nextTokenAssertKind_spec (NewLexer "\nx = 1".toList "f.sn".toList)
      ⟨" = 1".toList, "f.sn".toList, 2, [], 0, 0⟩ TokenOpAssign 2 TokenIdentifier "x".toList
      (by decide)).2.1 (by decide)⟩

/-- Unterminated long string (C16), evaluated where the code departs from it:
`'''abc` has no closing triple quote, and the code returns an empty string
literal and leaves nothing instead of failing; on `'''ab` the failure is the
runtime panic of an out-of-range slice, not the syntax error. Only on the bare
`'''` does the code raise the syntax error. -/
theorem unterminated_long_string_diverges :
    NextToken (NewLexer ([squote, squote, squote] ++ "abc".toList) "f".toList) =
        .ok ((1, TokenLiteralString, []), ⟨[], "f".toList, 1, [], 0, 0⟩) ∧
      NextToken (NewLexer ([squote, squote, squote] ++ "ab".toList) "f".toList) =
        .error .outOfRange ∧
      NextToken (NewLexer [squote, squote, squote] "f".toList) =
        .error (syntaxError (NewLexer [squote, squote, squote] "f".toList)
          "Cannot found closing quotation mark for a long string".toList) :=
  ⟨by decide, by decide, by decide⟩

/-- End-to-end (C17): calling `NextToken` on `NewLexer("x = 1 + 2 // add\n")`
until it returns `TokenEOF` yields exactly six tokens, `Identifier x`,
`Assign =`, `NumberLiteral 1`, `Add +`, `NumberLiteral 2` on line 1 and
`EndOfFile` on line 2; the comment gives no token and no lexeme holds comment
text. -/
theorem end_to_end_example :
    testLexer "x = 1 + 2 // add\n".toList "f".toList =
      .ok [(1, TokenIdentifier, "x".toList), (1, TokenOpAssign, "=".toList),
        (1, TokenLiteralNumber, "1".toList), (1, TokenOpAdd, "+".toList),
        (1, TokenLiteralNumber, "2".toList), (2, TokenEOF, "EOF".toList)] := by
  decide

/-- Only lexical errors (C18), evaluated where the code departs from it: on the
unterminated block comment `/*` the final `forward(2)` of `skipLongComment`
slices an empty chunk, and on `'''a` the `forward(6)` of `scanLongString`
slices a chunk of four bytes; both calls stop on the runtime panic of an
out-of-range slice, which is not a `syntaxError`. -/
theorem runtime_panics_reachable :
    NextToken (NewLexer "/*".toList "f".toList) = .error .outOfRange ∧
      NextToken (NewLexer "x /* y".toList "f".toList) =
        .ok ((1, TokenIdentifier, "x".toList), ⟨" /* y".toList, "f".toList, 1, [], 0, 0⟩) ∧
      NextToken ⟨" /* y".toList, "f".toList, 1, [], 0, 0⟩ = .error .outOfRange ∧
      NextToken (NewLexer ([squote, squote, squote] ++ "a".toList) "f".toList) =
        .error .outOfRange :=
  ⟨by decide, by decide, by decide, by decide⟩

/-! ## The kinds that are never produced -/

theorem emit_kind {n : Nat} {kind : Int} {tok : String} {lexer l1 : Lexer}
    {line k : Int} {lexeme : List Char}
    (h : emit n kind tok lexer = .ok ((line, k, lexeme), l1)) : k = kind := by
  unfold emit at h
  cases h1 : forward n lexer with
  | error e => simp [h1, bind, Except.bind] at h
  | ok l0 =>
    simp only [h1, bind, Except.bind, pure, Except.pure, Except.ok.injEq, Prod.mk.injEq] at h
    exact h.1.2.1.symm

theorem keywords_produced {token : List Char} {kind : Int} (h : keywords token = some kind) :
    kind ≠ TokenOpBNot ∧ kind ≠ TokenOpDiv ∧ kind ≠ TokenOpIDiv := by
  unfold keywords keywordTable at h
  simp only [List.lookup] at h
  repeat' split at h
  all_goals (cases h <;> decide)

/-- No token that `scanToken` returns has kind `TokenOpBNot`, `TokenOpDiv` or
`TokenOpIDiv`. -/
theorem scanToken_kind {lexer l1 : Lexer} {c : Char} {line kind : Int} {lexeme : List Char}
    (h : scanToken lexer c = .ok ((line, kind, lexeme), l1)) :
    kind ≠ TokenOpBNot ∧ kind ≠ TokenOpDiv ∧ kind ≠ TokenOpIDiv := by
  unfold scanToken at h
  by_cases hc : c = ','
  · rw [if_pos hc] at h
    obtain rfl := emit_kind h
    decide
  rw [if_neg hc] at h
  clear hc
  by_cases hc : c = '('
  · rw [if_pos hc] at h
    obtain rfl := emit_kind h
    decide
  rw [if_neg hc] at h
  clear hc
  by_cases hc : c = ')'
  · rw [if_pos hc] at h
    obtain rfl := emit_kind h
    decide
  rw [if_neg hc] at h
  clear hc
  by_cases hc : c = '['
  · rw [if_pos hc] at h
    obtain rfl := emit_kind h
    decide
  rw [if_neg hc] at h
  clear hc
  by_cases hc : c = ']'
  · rw [if_pos hc] at h
    obtain rfl := emit_kind h
    decide
  rw [if_neg hc] at h
  clear hc
  by_cases hc : c = '\x7b'
  · rw [if_pos hc] at h
    obtain rfl := emit_kind h
    decide
  rw [if_neg hc] at h
  clear hc
  by_cases hc : c = '\x7d'
  · rw [if_pos hc] at h
    obtain rfl := emit_kind h
    decide
  rw [if_neg hc] at h
  clear hc
  by_cases hc : c = '+'
  · rw [if_pos hc] at h
    obtain rfl := emit_kind h
    decide
  rw [if_neg hc] at h
  clear hc
  by_cases hc : c = '-'
  · rw [if_pos hc] at h
    obtain rfl := emit_kind h
    decide
  rw [if_neg hc] at h
  clear hc
  by_cases hc : c = '^'
  · rw [if_pos hc] at h
    obtain rfl := emit_kind h
    decide
  rw [if_neg hc] at h
  clear hc
  by_cases hc : c = '%'
  · rw [if_pos hc] at h
    obtain rfl := emit_kind h
    decide
  rw [if_neg hc] at h
  clear hc
  by_cases hc : c = '&'
  · rw [if_pos hc] at h
    obtain rfl := emit_kind h
    decide
  rw [if_neg hc] at h
  clear hc
  by_cases hc : c = '|'
  · rw [if_pos hc] at h
    obtain rfl := emit_kind h
    decide
  rw [if_neg hc] at h
  clear hc
  by_cases hc : c = ':'
  · rw [if_pos hc] at h
    by_cases hn : nextStringIs lexer "::".toList = true
    · rw [if_neg (by rw [hn]; decide)] at h
      obtain rfl := emit_kind h
      decide
    · rw [if_pos (by simpa using hn)] at h
      cases h
  rw [if_neg hc] at h
  clear hc
  by_cases hc : c = '!'
  · rw [if_pos hc] at h
    by_cases hn : nextStringIs lexer "!=".toList = true
    · rw [if_neg (by rw [hn]; decide)] at h
      obtain rfl := emit_kind h
      decide
    · rw [if_pos (by simpa using hn)] at h
      cases h
  rw [if_neg hc] at h
  clear hc
  by_cases hc : c = '*'
  · rw [if_pos hc] at h
    by_cases hn : nextStringIs lexer "**".toList = true
    · rw [if_pos hn] at h
      obtain rfl := emit_kind h
      decide
    · rw [if_neg hn] at h
      obtain rfl := emit_kind h
      decide
  rw [if_neg hc] at h
  clear hc
  by_cases hc : c = '='
  · rw [if_pos hc] at h
    by_cases hn : nextStringIs lexer "==".toList = true
    · rw [if_pos hn] at h
      obtain rfl := emit_kind h
      decide
    · rw [if_neg hn] at h
      obtain rfl := emit_kind h
      decide
  rw [if_neg hc] at h
  clear hc
  by_cases hc : c = '<'
  · rw [if_pos hc] at h
    by_cases hn : nextStringIs lexer "<=".toList = true
    · rw [if_pos hn] at h
      obtain rfl := emit_kind h
      decide
    · rw [if_neg hn] at h
      obtain rfl := emit_kind h
      decide
  rw [if_neg hc] at h
  clear hc
  by_cases hc : c = '>'
  · rw [if_pos hc] at h
    by_cases hn : nextStringIs lexer ">=".toList = true
    · rw [if_pos hn] at h
      obtain rfl := emit_kind h
      decide
    · rw [if_neg hn] at h
      obtain rfl := emit_kind h
      decide
  rw [if_neg hc] at h
  clear hc
  by_cases hc : c = '.' ∧ (lexer.chunk.length = 1 ∨ (!(isDigit (lexer.chunk.getD 1 '0'))) = true)
  · rw [if_pos hc] at h
    obtain rfl := emit_kind h
    decide
  rw [if_neg hc] at h
  clear hc
  by_cases hc : c = squote
  · rw [if_pos hc] at h
    by_cases hq : nextStringIs lexer [squote, squote, squote] = true
    · rw [if_pos hq] at h
      obtain ⟨-, rfl, -⟩ := emitScanned_ok h
      decide
    · rw [if_neg hq] at h
      obtain ⟨-, rfl, -⟩ := emitScanned_ok h
      decide
  rw [if_neg hc] at h
  clear hc
  by_cases hc : c = dquote
  · rw [if_pos hc] at h
    by_cases hq : nextStringIs lexer [dquote, dquote, dquote] = true
    · rw [if_pos hq] at h
      obtain ⟨-, rfl, -⟩ := emitScanned_ok h
      decide
    · rw [if_neg hq] at h
      obtain ⟨-, rfl, -⟩ := emitScanned_ok h
      decide
  rw [if_neg hc] at h
  clear hc
  by_cases hc : (nextStringIs lexer ['b', squote] || nextStringIs lexer ['b', dquote]) = true
  · rw [if_pos hc] at h
    split at h
    · obtain ⟨-, rfl, -⟩ := emitScanned_ok h
      decide
    · cases h
  rw [if_neg hc] at h
  clear hc
  by_cases hc : c = '.' ∨ isDigit c = true
  · rw [if_pos hc] at h
    obtain ⟨-, rfl, -⟩ := emitScanned_ok h
    decide
  rw [if_neg hc] at h
  clear hc
  by_cases hc : c = '_' ∨ isLetter c = true
  · rw [if_pos hc] at h
    cases hr : scanIdentifier lexer with
    | error e => simp [hr, bind, Except.bind] at h
    | ok v =>
      obtain ⟨token, l0⟩ := v
      simp only [hr, bind, Except.bind] at h
      split at h
      · rename_i k hk
        simp only [pure, Except.pure, Except.ok.injEq, Prod.mk.injEq] at h
        obtain ⟨⟨-, rfl, -⟩, -⟩ := h
        exact keywords_produced hk
      · simp only [pure, Except.pure, Except.ok.injEq, Prod.mk.injEq] at h
        obtain ⟨⟨-, rfl, -⟩, -⟩ := h
        decide
  · rw [if_neg hc] at h
    cases h

theorem NextToken_kind {lexer l1 : Lexer} {line kind : Int} {lexeme : List Char}
    (hcache : ¬ lexer.nextTokenLine > 0)
    (h : NextToken lexer = .ok ((line, kind, lexeme), l1)) :
    kind ≠ TokenOpBNot ∧ kind ≠ TokenOpDiv ∧ kind ≠ TokenOpIDiv := by
  unfold NextToken at h
  rw [if_neg hcache] at h
  cases hs : skipWhiteSpaces lexer with
  | error e => simp [hs, bind, Except.bind] at h
  | ok sk =>
    simp only [hs, bind, Except.bind] at h
    split at h
    · simp only [pure, Except.pure, Except.ok.injEq, Prod.mk.injEq] at h
      obtain ⟨⟨-, rfl, -⟩, -⟩ := h
      decide
    · exact scanToken_kind h

theorem NextToken_fields {lexer l1 : Lexer} {tok : Token}
    (h : NextToken lexer = .ok (tok, l1)) :
    l1.nextTokenKind = lexer.nextTokenKind ∧ l1.nextToken = lexer.nextToken := by
  by_cases hcache : lexer.nextTokenLine > 0
  · unfold NextToken at h
    rw [if_pos hcache] at h
    simp only [Except.ok.injEq, Prod.mk.injEq] at h
    rw [← h.2]
    exact ⟨rfl, rfl⟩
  · obtain ⟨line, kind, lexeme⟩ := tok
    obtain ⟨sk, hs, -, hl1, -⟩ := NextToken_spec hcache h
    obtain ⟨w, -, -, hsk, -⟩ := skipWhiteSpaces_spec hs
    rw [hl1, hsk]
    exact ⟨rfl, rfl⟩

/-- Along successful calls the kind held in the cache slot is never one of the
three kinds. -/
theorem Steps_cached_kind {l0 l : Lexer} (hs : Steps l0 l)
    (h0 : l0.nextTokenKind ≠ TokenOpBNot ∧ l0.nextTokenKind ≠ TokenOpDiv ∧
      l0.nextTokenKind ≠ TokenOpIDiv) :
    l.nextTokenKind ≠ TokenOpBNot ∧ l.nextTokenKind ≠ TokenOpDiv ∧
      l.nextTokenKind ≠ TokenOpIDiv := by
  induction hs with
  | refl => exact h0
  | next _ hn ih => rw [(NextToken_fields hn).1]; exact ih
  | peek hs1 hp ih =>
    rename_i l1 l2 kind
    unfold LookAhead at hp
    by_cases hcache : l1.nextTokenLine > 0
    · rw [if_pos hcache] at hp
      simp only [Except.ok.injEq, Prod.mk.injEq] at hp
      rw [← hp.2]; exact ih
    · rw [if_neg hcache] at hp
      cases hn : NextToken l1 with
      | error e => simp [hn, bind, Except.bind] at hp
      | ok v =>
        obtain ⟨⟨line, k, token⟩, l3⟩ := v
        simp only [hn, bind, Except.bind, pure, Except.pure, Except.ok.injEq,
          Prod.mk.injEq] at hp
        rw [← hp.2]
        exact NextToken_kind hcache hn

theorem Reachable_NextToken_kind {lexer l1 : Lexer} {line kind : Int} {lexeme : List Char}
    (hr : Reachable lexer) (h : NextToken lexer = .ok ((line, kind, lexeme), l1)) :
    kind ≠ TokenOpBNot ∧ kind ≠ TokenOpDiv ∧ kind ≠ TokenOpIDiv := by
  by_cases hcache : lexer.nextTokenLine > 0
  · obtain ⟨chunk, name, hs⟩ := hr
    have hk := Steps_cached_kind hs ⟨(by decide : (0 : Int) ≠ TokenOpBNot),
      (by decide : (0 : Int) ≠ TokenOpDiv), (by decide : (0 : Int) ≠ TokenOpIDiv)⟩
    unfold NextToken at h
    rw [if_pos hcache] at h
    simp only [Except.ok.injEq, Prod.mk.injEq] at h
    rw [← h.1.2.1]
    exact hk
  · exact NextToken_kind hcache h

/-! ## Slashes and tildes -/

theorem skipWhiteSpaces_halt (lexer : Lexer) (c : Char) (cs : List Char)
    (hchunk : lexer.chunk = c :: cs) (hw : isWhiteSpace c = false)
    (h1 : nextStringIs lexer "//".toList = false)
    (h2 : nextStringIs lexer "/*".toList = false) :
    skipWhiteSpaces lexer = .ok lexer := by
  have h3 : nextStringIs lexer "\r\n".toList = false :=
    nextStringIs_head_ne lexer c '\r' '\n' cs hchunk (by rintro rfl; simp [isWhiteSpace] at hw)
  have h4 : nextStringIs lexer "\n\r".toList = false :=
    nextStringIs_head_ne lexer c '\n' '\r' cs hchunk (by rintro rfl; simp [isWhiteSpace] at hw)
  have h5 : isNewLine c = false := by
    simp only [isWhiteSpace, Bool.or_eq_false_iff] at hw
    simp only [isNewLine, Bool.or_eq_false_iff]
    tauto
  unfold skipWhiteSpaces skipWhiteSpacesLoop
  rw [hchunk]
  simp only [h1, h2, h3, h4, h5, hw, Bool.or_false, Bool.false_eq_true, if_false]

theorem scanToken_slash (lexer : Lexer) (rest : List Char) (hchunk : lexer.chunk = '/' :: rest) :
    scanToken lexer '/' = .error (syntaxError lexer
      ("Unexpected symbol near '".toList ++ fmtQuotedByte '/' ++ [squote])) := by
  have hb1 : nextStringIs lexer ['b', squote] = false :=
    nextStringIs_head_ne lexer '/' 'b' squote rest hchunk (by decide)
  have hb2 : nextStringIs lexer ['b', dquote] = false :=
    nextStringIs_head_ne lexer '/' 'b' dquote rest hchunk (by decide)
  unfold scanToken
  rw [if_neg (show ¬ '/' = ',' by decide)]
  rw [if_neg (show ¬ '/' = '(' by decide)]
  rw [if_neg (show ¬ '/' = ')' by decide)]
  rw [if_neg (show ¬ '/' = '[' by decide)]
  rw [if_neg (show ¬ '/' = ']' by decide)]
  rw [if_neg (show ¬ '/' = '\x7b' by decide)]
  rw [if_neg (show ¬ '/' = '\x7d' by decide)]
  rw [if_neg (show ¬ '/' = '+' by decide)]
  rw [if_neg (show ¬ '/' = '-' by decide)]
  rw [if_neg (show ¬ '/' = '^' by decide)]
  rw [if_neg (show ¬ '/' = '%' by decide)]
  rw [if_neg (show ¬ '/' = '&' by decide)]
  rw [if_neg (show ¬ '/' = '|' by decide)]
  rw [if_neg (show ¬ '/' = ':' by decide)]
  rw [if_neg (show ¬ '/' = '!' by decide)]
  rw [if_neg (show ¬ '/' = '*' by decide)]
  rw [if_neg (show ¬ '/' = '=' by decide)]
  rw [if_neg (show ¬ '/' = '<' by decide)]
  rw [if_neg (show ¬ '/' = '>' by decide)]
  rw [if_neg (fun h => absurd h.1 (by decide)), if_neg (show ¬ '/' = squote by decide),
    if_neg (show ¬ '/' = dquote by decide), if_neg (by rw [hb1, hb2]; decide),
    if_neg (by decide), if_neg (by decide)]

theorem scanToken_tilde (lexer : Lexer) (rest : List Char) (hchunk : lexer.chunk = '~' :: rest) :
    scanToken lexer '~' = .error (syntaxError lexer
      ("Unexpected symbol near '".toList ++ fmtQuotedByte '~' ++ [squote])) := by
  have hb1 : nextStringIs lexer ['b', squote] = false :=
    nextStringIs_head_ne lexer '~' 'b' squote rest hchunk (by decide)
  have hb2 : nextStringIs lexer ['b', dquote] = false :=
    nextStringIs_head_ne lexer '~' 'b' dquote rest hchunk (by decide)
  unfold scanToken
  rw [if_neg (show ¬ '~' = ',' by decide)]
  rw [if_neg (show ¬ '~' = '(' by decide)]
  rw [if_neg (show ¬ '~' = ')' by decide)]
  rw [if_neg (show ¬ '~' = '[' by decide)]
  rw [if_neg (show ¬ '~' = ']' by decide)]
  rw [if_neg (show ¬ '~' = '\x7b' by decide)]
  rw [if_neg (show ¬ '~' = '\x7d' by decide)]
  rw [if_neg (show ¬ '~' = '+' by decide)]
  rw [if_neg (show ¬ '~' = '-' by decide)]
  rw [if_neg (show ¬ '~' = '^' by decide)]
  rw [if_neg (show ¬ '~' = '%' by decide)]
  rw [if_neg (show ¬ '~' = '&' by decide)]
  rw [if_neg (show ¬ '~' = '|' by decide)]
  rw [if_neg (show ¬ '~' = ':' by decide)]
  rw [if_neg (show ¬ '~' = '!' by decide)]
  rw [if_neg (show ¬ '~' = '*' by decide)]
  rw [if_neg (show ¬ '~' = '=' by decide)]
  rw [if_neg (show ¬ '~' = '<' by decide)]
  rw [if_neg (show ¬ '~' = '>' by decide)]
  rw [if_neg (fun h => absurd h.1 (by decide)), if_neg (show ¬ '~' = squote by decide),
    if_neg (show ¬ '~' = dquote by decide), if_neg (by rw [hb1, hb2]; decide),
    if_neg (by decide), if_neg (by decide)]

/-- The result of the loop of `skipWhiteSpaces` does not depend on the fuel, as
long as there is more of it than the chunk has bytes. -/
theorem skipWhiteSpacesLoop_fuel :
    ∀ (f1 f2 : Nat) (lexer : Lexer), lexer.chunk.length < f1 → lexer.chunk.length < f2 →
      skipWhiteSpacesLoop f1 lexer = skipWhiteSpacesLoop f2 lexer := by
  intro f1
  induction f1 with
  | zero => intro f2 lexer h1; omega
  | succ f1 ih =>
    intro f2 lexer h1 h2
    cases f2 with
    | zero => omega
    | succ f2 =>
      unfold skipWhiteSpacesLoop
      cases hchunk : lexer.chunk with
      | nil => rfl
      | cons c cs =>
        rw [hchunk, List.length_cons] at h1 h2
        simp only
        by_cases ha : nextStringIs lexer "//".toList = true
        · rw [if_pos ha, if_pos ha]
          rcases skipShortComment_cases lexer with ⟨l1, hl1, hlen⟩ | hl1
          · simp only [hl1, bind, Except.bind]
            rw [hchunk, List.length_cons] at hlen
            exact ih f2 l1 (by omega) (by omega)
          · simp only [hl1, bind, Except.bind]
        rw [if_neg ha, if_neg ha]
        by_cases hb : nextStringIs lexer "/*".toList = true
        · rw [if_pos hb, if_pos hb]
          rcases skipLongComment_cases lexer with ⟨l1, hl1, hlen⟩ | hl1
          · simp only [hl1, bind, Except.bind]
            rw [hchunk, List.length_cons] at hlen
            exact ih f2 l1 (by omega) (by omega)
          · simp only [hl1, bind, Except.bind]
        rw [if_neg hb, if_neg hb]
        by_cases hp : (nextStringIs lexer "\r\n".toList || nextStringIs lexer "\n\r".toList) = true
        · rw [if_pos hp, if_pos hp]
          cases h3 : forward 2 lexer with
          | error e => simp only [bind, Except.bind]
          | ok l0 =>
            simp only [bind, Except.bind]
            obtain ⟨hl, rfl⟩ := forward_ok h3
            refine ih f2 _ ?_ ?_ <;>
              simp only [hchunk, List.length_drop, List.length_cons] <;> omega
        rw [if_neg hp, if_neg hp]
        by_cases hn : isNewLine c = true
        · rw [if_pos hn, if_pos hn]
          cases h3 : forward 1 lexer with
          | error e => simp only [bind, Except.bind]
          | ok l0 =>
            simp only [bind, Except.bind]
            obtain ⟨hl, rfl⟩ := forward_ok h3
            refine ih f2 _ ?_ ?_ <;>
              simp only [hchunk, List.length_drop, List.length_cons] <;> omega
        rw [if_neg hn, if_neg hn]
        by_cases hw : isWhiteSpace c = true
        · rw [if_pos hw, if_pos hw]
          cases h3 : forward 1 lexer with
          | error e => simp only [bind, Except.bind]
          | ok l0 =>
            simp only [bind, Except.bind]
            obtain ⟨hl, rfl⟩ := forward_ok h3
            refine ih f2 _ ?_ ?_ <;>
              simp only [hchunk, List.length_drop, List.length_cons] <;> omega
        · rw [if_neg hw, if_neg hw]

theorem skipShortComment_cache {lexer l1 : Lexer} (h : skipShortComment lexer = .ok l1) :
    l1.nextTokenLine = lexer.nextTokenLine := by
  unfold skipShortComment at h
  cases h3 : forward 2 lexer with
  | error e => simp [h3, bind, Except.bind] at h
  | ok l0 =>
    simp only [h3, bind, Except.bind, pure, Except.pure, Except.ok.injEq] at h
    obtain ⟨-, rfl⟩ := forward_ok h3
    rw [← h]

theorem skipLongComment_cache {lexer l1 : Lexer} (h : skipLongComment lexer = .ok l1) :
    l1.nextTokenLine = lexer.nextTokenLine := by
  unfold skipLongComment at h
  cases h3 : forward 2 lexer with
  | error e => simp [h3, bind, Except.bind] at h
  | ok l0 =>
    simp only [h3, bind, Except.bind] at h
    obtain ⟨-, rfl⟩ := forward_ok h3
    obtain ⟨-, rfl⟩ := forward_ok h
    rfl

/-- A chunk that begins with `//` begins with a line comment: `NextToken`
first skips it, then goes on as on the lexer that `skipShortComment` leaves. -/
theorem NextToken_lineComment (lexer : Lexer) (hcache : ¬ lexer.nextTokenLine > 0)
    (h : nextStringIs lexer "//".toList = true) :
    NextToken lexer = (skipShortComment lexer >>= NextToken) := by
  obtain ⟨rest, hchunk⟩ := (nextStringIs_two lexer '/' '/').mp h
  have hskip : skipWhiteSpaces lexer = (skipShortComment lexer >>= skipWhiteSpaces) := by
    unfold skipWhiteSpaces
    rw [skipWhiteSpacesLoop, hchunk]
    simp only [h, if_true]
    rcases skipShortComment_cases lexer with ⟨l1, hl1, hlen⟩ | hl1
    · simp only [hl1, bind, Except.bind]
      rw [hchunk] at hlen
      exact skipWhiteSpacesLoop_fuel _ _ l1 hlen (Nat.lt_succ_self _)
    · simp only [hl1, bind, Except.bind]
  rcases skipShortComment_cases lexer with ⟨l1, hl1, -⟩ | hl1
  · have hc1 : ¬ l1.nextTokenLine > 0 := by rw [skipShortComment_cache hl1]; exact hcache
    rw [hl1] at hskip ⊢
    simp only [bind, Except.bind] at hskip ⊢
    unfold NextToken
    rw [if_neg hcache, if_neg hc1, hskip]
  · rw [hl1] at hskip ⊢
    simp only [bind, Except.bind] at hskip ⊢
    unfold NextToken
    rw [if_neg hcache, hskip]
    rfl

/-- A chunk that begins with `/*` begins with a block comment: `NextToken`
first skips it, then goes on as on the lexer that `skipLongComment` leaves. -/
theorem NextToken_blockComment (lexer : Lexer) (hcache : ¬ lexer.nextTokenLine > 0)
    (h : nextStringIs lexer "/*".toList = true) :
    NextToken lexer = (skipLongComment lexer >>= NextToken) := by
  obtain ⟨rest, hchunk⟩ := (nextStringIs_two lexer '/' '*').mp h
  have h1 : nextStringIs lexer "//".toList = false := by
    rw [Bool.eq_false_iff, str_slashes]
    intro h
    obtain ⟨r, hr⟩ := (nextStringIs_two lexer '/' '/').mp h
    rw [hchunk] at hr
    exact absurd (List.cons.inj (List.cons.inj hr).2).1 (by decide)
  have hskip : skipWhiteSpaces lexer = (skipLongComment lexer >>= skipWhiteSpaces) := by
    unfold skipWhiteSpaces
    rw [skipWhiteSpacesLoop, hchunk]
    simp only [h, h1, if_true, Bool.false_eq_true, if_false]
    rcases skipLongComment_cases lexer with ⟨l1, hl1, hlen⟩ | hl1
    · simp only [hl1, bind, Except.bind]
      rw [hchunk] at hlen
      exact skipWhiteSpacesLoop_fuel _ _ l1 hlen (Nat.lt_succ_self _)
    · simp only [hl1, bind, Except.bind]
  rcases skipLongComment_cases lexer with ⟨l1, hl1, -⟩ | hl1
  · have hc1 : ¬ l1.nextTokenLine > 0 := by rw [skipLongComment_cache hl1]; exact hcache
    rw [hl1] at hskip ⊢
    simp only [bind, Except.bind] at hskip ⊢
    unfold NextToken
    rw [if_neg hcache, if_neg hc1, hskip]
  · rw [hl1] at hskip ⊢
    simp only [bind, Except.bind] at hskip ⊢
    unfold NextToken
    rw [if_neg hcache, hskip]
    rfl

/-- Unproduced operator kinds (C19): no token that `NextToken` returns on a
scanner reachable from `NewLexer`, from the scan or from the cache, has kind
`TokenOpBNot`, `TokenOpDiv` or `TokenOpIDiv`; without a cached token a chunk
that begins with `//` is first put through `skipShortComment` and one that
begins with `/*` through `skipLongComment`, a `/` followed by anything else
fails with the `Unexpected symbol` syntax error, and so does a `~`. -/
theorem unproduced_operator_kinds (lexer : Lexer) :
    (Reachable lexer → ∀ (l1 : Lexer) (line kind : Int) (lexeme : List Char),
      NextToken lexer = .ok ((line, kind, lexeme), l1) →
      kind ≠ TokenOpBNot ∧ kind ≠ TokenOpDiv ∧ kind ≠ TokenOpIDiv) ∧
    (¬ lexer.nextTokenLine > 0 → nextStringIs lexer "//".toList = true →
      NextToken lexer = (skipShortComment lexer >>= NextToken)) ∧
    (¬ lexer.nextTokenLine > 0 → nextStringIs lexer "/*".toList = true →
      NextToken lexer = (skipLongComment lexer >>= NextToken)) ∧
    (¬ lexer.nextTokenLine > 0 → ∀ rest, lexer.chunk = '/' :: rest →
      nextStringIs lexer "//".toList = false → nextStringIs lexer "/*".toList = false →
      NextToken lexer = .error (syntaxError lexer
        ("Unexpected symbol near '".toList ++ fmtQuotedByte '/' ++ [squote]))) ∧
    (¬ lexer.nextTokenLine > 0 → ∀ rest, lexer.chunk = '~' :: rest →
      NextToken lexer = .error (syntaxError lexer
        ("Unexpected symbol near '".toList ++ fmtQuotedByte '~' ++ [squote]))) := by
  refine ⟨fun hr l1 line kind lexeme h => Reachable_NextToken_kind hr h,
    NextToken_lineComment lexer, NextToken_blockComment lexer, ?_, ?_⟩
  · intro hcache rest hchunk h1 h2
    unfold NextToken
    rw [if_neg hcache, skipWhiteSpaces_halt lexer '/' rest hchunk (by decide) h1 h2]
    simp only [bind, Except.bind, hchunk]
    exact scanToken_slash lexer rest hchunk
  · intro hcache rest hchunk
    rw [NextToken_eq_scanToken lexer '~' rest hcache hchunk (by decide) (by decide)]
    exact scanToken_tilde lexer rest hchunk

theorem unproduced_operator_kinds_witness :
    (TokenIdentifier ≠ TokenOpBNot ∧ TokenIdentifier ≠ TokenOpDiv ∧
        TokenIdentifier ≠ TokenOpIDiv) ∧
      NextToken (NewLexer "// c\nx".toList "f".toList) =
        (skipShortComment (NewLexer "// c\nx".toList "f".toList) >>= NextToken) ∧
      NextToken (NewLexer "/* c */ x".toList "f".toList) =
        (skipLongComment (NewLexer "/* c */ x".toList "f".toList) >>= NextToken) ∧
      NextToken (NewLexer "/ 2".toList "f".toList) =
        .error (.syntaxError "f line 1: Unexpected symbol near ''/''".toList) ∧
      NextToken (NewLexer "~x".toList "f".toList) =
        .error (.syntaxError "f line 1: Unexpected symbol near ''~''".toList) :=
  ⟨(unproduced_operator_kinds (NewLexer "x".toList "f".toList)).1
      ⟨"x".toList, "f".toList, Steps.refl _⟩ ⟨[], "f".toList, 1, [], 0, 0⟩ 1 TokenIdentifier
      "x".toList (by decide),
    (unproduced_operator_kinds (NewLexer "// c\nx".toList "f".toList)).2.1
      (by decide) (by decide),
    (unproduced_operator_kinds (NewLexer "/* c */ x".toList "f".toList)).2.2.1
      (by decide) (by decide),
    (unproduced_operator_kinds (NewLexer "/ 2".toList "f".toList)).2.2.2.1
      (by decide) " 2".toList rfl (by decide) (by decide),
    (unproduced_operator_kinds (NewLexer "~x".toList "f".toList)).2.2.2.2
      (by decide) "x".toList rfl⟩

/-! ## The line invariant -/

theorem NextToken_step {l l1 : Lexer} {tok : Token}
    (hi : 1 ≤ l.line ∧ 0 ≤ l.nextTokenLine ∧ (l.nextTokenLine > 0 → l.line ≤ l.nextTokenLine))
    (h : NextToken l = .ok (tok, l1)) :
    (1 ≤ l1.line ∧ 0 ≤ l1.nextTokenLine ∧ (l1.nextTokenLine > 0 → l1.line ≤ l1.nextTokenLine)) ∧
      l.line ≤ l1.line ∧ l1.line = tok.1 ∧ l1.nextTokenLine = 0 := by
  obtain ⟨hi1, hi2, hi3⟩ := hi
  by_cases hcache : l.nextTokenLine > 0
  · unfold NextToken at h
    rw [if_pos hcache] at h
    simp only [Except.ok.injEq, Prod.mk.injEq] at h
    obtain ⟨rfl, rfl⟩ := h
    have := hi3 hcache
    refine ⟨⟨?_, ?_, ?_⟩, ?_, rfl, rfl⟩
    · show 1 ≤ l.nextTokenLine
      omega
    · show (0 : Int) ≤ 0
      omega
    · intro h0
      exact absurd h0 (by show ¬ (0 : Int) > 0; omega)
    · exact this
  · obtain ⟨line, kind, lexeme⟩ := tok
    obtain ⟨sk, hs, hl, hl1, -⟩ := NextToken_spec hcache h
    obtain ⟨w, -, hw, hsk, -⟩ := skipWhiteSpaces_spec hs
    have e1 : l1.line = sk.line := by rw [hl1]
    have e2 : l1.nextTokenLine = l.nextTokenLine := by rw [hl1, hsk]
    have e3 : l.nextTokenLine = 0 := by omega
    refine ⟨⟨?_, ?_, ?_⟩, ?_, ?_, ?_⟩
    · rw [e1, hw]; omega
    · rw [e2]; exact hi2
    · intro h0; rw [e2] at h0; exact absurd h0 hcache
    · rw [e1, hw]; omega
    · show l1.line = line
      rw [e1, hl]
    · rw [e2, e3]

theorem LookAhead_step {l l1 : Lexer} {kind : Int}
    (hi : 1 ≤ l.line ∧ 0 ≤ l.nextTokenLine ∧ (l.nextTokenLine > 0 → l.line ≤ l.nextTokenLine))
    (h : LookAhead l = .ok (kind, l1)) :
    (1 ≤ l1.line ∧ 0 ≤ l1.nextTokenLine ∧ (l1.nextTokenLine > 0 → l1.line ≤ l1.nextTokenLine)) ∧
      l1.line = l.line ∧ l1.nextTokenLine > 0 := by
  obtain ⟨hi1, hi2, hi3⟩ := hi
  unfold LookAhead at h
  by_cases hcache : l.nextTokenLine > 0
  · rw [if_pos hcache] at h
    simp only [Except.ok.injEq, Prod.mk.injEq] at h
    obtain ⟨-, rfl⟩ := h
    exact ⟨⟨hi1, hi2, hi3⟩, rfl, hcache⟩
  · rw [if_neg hcache] at h
    cases hn : NextToken l with
    | error e => simp [hn, bind, Except.bind] at h
    | ok v =>
      obtain ⟨⟨line, k, token⟩, l0⟩ := v
      simp only [hn, bind, Except.bind, pure, Except.pure, Except.ok.injEq, Prod.mk.injEq] at h
      obtain ⟨-, rfl⟩ := h
      obtain ⟨sk, hs, hl, -, -⟩ := NextToken_spec hcache hn
      obtain ⟨w, -, hw, -, -⟩ := skipWhiteSpaces_spec hs
      have hge : l.line ≤ line := by rw [hl, hw]; omega
      refine ⟨⟨hi1, ?_, ?_⟩, rfl, ?_⟩
      · show 0 ≤ line
        omega
      · intro _
        exact hge
      · show line > 0
        omega

theorem Steps_invariant {l0 l : Lexer} (hs : Steps l0 l)
    (hi : 1 ≤ l0.line ∧ 0 ≤ l0.nextTokenLine ∧
      (l0.nextTokenLine > 0 → l0.line ≤ l0.nextTokenLine)) :
    (1 ≤ l.line ∧ 0 ≤ l.nextTokenLine ∧ (l.nextTokenLine > 0 → l.line ≤ l.nextTokenLine)) ∧
      l0.line ≤ l.line := by
  induction hs with
  | refl => exact ⟨hi, le_refl _⟩
  | next _ hn ih =>
    obtain ⟨h1, h2, -, -⟩ := NextToken_step ih.1 hn
    exact ⟨h1, le_trans ih.2 h2⟩
  | peek _ hp ih =>
    obtain ⟨h1, h2, -⟩ := LookAhead_step ih.1 hp
    exact ⟨h1, by rw [h2]; exact ih.2⟩

/-- Line invariant (C20): in every scanner state reachable from `NewLexer` by
successful `NextToken` and `LookAhead` calls the line is at least 1, the cache
line is 0 or positive, positive exactly after a `LookAhead` and 0 after a
`NextToken`, and a positive cache line is at least the current line; hence
`Line()` never decreases along further calls, a successful `NextToken` leaves
`Line()` equal to the line it returned, and the token of any later `NextToken`
carries a line at least as large. -/
theorem line_invariant (lexer : Lexer) (hr : Reachable lexer) :
    (1 ≤ lexer.line ∧ 0 ≤ lexer.nextTokenLine ∧
      (lexer.nextTokenLine > 0 → lexer.line ≤ lexer.nextTokenLine)) ∧
    (∀ l1, Steps lexer l1 → lexer.Line ≤ l1.Line) ∧
    (∀ tok l1, NextToken lexer = .ok (tok, l1) →
      l1.Line = tok.1 ∧ l1.nextTokenLine = 0 ∧
      ∀ l2 tok2 l3, Steps l1 l2 → NextToken l2 = .ok (tok2, l3) → tok.1 ≤ tok2.1) ∧
    (∀ kind l1, LookAhead lexer = .ok (kind, l1) →
      l1.Line = lexer.Line ∧ l1.nextTokenLine > 0) := by
  obtain ⟨chunk, name, hs⟩ := hr
  have h0 : 1 ≤ (NewLexer chunk name).line ∧ 0 ≤ (NewLexer chunk name).nextTokenLine ∧
      ((NewLexer chunk name).nextTokenLine > 0 →
        (NewLexer chunk name).line ≤ (NewLexer chunk name).nextTokenLine) :=
    ⟨le_refl (1 : Int), le_refl (0 : Int), fun h => absurd h (by show ¬ (0 : Int) > 0; omega)⟩
  have hi := (Steps_invariant hs h0).1
  refine ⟨hi, ?_, ?_, ?_⟩
  · intro l1 hs1
    exact (Steps_invariant hs1 hi).2
  · intro tok l1 hn
    obtain ⟨hi1, -, h2, h3⟩ := NextToken_step hi hn
    refine ⟨h2, h3, ?_⟩
    intro l2 tok2 l3 hs2 hn2
    obtain ⟨hi2, hle⟩ := Steps_invariant hs2 hi1
    obtain ⟨-, h4, h5, -⟩ := NextToken_step hi2 hn2
    rw [← h2, ← h5]
    exact le_trans hle h4
  · intro kind l1 hp
    obtain ⟨-, h2, h3⟩ := LookAhead_step hi hp
    exact ⟨h2, h3⟩

theorem line_invariant_witness :
    (1 ≤ (⟨"\ny".toList, "f".toList, 2, [], 0, 0⟩ : Lexer).line ∧
      0 ≤ (⟨"\ny".toList, "f".toList, 2, [], 0, 0⟩ : Lexer).nextTokenLine ∧
      ((⟨"\ny".toList, "f".toList, 2, [], 0, 0⟩ : Lexer).nextTokenLine > 0 →
        (⟨"\ny".toList, "f".toList, 2, [], 0, 0⟩ : Lexer).line ≤
          (⟨"\ny".toList, "f".toList, 2, [], 0, 0⟩ : Lexer).nextTokenLine)) ∧
    (∀ l1, Steps ⟨"\ny".toList, "f".toList, 2, [], 0, 0⟩ l1 →
      (⟨"\ny".toList, "f".toList, 2, [], 0, 0⟩ : Lexer).Line ≤ l1.Line) ∧
    (∀ tok l1, NextToken ⟨"\ny".toList, "f".toList, 2, [], 0, 0⟩ = .ok (tok, l1) →
      l1.Line = tok.1 ∧ l1.nextTokenLine = 0 ∧
      ∀ l2 tok2 l3, Steps l1 l2 → NextToken l2 = .ok (tok2, l3) → tok.1 ≤ tok2.1) ∧
    (∀ kind l1, LookAhead ⟨"\ny".toList, "f".toList, 2, [], 0, 0⟩ = .ok (kind, l1) →
      l1.Line = (⟨"\ny".toList, "f".toList, 2, [], 0, 0⟩ : Lexer).Line ∧
        l1.nextTokenLine > 0) :=
  line_invariant ⟨"\ny".toList, "f".toList, 2, [], 0, 0⟩
    ⟨"\nx\ny".toList, "f".toList,
      Steps.next (Steps.refl _)
        (by decide : NextToken (NewLexer "\nx\ny".toList "f".toList) =
          .ok ((2, TokenIdentifier, "x".toList), ⟨"\ny".toList, "f".toList, 2, [], 0, 0⟩))⟩

end Snail
